import Mathlib

/-!
# GRoot runner: event journal, shadow streams and resume

Shallow embedding of `runner/groot_runner.go` (EventLog, LogEvent, LogActivity,
ResumerEventLog, NewGRootRunner's choice of journal, findAgentToRun,
isTransferableAcrossAgentTree), `runner/internal/groot_client.go` (Session, Shadow,
ReadAll, Wait) and `runner/internal/registry.go` (Registry) of the adk-go repository,
with the properties proved about them.

Modelling conventions
* Go state (the journal file, the websocket connection, the uuid source) is passed
  explicitly in a `World`; every operation returns its result together with the
  new state.
* A Go call either returns normally with a nil error (`Res.ok`), returns a non-nil
  error (`Res.error`), panics (`Res.panic`) or never returns because it blocks in
  a read on a connection that delivers nothing more (`Res.blocked`).
* `inbox` of a connection lists, in order, the messages that arrive, each written as
  the value a `ReadJSON` into a new `resp` gives (the reads of `ReadAll`); `peer` is
  the remote end: the messages it enqueues in reaction to a message written to it.
* `Shadow.Wait` reads into the one `resp` it declares before its loop, so there a
  message is a JSON object decoded key by key into what the earlier reads left
  (`Shadow.waitLoop`, over any sequence of such objects, `null` frames included). An
  `inbox` message has the keys of its non-zero fields: the encoding of the struct tags
  (`omitempty`), under which a frame with `continued` false has no `continued` key.
* Elements of `StreamFrames` are frame objects (the wire schema); `StreamFrame.Data`
  and `Chunk.Data` may be nil and are options.
* `encoding/json` for events is a parameter (`JSONCodec`).
* The journal is read as `bufio.Scanner` reads it: lines cut at newlines, one trailing
  carriage return dropped, and an error on a line of `MaxScanTokenSize` bytes or more.
* A loop whose end depends on its data (the walk up the parent map) takes a number of
  turns as fuel and returns `none` when they are used up.
-/

namespace Groot

/-! ## Results -/

/-- Outcome of a Go call: normal return without error, return of a non-nil error,
a run-time panic, or blocking forever in a read. -/
inductive Res (α : Type) where
  | ok (a : α)
  | error (msg : String)
  | panic (msg : String)
  | blocked
  deriving DecidableEq, Repr

/-! ## Wire types (`groot_client.go`) -/

structure Port where
  Name : String
  StreamID : String
  deriving DecidableEq, Repr

structure Action where
  Name : String
  Inputs : List Port
  Outputs : List Port
  deriving DecidableEq, Repr

structure ActionGraph where
  Actions : List Action
  Outputs : List Port
  deriving DecidableEq, Repr

/-- One data unit; `Data` is `none` for a nil byte slice. -/
structure Chunk where
  MIMEType : String
  Data : Option (List UInt8)
  deriving DecidableEq, Repr

/-- One frame; `Data` is `none` for a nil chunk pointer. -/
structure StreamFrame where
  StreamID : String
  Data : Option Chunk
  Continued : Bool
  deriving DecidableEq, Repr

structure executeActionsMsg where
  SessionID : String
  ActionGraph : Option ActionGraph
  StreamFrames : List StreamFrame
  deriving DecidableEq, Repr

/-! ## Events

Modelled from the spec: the types `session.Event`, `llm.Response` and
`genai.Content` are declared outside `src/`; the fields are the ones the source
reads (`Author`, `Partial`, `LLMResponse`, `LLMResponse.Content`,
`LLMResponse.Partial`, `Content.Parts`). -/

/-- Modelled from the spec: `genai.Content`, the response content (role and text parts). -/
structure Content where
  Role : String
  Parts : List String
  deriving DecidableEq, Repr

/-- Modelled from the spec: `llm.Response`; `Content` is `none` for a nil pointer. -/
structure Response where
  Content : Option Content
  Partial : Bool
  deriving DecidableEq, Repr

/-- Modelled from the spec: `session.Event` (author, response content, partial flag);
`LLMResponse` is `none` for a nil pointer. -/
structure Event where
  Author : String
  Partial : Bool
  LLMResponse : Option Response
  deriving DecidableEq, Repr

/-- The functions `json.Marshal` and `json.Unmarshal` at type `session.Event`. -/
structure JSONCodec where
  Marshal : Event → Except String (List UInt8)
  Unmarshal : List UInt8 → Except String Event

/-- An event is JSON-representable when marshalling succeeds and unmarshalling the
bytes gives the event back. -/
def JSONCodec.Representable (J : JSONCodec) (e : Event) : Prop :=
  ∃ b, J.Marshal e = .ok b ∧ J.Unmarshal b = .ok e

/-! ## The world: connection, file system, uuid source -/

/-- The websocket connection of a `Client`. -/
structure Conn where
  /-- messages handed to the transport so far, oldest first -/
  sent : List executeActionsMsg
  /-- what the next `ReadJSON` calls produce, in order; empty: the read blocks -/
  inbox : List (Except String executeActionsMsg)
  /-- outcomes of the next `WriteJSON` calls (`some err`: the write fails); empty: success -/
  wfaults : List (Option String)
  /-- the remote end: what it enqueues when a message arrives, given the earlier ones -/
  peer : List executeActionsMsg → executeActionsMsg → List (Except String executeActionsMsg)

/-- The file system as far as the journal is concerned. -/
structure FS where
  /-- content of each existing file -/
  files : String → Option String
  /-- paths whose opening fails, with the error -/
  openErr : String → Option String
  /-- outcomes of the next file writes (`some err`: the write fails); empty: success -/
  wfaults : List (Option String)

structure World where
  fs : FS
  conn : Conn
  /-- the values `uuid.NewString` returns, by call number -/
  uuids : Nat → String
  uuidNext : Nat

/-- An open file (`*os.File`), identified by its path. -/
structure File where
  name : String
  deriving DecidableEq, Repr

/-- The call `uuid.NewString()`. -/
def World.NewString (w : World) : String × World :=
  (w.uuids w.uuidNext, { w with uuidNext := w.uuidNext + 1 })

/-- The call `conn.WriteJSON(m)`: fails as the fault script says; otherwise the message
is sent and the peer reacts. The result is the Go `error` (`none` is nil). -/
def Conn.WriteJSON (c : Conn) (m : executeActionsMsg) : Option String × Conn :=
  match c.wfaults with
  | some err :: rest => (some err, { c with wfaults := rest })
  | none :: rest =>
    (none, { c with sent := c.sent ++ [m], inbox := c.inbox ++ c.peer c.sent m, wfaults := rest })
  | [] => (none, { c with sent := c.sent ++ [m], inbox := c.inbox ++ c.peer c.sent m })

/-- The call `conn.ReadJSON(&resp)` with a new `resp`. -/
def Conn.ReadJSON (c : Conn) : Res executeActionsMsg × Conn :=
  match c.inbox with
  | [] => (.blocked, c)
  | .error err :: rest => (.error err, { c with inbox := rest })
  | .ok m :: rest => (.ok m, { c with inbox := rest })

/-- Content of the file at a path; an absent file reads as empty. -/
def FS.content (fs : FS) (name : String) : String :=
  (fs.files name).getD ""

def FS.set (fs : FS) (name : String) (data : String) : FS :=
  { fs with files := fun n => if n = name then some data else fs.files n }

/-- The call `os.OpenFile(name, O_CREATE|..., 0644)`, with or without `O_TRUNC`. -/
def FS.OpenFile (fs : FS) (name : String) (trunc : Bool) : Except String File × FS :=
  match fs.openErr name with
  | some err => (.error err, fs)
  | none =>
    match fs.files name with
    | none => (.ok ⟨name⟩, fs.set name "")
    | some _ => if trunc then (.ok ⟨name⟩, fs.set name "") else (.ok ⟨name⟩, fs)

/-- The call `fmt.Fprintf(f, ...)` with the formatted text `s`: appends `s` to the file
unless the write fails. The result is the Go `error` (`none` is nil). -/
def FS.Fprintf (fs : FS) (f : File) (s : String) : Option String × FS :=
  match fs.wfaults with
  | some err :: rest => (some err, { fs with wfaults := rest })
  | none :: rest => (none, { (fs.set f.name (fs.content f.name ++ s)) with wfaults := rest })
  | [] => (none, fs.set f.name (fs.content f.name ++ s))

/-! ## Session and Shadow (`groot_client.go`) -/

/-- A session; its client's connection is `World.conn`. -/
structure Session where
  sessionID : String
  deriving DecidableEq, Repr

structure Shadow where
  sess : Session
  displayName : String
  input : String
  output : String
  waitStreamID : String
  deriving DecidableEq, Repr

/-- `Client.OpenSession`: local bookkeeping only, never fails. -/
def OpenSession (sessionID : String) : Except String Session :=
  .ok { sessionID := sessionID }

def Session.ID (s : Session) : String := s.sessionID

/-- `Session.writeStreamFrame`: one frame-only message holding the frame. -/
def Session.writeStreamFrame (_s : Session) (c : Conn) (sf : StreamFrame) : Option String × Conn :=
  c.WriteJSON { SessionID := "", ActionGraph := none, StreamFrames := [sf] }

/-- `Shadow.WriteFrame`. -/
def Shadow.WriteFrame (s : Shadow) (c : Conn) (id : String) (ch : Chunk) (continued : Bool) :
    Option String × Conn :=
  s.sess.writeStreamFrame c { StreamID := id, Data := some ch, Continued := continued }

/-- The message `Session.writeShadowAction` sends. -/
def saveStreamMsg (sessionID output waitID : String) : executeActionsMsg :=
  { SessionID := sessionID
    ActionGraph := some
      { Actions := [{ Name := "save_stream"
                      Inputs := [{ Name := "input", StreamID := output }]
                      Outputs := [{ Name := "output", StreamID := waitID }] }]
        Outputs := [{ Name := "output", StreamID := waitID }] }
    StreamFrames := [] }

/-- `Session.writeShadowAction`: draws the wait id, sends the save_stream graph. -/
def Session.writeShadowAction (s : Session) (w : World) (_name _input output : String) :
    Except String String × World :=
  let (waitID, w1) := w.NewString
  match w1.conn.WriteJSON (saveStreamMsg s.sessionID output waitID) with
  | (some err, c) => (.error err, { w1 with conn := c })
  | (none, c) => (.ok waitID, { w1 with conn := c })

/-- `Session.NewADKShadow`. -/
def Session.NewADKShadow (s : Session) (w : World) (name input output : String) :
    Except String Shadow × World :=
  match s.writeShadowAction w name input output with
  | (.error err, w1) => (.error err, w1)
  | (.ok waitID, w1) =>
    (.ok { sess := s, displayName := name, input := input, output := output,
           waitStreamID := waitID }, w1)

/-! ### `Shadow.Wait`

`Shadow.Wait` declares `resp` once, before its loop, so every `ReadJSON(&resp)` decodes
the incoming JSON object into the value the reads before have left (`encoding/json`):
a key that is absent leaves its field as it was; `null` sets a pointer or a slice to
nil and leaves a string or a bool alone; an array is decoded element by element into
the slots of the slice's backing array, an object into the struct its slot already
points to. Of `resp` the loop reads `StreamFrames` only. -/

/-- A key of an incoming JSON object: absent, `null`, or present with a value. -/
inductive Key (α : Type) where
  | absent
  | null
  | value (a : α)
  deriving DecidableEq, Repr

/-- A chunk object of an incoming message. -/
structure WireChunk where
  mimeType : Key String
  data : Key (List UInt8)
  deriving DecidableEq, Repr

/-- A frame object of an incoming message. -/
structure WireFrame where
  streamId : Key String
  data : Key WireChunk
  continued : Key Bool
  deriving DecidableEq, Repr

/-- The `streamFrames` key of an incoming message; an element of its array is a frame
object, or `none` for `null`. -/
abbrev WireFrames := Key (List (Option WireFrame))

/-- The field `resp.StreamFrames`: the slots of the backing array (`none` is a nil
pointer, and so is every slot past the list), of which the first `len` make the slice. -/
structure FrameSlice where
  slots : List (Option StreamFrame)
  len : Nat
  deriving DecidableEq, Repr

/-- Decoding into a string field. -/
def decodeString (old : String) : Key String → String
  | .value s => s
  | _ => old

/-- Decoding into a bool field. -/
def decodeBool (old : Bool) : Key Bool → Bool
  | .value b => b
  | _ => old

/-- Decoding into a byte-slice field. -/
def decodeBytes (old : Option (List UInt8)) : Key (List UInt8) → Option (List UInt8)
  | .absent => old
  | .null => none
  | .value b => some b

/-- Decoding into a `*Chunk` field: an object goes into the chunk pointed to, a new one
if the pointer is nil. -/
def decodeChunk (old : Option Chunk) : Key WireChunk → Option Chunk
  | .absent => old
  | .null => none
  | .value c =>
    let base : Chunk := old.getD { MIMEType := "", Data := none }
    some { MIMEType := decodeString base.MIMEType c.mimeType
           Data := decodeBytes base.Data c.data }

/-- Decoding one array element into a slot of `[]*StreamFrame`: `null` makes the slot
nil, an object goes into the frame pointed to, a new one if the slot is nil. -/
def decodeFrame (old : Option StreamFrame) : Option WireFrame → Option StreamFrame
  | none => none
  | some f =>
    let base : StreamFrame := old.getD { StreamID := "", Data := none, Continued := false }
    some { StreamID := decodeString base.StreamID f.streamId
           Data := decodeChunk base.Data f.data
           Continued := decodeBool base.Continued f.continued }

/-- Decoding a non-empty array into the slots: element `i` goes into slot `i`; the slots
past the array stay in the backing array. -/
def decodeArray : List (Option StreamFrame) → List (Option WireFrame) → List (Option StreamFrame)
  | slots, [] => slots
  | [], f :: fs => decodeFrame none f :: decodeArray [] fs
  | slot :: slots, f :: fs => decodeFrame slot f :: decodeArray slots fs

/-- Decoding the `streamFrames` key into `resp.StreamFrames`: absent, the slice stays;
`null`, it becomes nil; an empty array, it becomes a new empty slice; otherwise the
elements are decoded into the slots and the length is that of the array. -/
def decodeStreamFrames (resp : FrameSlice) : WireFrames → FrameSlice
  | .absent => resp
  | .null => { slots := [], len := 0 }
  | .value [] => { slots := [], len := 0 }
  | .value (f :: fs) => { slots := decodeArray resp.slots (f :: fs), len := (f :: fs).length }

/-- The frames `range resp.StreamFrames` runs over. -/
def FrameSlice.frames (resp : FrameSlice) : List (Option StreamFrame) :=
  resp.slots.take resp.len

/-- What the inner loop of `Shadow.Wait` comes to. -/
inductive Seen where
  /-- a frame on the wait stream that is not continued: `return nil` -/
  | terminal
  /-- the frames are used up: the outer loop goes on -/
  | nothing
  /-- a nil frame: `frame.StreamID` panics -/
  | nilFrame
  deriving DecidableEq, Repr

/-- The inner loop of `Shadow.Wait`, over the frames of `resp`. -/
def Shadow.scan (s : Shadow) : List (Option StreamFrame) → Seen
  | [] => .nothing
  | none :: _ => .nilFrame
  | some frame :: frames =>
    if frame.StreamID = s.waitStreamID && !frame.Continued then .terminal
    else Shadow.scan s frames

/-- The loop of `Shadow.Wait` over the incoming messages, `resp` being carried from one
read to the next; returns the result and the number of messages read. -/
def Shadow.waitLoop (s : Shadow) : FrameSlice → List (Except String WireFrames) → Res Unit × Nat
  | _, [] => (.blocked, 0)
  | _, .error err :: _ => (.error err, 1)
  | resp, .ok m :: rest =>
    match s.scan (decodeStreamFrames resp m).frames with
    | .terminal => (.ok (), 1)
    | .nilFrame => (.panic "invalid memory address or nil pointer dereference", 1)
    | .nothing =>
      ((Shadow.waitLoop s (decodeStreamFrames resp m) rest).1,
       (Shadow.waitLoop s (decodeStreamFrames resp m) rest).2 + 1)

/-- The JSON object of a chunk of an `inbox` message: the keys of its non-zero fields. -/
def Chunk.wire (c : Chunk) : WireChunk :=
  { mimeType := if c.MIMEType = "" then .absent else .value c.MIMEType
    data := match c.Data with
      | none => .absent
      | some b => .value b }

/-- The JSON object of a frame of an `inbox` message: the keys of its non-zero fields
(the struct tags say `omitempty`). -/
def StreamFrame.wire (f : StreamFrame) : WireFrame :=
  { streamId := if f.StreamID = "" then .absent else .value f.StreamID
    data := match f.Data with
      | none => .absent
      | some c => .value c.wire
    continued := if f.Continued then .value true else .absent }

/-- The `streamFrames` key of an `inbox` message; no key when there is no frame. -/
def executeActionsMsg.wireFrames (m : executeActionsMsg) : WireFrames :=
  if m.StreamFrames = [] then .absent else .value (m.StreamFrames.map (fun f => some f.wire))

/-- What a read of the connection hands to the decoder in `Shadow.Wait`. -/
def wireRead : Except String executeActionsMsg → Except String WireFrames
  | .error err => .error err
  | .ok m => .ok m.wireFrames

/-- `Shadow.Wait`: `resp` starts as the zero value. -/
def Shadow.Wait (s : Shadow) (c : Conn) : Res Unit × Conn :=
  let (r, n) := s.waitLoop { slots := [], len := 0 } (c.inbox.map wireRead)
  (r, { c with inbox := c.inbox.drop n })

/-- The message `Session.ReadAll` sends. -/
def restoreStreamMsg (sessionID id : String) : executeActionsMsg :=
  { SessionID := sessionID
    ActionGraph := some
      { Actions := [{ Name := "restore_stream"
                      Inputs := []
                      Outputs := [{ Name := "output", StreamID := id }] }]
        Outputs := [{ Name := "output", StreamID := id }] }
    StreamFrames := [] }

/-- Inner loop of `Session.ReadAll` over the frames of one message: appends each chunk;
the flag tells whether a frame with `Continued = false` ended the read. -/
def readAllFrames : List StreamFrame → List (Option Chunk) → List (Option Chunk) × Bool
  | [], chunks => (chunks, false)
  | frame :: frames, chunks =>
    if !frame.Continued then (chunks ++ [frame.Data], true)
    else readAllFrames frames (chunks ++ [frame.Data])

/-- Outer loop of `Session.ReadAll` over what the reads produce. -/
def readAllLoop : List (Except String executeActionsMsg) → List (Option Chunk) →
    Res (List (Option Chunk)) × List (Except String executeActionsMsg)
  | [], _ => (.blocked, [])
  | .error err :: rest, _ => (.error err, rest)
  | .ok resp :: rest, chunks =>
    match readAllFrames resp.StreamFrames chunks with
    | (chunks1, true) => (.ok chunks1, rest)
    | (chunks1, false) => readAllLoop rest chunks1

/-- `Session.ReadAll`. -/
def Session.ReadAll (s : Session) (c : Conn) (id : String) : Res (List (Option Chunk)) × Conn :=
  match c.WriteJSON (restoreStreamMsg s.sessionID id) with
  | (some err, c1) => (.error err, c1)
  | (none, c1) =>
    let (r, rest) := readAllLoop c1.inbox []
    (r, { c1 with inbox := rest })

/-! ## EventLog (`groot_runner.go`) -/

/-- The journal with its session and the Shadow table (a Go map, keyed by output id). -/
structure EventLog where
  logFile : File
  session : Session
  shadows : List (String × Shadow)
  deriving DecidableEq, Repr

/-- The map assignment `shadows[k] = v`. -/
def mapSet (m : List (String × Shadow)) (k : String) (v : Shadow) : List (String × Shadow) :=
  (k, v) :: m.filter (fun p => decide (p.1 ≠ k))

/-- The map lookup `shadows[k]`. -/
def mapGet (m : List (String × Shadow)) (k : String) : Option Shadow :=
  (m.find? (fun p => decide (p.1 = k))).map Prod.snd

/-- The call `f.Sync()`; callers discard its error, and it changes no content. -/
def FS.Sync (fs : FS) (_f : File) : FS := fs

/-- `NewEventLog`: a session with a new id, and the file opened with `O_TRUNC`. -/
def NewEventLog (w : World) (filename : String) : Except String EventLog × World :=
  let (id, w1) := w.NewString
  match OpenSession id with
  | .error err => (.error err, w1)
  | .ok sess =>
    match w1.fs.OpenFile filename true with
    | (.error err, fs1) => (.error err, { w1 with fs := fs1 })
    | (.ok file, fs1) =>
      (.ok { logFile := file, session := sess, shadows := [] }, { w1 with fs := fs1 })

/-- The guard of `LogEvent`: the event has a response with content. -/
def Event.hasContent (event : Event) : Bool :=
  match event.LLMResponse with
  | none => false
  | some resp => resp.Content.isSome

/-- The journal line of `LogEvent`. -/
def streamLine (sessionID id : String) : String :=
  sessionID ++ "|stream|" ++ id ++ "\n"

/-- The journal line of `LogActivity`. -/
def activityLine (sessionID kind name input output : String) : String :=
  sessionID ++ "|" ++ kind ++ "|" ++ name ++ "|" ++ input ++ "|" ++ output ++ "\n"

/-- `EventLog.LogEvent`. The result is the Go `error` (`none` is nil). -/
def EventLog.LogEvent (J : JSONCodec) (e : EventLog) (w : World) (id : String) (event : Event) :
    Option String × World :=
  if !event.hasContent then (none, w)
  else
    match mapGet e.shadows id with
    | none => (some ("no shadow found for output ID: " ++ id), w)
    | some shadow =>
      -- the result of Fprintf is not looked at
      let fs1 := (w.fs.Fprintf e.logFile (streamLine e.session.ID id)).2
      let fs2 := fs1.Sync e.logFile
      let w1 := { w with fs := fs2 }
      match J.Marshal event with
      | .error err => (some err, w1)
      | .ok out =>
        let (err, c1) :=
          shadow.WriteFrame w1.conn id { MIMEType := "application/json", Data := some out }
            event.Partial
        (err, { w1 with conn := c1 })

/-- `EventLog.LogActivity`. The result is the Go `error` (`none` is nil). -/
def EventLog.LogActivity (e : EventLog) (w : World) (kind name input output : String) :
    Option String × EventLog × World :=
  match e.session.NewADKShadow w name input output with
  | (.error err, w1) => (some err, e, w1)
  | (.ok shadow, w1) =>
    let e1 := { e with shadows := mapSet e.shadows output shadow }
    let (err, fs1) := w1.fs.Fprintf e.logFile (activityLine e.session.ID kind name input output)
    let fs2 := fs1.Sync e.logFile
    (err, e1, { w1 with fs := fs2 })

/-! ## Resume -/

/-- The constant `bufio.MaxScanTokenSize`. -/
def MaxScanTokenSize : Nat := 64 * 1024

/-- The lines `bufio.ScanLines` cuts the text into, before the trailing carriage return
is dropped: split at each newline; a last line without newline counts if not empty. -/
def rawLines : List Char → List (List Char)
  | [] => []
  | c :: cs =>
    if c = '\n' then [] :: rawLines cs
    else
      match rawLines cs with
      | [] => [[c]]
      | l :: ls => (c :: l) :: ls

/-- The helper `dropCR` of `bufio.ScanLines`: drops one trailing carriage return. -/
def dropCR (l : List Char) : List Char :=
  if l.getLast? = some '\r' then l.dropLast else l

/-- The call `strings.Split(s, sep)` for a one-character separator, on characters. -/
def splitChars (sep : Char) : List Char → List (List Char)
  | [] => [[]]
  | c :: cs =>
    if c = sep then [] :: splitChars sep cs
    else
      match splitChars sep cs with
      | [] => [[c]]
      | p :: ps => (c :: p) :: ps

/-- The call `strings.Split(line, "|")`. -/
def Split (line : String) : List String :=
  (splitChars '|' line.data).map String.mk

/-- The scanning loop of `ResumerEventLog` over the raw lines, with `sessionID` and
`eventIDs` as accumulated so far. A line of `MaxScanTokenSize` bytes or more stops the
scanner with its error; an index beyond the split fields panics. -/
def scanJournal : List (List Char) → String → List String → Res (String × List String)
  | [], sessionID, eventIDs => .ok (sessionID, eventIDs)
  | raw :: rest, sessionID, eventIDs =>
    if MaxScanTokenSize ≤ (String.mk raw).utf8ByteSize then
      .error "bufio.Scanner: token too long"
    else
      let parts := Split (String.mk (dropCR raw))
      match parts[1]? with
      | none => .panic "index out of range [1]"
      | some kind =>
        if kind = "stream" then
          match parts[2]? with
          | none => .panic "index out of range [2]"
          | some id => scanJournal rest (parts.headD "") (eventIDs ++ [id])
        else scanJournal rest sessionID eventIDs

/-- The loop of `ResumerEventLog` over the chunks of one stream. -/
def hydrateChunks (J : JSONCodec) : List (Option Chunk) → List Event → Except String (List Event)
  | [], events => .ok events
  | none :: rest, events => hydrateChunks J rest events
  | some chunk :: rest, events =>
    match chunk.Data with
    | none => hydrateChunks J rest events
    | some data =>
      if chunk.MIMEType ≠ "application/json" then
        .error ("expected application/json, got " ++ chunk.MIMEType)
      else
        match J.Unmarshal data with
        | .error err => .error err
        | .ok event => hydrateChunks J rest (events ++ [event])

/-- The loop of `ResumerEventLog` over the collected stream ids. -/
def hydrate (J : JSONCodec) (sess : Session) :
    List String → Conn → List Event → Res (List Event) × Conn
  | [], c, events => (.ok events, c)
  | id :: ids, c, events =>
    match sess.ReadAll c id with
    | (.ok chunks, c1) =>
      match hydrateChunks J chunks events with
      | .error err => (.error err, c1)
      | .ok events1 => hydrate J sess ids c1 events1
    | (.error err, c1) => (.error err, c1)
    | (.panic msg, c1) => (.panic msg, c1)
    | (.blocked, c1) => (.blocked, c1)

/-- `ResumerEventLog`: returns the EventLog and the events, or fails. -/
def ResumerEventLog (J : JSONCodec) (w : World) (filename : String) :
    Res (EventLog × List Event) × World :=
  match w.fs.OpenFile filename false with
  | (.error err, fs1) => (.error err, { w with fs := fs1 })
  | (.ok file, fs1) =>
    let w1 := { w with fs := fs1 }
    match scanJournal (rawLines (fs1.content file.name).data) "" [] with
    | .error err => (.error err, w1)
    | .panic msg => (.panic msg, w1)
    | .blocked => (.blocked, w1)
    | .ok (sessionID, eventIDs) =>
      match OpenSession sessionID with
      | .error err => (.error err, w1)
      | .ok sess =>
        match hydrate J sess eventIDs w1.conn [] with
        | (.error err, c1) => (.error err, { w1 with conn := c1 })
        | (.panic msg, c1) => (.panic msg, { w1 with conn := c1 })
        | (.blocked, c1) => (.blocked, { w1 with conn := c1 })
        | (.ok events, c1) =>
          (.ok ({ logFile := file, session := sess, shadows := [] }, events),
            { w1 with conn := c1 })

/-! ## Environment used to run the journal end to end -/

/-- Whether a message asks to save stream `id`: it carries a `save_stream` action with
an input port bound to `id`. -/
def savesStream (m : executeActionsMsg) (id : String) : Bool :=
  match m.ActionGraph with
  | none => false
  | some g =>
    g.Actions.any (fun a => decide (a.Name = "save_stream") &&
      a.Inputs.any (fun p => decide (p.StreamID = id)))

/-- The stream a message asks to restore: the first output port of its first
`restore_stream` action. -/
def restoresStream (m : executeActionsMsg) : Option String :=
  match m.ActionGraph with
  | none => none
  | some g =>
    match g.Actions.find? (fun a => decide (a.Name = "restore_stream")) with
    | none => none
    | some a => a.Outputs.head?.map (fun p => p.StreamID)

/-- The frames a persisting backend holds for stream `id` after the messages of a
history: the frames written to `id` from the first request to save `id` on. -/
def persisted (id : String) : Bool → List executeActionsMsg → List StreamFrame
  | _, [] => []
  | saved, m :: ms =>
    let saved1 := saved || savesStream m id
    (if saved1 then m.StreamFrames.filter (fun f => decide (f.StreamID = id)) else [])
      ++ persisted id saved1 ms

/-- A backend that persists each frame written to a saved stream and, on a
`restore_stream` read, streams the persisted frames of that stream back, one message
per frame; it sends nothing else. -/
def persistingBackend (history : List executeActionsMsg) (m : executeActionsMsg) :
    List (Except String executeActionsMsg) :=
  match restoresStream m with
  | none => []
  | some id =>
    (persisted id false history).map
      (fun f => .ok { SessionID := m.SessionID, ActionGraph := none, StreamFrames := [f] })

/-- A peer that never sends anything by itself. -/
def silentPeer (_history : List executeActionsMsg) (_m : executeActionsMsg) :
    List (Except String executeActionsMsg) := []

/-- A small codec standing for `encoding/json` at concrete inputs: flag bytes and
length-prefixed strings of one-byte characters; anything else is an error. -/
def encStr (s : String) : Option (List UInt8) :=
  if s.data.length < 256 ∧ s.data.all (fun ch => decide (ch.toNat < 256)) then
    some (UInt8.ofNat s.data.length :: s.data.map (fun ch => UInt8.ofNat ch.toNat))
  else none

def decStr (b : List UInt8) : Option (String × List UInt8) :=
  match b with
  | [] => none
  | n :: rest =>
    if n.toNat ≤ rest.length then
      some (String.mk ((rest.take n.toNat).map (fun x => Char.ofNat x.toNat)), rest.drop n.toNat)
    else none

def encBool (b : Bool) : UInt8 := if b then 1 else 0

def decBool (x : UInt8) : Option Bool :=
  if x = 0 then some false else if x = 1 then some true else none

def sampleMarshal (event : Event) : Except String (List UInt8) :=
  match encStr event.Author with
  | none => .error "json: unsupported value"
  | some a =>
    match event.LLMResponse with
    | none => .ok (encBool event.Partial :: a ++ [0])
    | some resp =>
      match resp.Content with
      | none => .ok (encBool event.Partial :: a ++ [1, encBool resp.Partial, 0])
      | some content =>
        match encStr content.Role, content.Parts.mapM encStr with
        | some r, some ps =>
          .ok (encBool event.Partial :: a ++ [1, encBool resp.Partial, 1] ++ r ++
            UInt8.ofNat ps.length :: ps.flatten)
        | _, _ => .error "json: unsupported value"

def decParts : Nat → List UInt8 → Option (List String)
  | 0, [] => some []
  | 0, _ :: _ => none
  | n + 1, b =>
    match decStr b with
    | none => none
    | some (s, rest) => (decParts n rest).map (fun ps => s :: ps)

def sampleUnmarshal (b : List UInt8) : Except String Event :=
  let bad : Except String Event := .error "invalid character"
  match b with
  | [] => bad
  | p :: rest =>
    match decBool p, decStr rest with
    | some isP, some (author, rest1) =>
      match rest1 with
      | [0] => .ok { Author := author, Partial := isP, LLMResponse := none }
      | [1, rp, 0] =>
        (match decBool rp with
         | some rP =>
           .ok { Author := author, Partial := isP, LLMResponse := some ⟨none, rP⟩ }
         | none => bad)
      | 1 :: rp :: 1 :: rest2 =>
        (match decBool rp, decStr rest2 with
         | some rP, some (role, n :: rest3) =>
           (match decParts n.toNat rest3 with
            | some ps =>
              .ok { Author := author, Partial := isP
                    LLMResponse := some ⟨some ⟨role, ps⟩, rP⟩ }
            | none => bad)
         | _, _ => bad)
      | _ => bad
    | _, _ => bad

def sampleJSON : JSONCodec :=
  { Marshal := sampleMarshal, Unmarshal := sampleUnmarshal }

/-! ## Concrete inputs -/

def sampleFS : FS :=
  { files := fun _ => none, openErr := fun _ => none, wfaults := [] }

/-- A world with no journal yet, a connection to a persisting backend and no faults. -/
def sampleWorld : World :=
  { fs := sampleFS
    conn := { sent := [], inbox := [], wfaults := [], peer := persistingBackend }
    uuids := fun n => "uuid-" ++ toString n
    uuidNext := 0 }

/-- An event with response content, partial. -/
def evPartial : Event :=
  { Author := "agentA", Partial := true
    LLMResponse := some { Content := some { Role := "model", Parts := ["he"] }, Partial := true } }

/-- An event with response content, not partial. -/
def evFinal : Event :=
  { Author := "agentA", Partial := false
    LLMResponse := some { Content := some { Role := "model", Parts := ["hello"] }, Partial := false } }

/-- An event with no response. -/
def evBare (isPartial : Bool) : Event :=
  { Author := "agentA", Partial := isPartial, LLMResponse := none }

/-- An EventLog on `j.log` with session `s1` and an empty Shadow table. -/
def sampleLog : EventLog :=
  { logFile := ⟨"j.log"⟩, session := ⟨"s1"⟩, shadows := [] }

def shadowOut1 : Shadow :=
  { sess := ⟨"s1"⟩, displayName := "agentA", input := "in1", output := "out1",
    waitStreamID := "w1" }

/-- An EventLog on `j.log` with session `s1` and a Shadow registered for `out1`. -/
def sampleLogOut1 : EventLog :=
  { logFile := ⟨"j.log"⟩, session := ⟨"s1"⟩, shadows := [("out1", shadowOut1)] }

/-- The sample world with a connection whose next write fails. -/
def brokenWorld : World :=
  { sampleWorld with conn := { sampleWorld.conn with wfaults := [some "broken pipe"] } }

/-- No frame of the message is a terminal frame of the wait stream of `s`: each is on
another stream or is continued. -/
def Shadow.Decoy (s : Shadow) (m : executeActionsMsg) : Prop :=
  ∀ f ∈ m.StreamFrames, f.StreamID ≠ s.waitStreamID ∨ f.Continued = true

/-- The message holds a terminal frame on the wait stream of `s`. -/
def Shadow.Terminal (s : Shadow) (m : executeActionsMsg) : Prop :=
  ∃ f ∈ m.StreamFrames, f.StreamID = s.waitStreamID ∧ f.Continued = false

instance (s : Shadow) (m : executeActionsMsg) : Decidable (s.Decoy m) := by
  unfold Shadow.Decoy; infer_instance

instance (s : Shadow) (m : executeActionsMsg) : Decidable (s.Terminal m) := by
  unfold Shadow.Terminal; infer_instance

/-- Every frame of the message is a terminal frame of a stream other than the wait
stream of `s`: the message holds no continued frame. -/
def Shadow.Other (s : Shadow) (m : executeActionsMsg) : Prop :=
  ∀ f ∈ m.StreamFrames, f.StreamID ≠ s.waitStreamID ∧ f.Continued = false

instance (s : Shadow) (m : executeActionsMsg) : Decidable (s.Other m) := by
  unfold Shadow.Other; infer_instance

/-- A frame-only message with one frame carrying no chunk. -/
def frameMsg (streamID : String) (continued : Bool) : executeActionsMsg :=
  { SessionID := "", ActionGraph := none
    StreamFrames := [{ StreamID := streamID, Data := none, Continued := continued }] }

/-- One message holding the terminal frames of the wait streams `wA` and `wB`. -/
def bothTerminalMsg : executeActionsMsg :=
  { SessionID := "", ActionGraph := none
    StreamFrames := [{ StreamID := "wA", Data := none, Continued := false },
                     { StreamID := "wB", Data := none, Continued := false }] }

def shadowA : Shadow :=
  { sess := ⟨"s1"⟩, displayName := "agentA", input := "inA", output := "outA",
    waitStreamID := "wA" }

def shadowB : Shadow :=
  { sess := ⟨"s1"⟩, displayName := "agentB", input := "inB", output := "outB",
    waitStreamID := "wB" }

/-- A connection with a given script of incoming messages and a silent peer. -/
def connWith (inbox : List (Except String executeActionsMsg)) : Conn :=
  { sent := [], inbox := inbox, wfaults := [], peer := silentPeer }

/-- A world whose journal `j.log` has the given content, with a scripted connection. -/
def journalWorld (content : String) (inbox : List (Except String executeActionsMsg)) : World :=
  { fs := { files := fun n => if n = "j.log" then some content else none
            openErr := fun _ => none, wfaults := [] }
    conn := connWith inbox
    uuids := fun n => "uuid-" ++ toString n
    uuidNext := 0 }

/-- A terminal frame on `out1` whose chunk has the given mimeType and payload. -/
def chunkMsg (mimeType : String) (data : Option (List UInt8)) : executeActionsMsg :=
  { SessionID := "", ActionGraph := none
    StreamFrames := [{ StreamID := "out1", Data := some { MIMEType := mimeType, Data := data },
                       Continued := false }] }

/-! ## Running ResumerEventLog twice -/

/-- The message is a restore read, as `Session.ReadAll` sends it. -/
def IsRestoreRead (m : executeActionsMsg) : Prop :=
  ∃ sessionID id, m = restoreStreamMsg sessionID id

/-- The backend behind a connection does not change what it persisted when it serves
restore reads: its reaction to a message is the same after any number of them. -/
def ReadsLeaveBackend (c : Conn) : Prop :=
  ∀ (rs : List executeActionsMsg) (m : executeActionsMsg),
    (∀ r ∈ rs, IsRestoreRead r) → c.peer (c.sent ++ rs) m = c.peer c.sent m

/-- The world of a second run: the file system as the first run left it and a new
connection to the same backend, which has seen what the first run sent; the incoming
script and the write faults are those the first run started with. -/
def secondRun (w after : World) : World :=
  { after with conn := { after.conn with inbox := w.conn.inbox, wfaults := w.conn.wfaults } }

/-- Two connections to the same backend that differ only by the restore reads sent
since the history `h`. -/
def ConnSim (h : List executeActionsMsg) (ca cb : Conn) : Prop :=
  ca.inbox = cb.inbox ∧ ca.wfaults = cb.wfaults ∧ ca.peer = cb.peer ∧
  (∀ (rs : List executeActionsMsg) (m : executeActionsMsg),
    (∀ r ∈ rs, IsRestoreRead r) → ca.peer (h ++ rs) m = ca.peer h m) ∧
  ∃ ra rb : List executeActionsMsg, (∀ r ∈ ra, IsRestoreRead r) ∧ (∀ r ∈ rb, IsRestoreRead r) ∧
    ca.sent = h ++ ra ∧ cb.sent = h ++ rb

/-! ## Sequences of logging calls -/

/-- A field free of the journal's delimiter and of line-break characters. -/
def Clean (s : String) : Prop :=
  ∀ ch ∈ s.data, ch ≠ '|' ∧ ch ≠ '\n' ∧ ch ≠ '\r'

instance (s : String) : Decidable (Clean s) := by
  unfold Clean; infer_instance

/-- One call on the EventLog. -/
inductive Call where
  | activity (kind name input output : String)
  | event (outputID : String) (event : Event)
  deriving DecidableEq, Repr

/-- The calls made in order, as `GRootRunner.Run` makes them: a failed call is reported
and the run goes on. -/
def runCalls (J : JSONCodec) : List Call → EventLog → World → EventLog × World
  | [], e, w => (e, w)
  | .activity kind name input output :: calls, e, w =>
    runCalls J calls (e.LogActivity w kind name input output).2.1
      (e.LogActivity w kind name input output).2.2
  | .event id event :: calls, e, w => runCalls J calls e (e.LogEvent J w id event).2

/-- The events a sequence of calls logs, with their streams, in order: those with
response content sent to an output id registered before by an activity; `reg` lists
the ids registered so far. -/
def loggedEvents : List Call → List String → List (String × Event)
  | [], _ => []
  | .activity _ _ _ output :: calls, reg => loggedEvents calls (output :: reg)
  | .event id event :: calls, reg =>
    if event.hasContent = true ∧ id ∈ reg then (id, event) :: loggedEvents calls reg
    else loggedEvents calls reg

/-- The fields of an activity call can be journaled under session `sessionID`: they are
free of delimiters and line breaks, the kind is not `stream`, and the lines written
for the call and for its output stream fit the scanner's token size. -/
def Call.WellFormed (sessionID : String) : Call → Prop
  | .activity kind name input output =>
    Clean kind ∧ Clean name ∧ Clean input ∧ Clean output ∧ kind ≠ "stream" ∧
    (activityLine sessionID kind name input output).utf8ByteSize ≤ MaxScanTokenSize ∧
    (streamLine sessionID output).utf8ByteSize ≤ MaxScanTokenSize
  | .event _ _ => True

instance (sessionID : String) (c : Call) : Decidable (c.WellFormed sessionID) := by
  cases c <;> unfold Call.WellFormed <;> infer_instance

/-- No pending input, no fault, no earlier traffic, a persisting backend, and the
journal file can be opened. -/
def World.Quiet (w : World) (filename : String) : Prop :=
  w.fs.openErr filename = none ∧ w.fs.wfaults = [] ∧ w.conn.wfaults = [] ∧
  w.conn.inbox = [] ∧ w.conn.sent = [] ∧ w.conn.peer = persistingBackend

/-- The frame `LogEvent` writes for an event serialized to `b`. -/
def eventFrame (id : String) (b : List UInt8) (continued : Bool) : StreamFrame :=
  { StreamID := id, Data := some { MIMEType := "application/json", Data := some b },
    Continued := continued }

/-- The text of a journal made of the given lines, each ended by a newline. -/
def joinLines (lines : List (List Char)) : List Char :=
  lines.flatMap (fun l => l ++ ['\n'])

/-- The journal line of `LogEvent` without its newline, as characters. -/
def streamRaw (sessionID id : String) : List Char :=
  sessionID.data ++ '|' :: ("stream".data ++ '|' :: id.data)

/-- The journal line of `LogActivity` without its newline, as characters. -/
def activityRaw (sessionID kind name input output : String) : List Char :=
  sessionID.data ++ '|' :: (kind.data ++ '|' :: (name.data ++ '|' ::
    (input.data ++ '|' :: output.data)))

/-- What holds of an EventLog on `filename` with session `sessionID` after calls that
registered the ids `reg` and logged the events `logged`, in a quiet world: the journal
is a sequence of whole lines that scans to the streams of `logged`, and the backend
holds for each logged event exactly its frame. -/
structure LogInv (J : JSONCodec) (filename sessionID : String) (e : EventLog) (w : World)
    (reg : List String) (logged : List (String × Event)) : Prop where
  openErr : w.fs.openErr filename = none
  fsFaults : w.fs.wfaults = []
  connFaults : w.conn.wfaults = []
  inbox : w.conn.inbox = []
  peer : w.conn.peer = persistingBackend
  file : e.logFile = ⟨filename⟩
  session : e.session = ⟨sessionID⟩
  journal : ∃ (lines : List (List Char)) (s : String),
    (∀ l ∈ lines, ∀ ch ∈ l, ch ≠ '\n') ∧
    (w.fs.content filename).data = joinLines lines ∧
    scanJournal lines "" [] = .ok (s, logged.map Prod.fst)
  shadows : ∀ id, (mapGet e.shadows id).isSome = true ↔ id ∈ reg
  regOk : ∀ id ∈ reg, Clean id ∧ (streamLine sessionID id).utf8ByteSize ≤ MaxScanTokenSize ∧
    w.conn.sent.any (fun m => savesStream m id) = true
  frames : ∀ p ∈ logged, ∃ b, J.Marshal p.2 = .ok b ∧ J.Unmarshal b = .ok p.2 ∧
    persisted p.1 false w.conn.sent = [eventFrame p.1 b false]
  others : ∀ id, id ∉ logged.map Prod.fst → persisted id false w.conn.sent = []

/-- The EventLog `NewEventLog` returns when the file opens. -/
def freshLog (w : World) (filename : String) : EventLog :=
  { logFile := ⟨filename⟩, session := ⟨w.uuids w.uuidNext⟩, shadows := [] }

/-- The world `NewEventLog` leaves when the file opens: one uuid drawn, the file empty. -/
def freshWorld (w : World) (filename : String) : World :=
  { w with fs := w.fs.set filename "", uuidNext := w.uuidNext + 1 }

/-- The world after `NewEventLog` on `filename` and then the calls, in order. -/
def afterCalls (J : JSONCodec) (w : World) (filename : String) (calls : List Call) : World :=
  match NewEventLog w filename with
  | (.ok e0, w0) => (runCalls J calls e0 w0).2
  | (.error _, w0) => w0

/-- The scenario of the spec: one activity on `out1`, then two events on `out1`. -/
def scenarioCalls (first second : Event) : List Call :=
  [.activity "agent_start" "agentA" "in1" "out1", .event "out1" first, .event "out1" second]

/-- Two activities with one final event each, and an event without response between. -/
def twoStreamCalls : List Call :=
  [.activity "agent_start" "agentA" "in1" "out1", .event "out1" (evBare true),
   .event "out1" evFinal, .activity "agent_start" "agentB" "in2" "out2",
   .event "out2" { evFinal with Author := "agentB" }]

/-! ## Runner start-up (`NewGRootRunner`) -/

/-- The part of `NewGRootRunner` that opens the event log, for a connected client: an
empty `cfg.EventLog` stands for `adk_runner.log`; with `cfg.ResumeEventLog` the journal
is resumed, otherwise `NewEventLog` is called. -/
def NewGRootRunner_eventLog (J : JSONCodec) (w : World) (cfgEventLog : String)
    (cfgResumeEventLog : Bool) : Res EventLog × World :=
  let filename := if cfgEventLog = "" then "adk_runner.log" else cfgEventLog
  if cfgResumeEventLog then
    match ResumerEventLog J w filename with
    | (.ok (eventLog, _events), w1) => (.ok eventLog, w1)
    | (.error err, w1) => (.error err, w1)
    | (.panic msg, w1) => (.panic msg, w1)
    | (.blocked, w1) => (.blocked, w1)
  else
    match NewEventLog w filename with
    | (.ok eventLog, w1) => (.ok eventLog, w1)
    | (.error err, w1) => (.error err, w1)

/-- The sample world with a disk whose next write fails. -/
def fullDiskWorld : World :=
  { sampleWorld with fs := { sampleWorld.fs with wfaults := [some "no space left on device"] } }

/-- A frame carrying a chunk with the given payload. -/
def dataFrame (streamID : String) (payload : List UInt8) (continued : Bool) : StreamFrame :=
  { StreamID := streamID, Data := some { MIMEType := "application/json", Data := some payload },
    Continued := continued }

/-- A message holding the given frames. -/
def framesMsg (frames : List StreamFrame) : executeActionsMsg :=
  { SessionID := "", ActionGraph := none, StreamFrames := frames }

/-! ## Journal records, as the spec describes them -/

/-- The fields of a journal line: the line without a trailing carriage return, split
at `|`. -/
def lineFields (raw : List Char) : List String :=
  Split (String.mk (dropCR raw))

/-- A well-formed journal line: within the scanner's token size, with at least the
session id and the record kind, and for a `stream` record also the stream id. -/
def WellFormedLine (raw : List Char) : Prop :=
  (String.mk raw).utf8ByteSize < MaxScanTokenSize ∧
  2 ≤ (lineFields raw).length ∧
  ((lineFields raw)[1]? = some "stream" → 3 ≤ (lineFields raw).length)

instance (raw : List Char) : Decidable (WellFormedLine raw) := by
  unfold WellFormedLine; infer_instance

/-- The `stream` records of a journal, in file order: session id and stream id (the
first and the third field) of every line whose second field is `stream`. -/
def streamRecords : List (List Char) → List (String × String)
  | [] => []
  | raw :: lines =>
    match lineFields raw with
    | sessionID :: kind :: id :: _ =>
      if kind = "stream" then (sessionID, id) :: streamRecords lines else streamRecords lines
    | _ => streamRecords lines

/-- The session id of the last record, or `dflt` when there is none. -/
def lastSessionID (records : List (String × String)) (dflt : String) : String :=
  (records.getLast?.map Prod.fst).getD dflt

/-! ## Agents (`groot_runner.go`, `registry.go`)

The interface `agent.Agent`, the type `llminternal.Agent` with the state that
`llminternal.Reveal` exposes, `parentmap.Map` and the helper `findAgent` are declared
outside `src/`. An agent is modelled by what the source calls on it: its identity (the
pointer a Go map compares), `Name()`, whether it is an `llminternal.Agent` and with
which state, and `SubAgents()`; `findAgent` is a parameter. -/

/-- The state `llminternal.Reveal` exposes, as far as the source reads it. -/
structure LLMAgentState where
  DisallowTransferToParent : Bool
  deriving DecidableEq, Repr

/-- An agent: identity, name, the LLM state when it is an `llminternal.Agent`, and
its sub-agents. -/
inductive Agent where
  | mk (ptr : Nat) (name : String) (llm : Option LLMAgentState) (subAgents : List Agent)
  deriving Repr

def Agent.ptr : Agent → Nat
  | .mk ptr _ _ _ => ptr

def Agent.Name : Agent → String
  | .mk _ name _ _ => name

def Agent.llm : Agent → Option LLMAgentState
  | .mk _ _ llm _ => llm

def Agent.SubAgents : Agent → List Agent
  | .mk _ _ _ subAgents => subAgents

/-- The loop of `isTransferableAcrossAgentTree`, started at `curAgent`: `some b` when
it returns `b`, `none` when `fuel` turns of the loop were not enough. The body looks at
`agentToRun`, as the source does. -/
def isTransferableLoop (parents : String → Option Agent) (agentToRun : Agent) :
    Nat → Option Agent → Option Bool
  | _, none => some true
  | 0, some _ => none
  | fuel + 1, some curAgent =>
    match agentToRun.llm with
    | none => some false
    | some llmAgent =>
      if llmAgent.DisallowTransferToParent then some false
      else isTransferableLoop parents agentToRun fuel (parents curAgent.Name)

/-- `GRootRunner.isTransferableAcrossAgentTree`, with `r.parents` as `parents`. -/
def isTransferableAcrossAgentTree (parents : String → Option Agent) (fuel : Nat)
    (agentToRun : Agent) : Option Bool :=
  isTransferableLoop parents agentToRun fuel (some agentToRun)

/-- The loop of `findAgentToRun` over the events from the newest to the oldest: `some`
of the returned agent and error, or `none` when a call of
`isTransferableAcrossAgentTree` did not return within `fuel`. -/
def findAgentToRunLoop (findAgent : Agent → String → Option Agent)
    (parents : String → Option Agent) (fuel : Nat) (rootAgent : Agent) :
    List Event → Option (Agent × Option String)
  | [] => some (rootAgent, none)
  | event :: older =>
    if event.Author = "user" then findAgentToRunLoop findAgent parents fuel rootAgent older
    else
      match findAgent rootAgent event.Author with
      | none => findAgentToRunLoop findAgent parents fuel rootAgent older
      | some subAgent =>
        match isTransferableAcrossAgentTree parents fuel subAgent with
        | none => none
        | some true => some (subAgent, none)
        | some false => findAgentToRunLoop findAgent parents fuel rootAgent older

/-- `GRootRunner.findAgentToRun` on the session's events, oldest first as stored. -/
def findAgentToRun (findAgent : Agent → String → Option Agent)
    (parents : String → Option Agent) (fuel : Nat) (rootAgent : Agent) (events : List Event) :
    Option (Agent × Option String) :=
  findAgentToRunLoop findAgent parents fuel rootAgent events.reverse

/-- One step up the parent map, as the loop header takes it. -/
def parentStep (parents : String → Option Agent) : Option Agent → Option Agent
  | none => none
  | some curAgent => parents curAgent.Name

/-- The agent the spec names for a history: the agent of the newest event whose author
is not `user`, is found from the root and is transferable; the root when there is no
such event. -/
def agentToRunSpec (findAgent : Agent → String → Option Agent) (transferable : Agent → Bool)
    (rootAgent : Agent) (events : List Event) : Agent :=
  (events.reverse.findSome? (fun event =>
    if event.Author = "user" then none
    else (findAgent rootAgent event.Author).filter transferable)).getD rootAgent

/-- An LLM agent `child` that allows transfer, whose parent `parent` disallows it. -/
def childAgent : Agent := .mk 2 "child" (some ⟨false⟩) []

def parentAgent : Agent := .mk 1 "parent" (some ⟨true⟩) [childAgent]

/-- A parent that is not an LLM agent. -/
def plainParent : Agent := .mk 3 "plain" none [childAgent]

/-- The parent map of `parentAgent` with its child. -/
def sampleParents (parent : Agent) : String → Option Agent :=
  fun name => if name = "child" then some parent else none

/-- A `findAgent` that knows `parentAgent` and `childAgent` by name. -/
def sampleFindAgent (_root : Agent) (name : String) : Option Agent :=
  if name = "parent" then some parentAgent
  else if name = "child" then some childAgent
  else none

/-- An event of the given author. -/
def authorEvent (author : String) : Event :=
  { Author := author, Partial := false, LLMResponse := none }

/-! ## Registry (`registry.go`) -/

/-- The registry: agents by full name, and full names by agent. The Go maps are lists of
pairs read from the front, an assignment putting its pair in front; the key of
`agentNames` is the agent's identity. -/
structure Registry where
  agents : List (String × Agent)
  agentNames : List (Nat × String)

mutual
/-- `Registry.register`. -/
def Registry.register (r : Registry) (pfx : String) : Agent → Registry
  | .mk ptr name llm subAgents =>
    Registry.registerAll
      { agents := (pfx ++ name, .mk ptr name llm subAgents) :: r.agents
        agentNames := (ptr, pfx ++ name) :: r.agentNames }
      (pfx ++ name ++ ".") subAgents
/-- The loop of `Registry.register` over the sub-agents. -/
def Registry.registerAll (r : Registry) (pfx : String) : List Agent → Registry
  | [] => r
  | subAgent :: rest => Registry.registerAll (Registry.register r pfx subAgent) pfx rest
end

/-- `NewRegistry`. -/
def NewRegistry (rootAgent : Agent) : Registry :=
  Registry.register { agents := [], agentNames := [] } "" rootAgent

/-- `Registry.AgentFullname`: the map's value for the agent, the empty string when the
agent is not a key. -/
def Registry.AgentFullname (r : Registry) (agent : Agent) : String :=
  (r.agentNames.lookup agent.ptr).getD ""

mutual
/-- The agents of a tree, each with the names on the path from the root down to it. -/
def Agent.paths : Agent → List (Agent × List String)
  | .mk ptr name llm subAgents =>
    (.mk ptr name llm subAgents, [name]) ::
      (Agent.pathsAll subAgents).map (fun q => (q.1, name :: q.2))
/-- The agents of a list of trees with their paths. -/
def Agent.pathsAll : List Agent → List (Agent × List String)
  | [] => []
  | agent :: rest => Agent.paths agent ++ Agent.pathsAll rest
end

/-- The names of a path joined with `.`. -/
def joinPath : List String → String
  | [] => ""
  | [name] => name
  | name :: rest => name ++ "." ++ joinPath rest

/-- A small tree: `root` with the sub-agents `a` (which has the sub-agent `c`) and `b`. -/
def sampleTree : Agent :=
  .mk 0 "root" none [.mk 1 "a" none [.mk 3 "c" none []], .mk 2 "b" none []]

/-! ## Journal records, written out (the spec's side of the journal format) -/

/-- A journal record as the spec describes it: its fields, and whether its line ends
with a carriage return before the newline. -/
structure Record where
  fields : List String
  crlf : Bool
  deriving DecidableEq, Repr

/-- The characters of a record's line: the fields separated by `|`, then the line end. -/
def Record.chars (r : Record) : List Char :=
  List.intercalate ['|'] (r.fields.map String.data) ++
    (if r.crlf then ['\r', '\n'] else ['\n'])

/-- The text of the journal that holds the given records, in order. -/
def journalText (rs : List Record) : String :=
  String.mk (rs.flatMap Record.chars)

/-- A well-formed record: fields free of `|` and of line breaks, at least the session
id and the record kind, for a `stream` record also the stream id, and a line within
the scanner's token size. -/
def Record.WellFormed (r : Record) : Prop :=
  (∀ f ∈ r.fields, Clean f) ∧ 2 ≤ r.fields.length ∧
  (r.fields[1]? = some "stream" → 3 ≤ r.fields.length) ∧
  (String.mk r.chars).utf8ByteSize ≤ MaxScanTokenSize

instance (r : Record) : Decidable r.WellFormed := by
  unfold Record.WellFormed; infer_instance

/-- The record is of kind `stream` (its second field). -/
def Record.isStream (r : Record) : Bool :=
  decide (r.fields[1]? = some "stream")

/-- The stream ids of the `stream` records, in file order: their third fields. -/
def streamIDs (rs : List Record) : List String :=
  (rs.filter Record.isStream).map (fun r => r.fields.getD 2 "")

/-- The session id (first field) of the last `stream` record; empty when there is none. -/
def lastSession (rs : List Record) : String :=
  match (rs.filter Record.isStream).getLast? with
  | none => ""
  | some r => r.fields.headD ""

/-- A final event with response content, by the given author and with the given text. -/
def evText (author text : String) : Event :=
  { Author := author, Partial := false
    LLMResponse := some { Content := some { Role := "model", Parts := [text] }, Partial := false } }

/-- One event on `out1`, then two on `out2`: the journal gets the `stream` lines
`out1`, `out2`, `out2`. -/
def threeLineCalls : List Call :=
  [.activity "agent_start" "agentA" "in1" "out1", .event "out1" (evText "agentA" "a"),
   .activity "agent_start" "agentB" "in2" "out2", .event "out2" (evText "agentB" "c"),
   .event "out2" (evText "agentB" "d")]

/-! # Properties -/

/-! ## The loops, one `ReadJSON` at a time -/

/-- One turn of the outer loop of `Session.ReadAll`: read a message and run over its
frames. -/
theorem readAllLoop_step (c : Conn) (chunks : List (Option Chunk)) :
    readAllLoop c.inbox chunks =
      match c.ReadJSON with
      | (.ok resp, c1) =>
        (match readAllFrames resp.StreamFrames chunks with
         | (chunks1, true) => (.ok chunks1, c1.inbox)
         | (chunks1, false) => readAllLoop c1.inbox chunks1)
      | (.error err, c1) => (.error err, c1.inbox)
      | (.panic msg, c1) => (.panic msg, c1.inbox)
      | (.blocked, _) => (.blocked, []) := by
  unfold Conn.ReadJSON
  rcases hc : c.inbox with _ | ⟨x, rest⟩
  · simp [readAllLoop]
  · cases x with
    | error err => simp [readAllLoop]
    | ok resp => simp [readAllLoop]

/-! ## LogEvent and LogActivity: failure paths -/

/-- C3, counterexample: on an EventLog with no Shadow for `out1`, LogEvent of an event
without response returns nil, not an error. -/
theorem LogEvent_unregistered_bare_returns_nil :
    mapGet sampleLog.shadows "out1" = none ∧
    (sampleLog.LogEvent sampleJSON sampleWorld "out1" (evBare false)).1 = none := by
  decide

/-- C3, amended: for every EventLog state, every outputID with no Shadow registered and
every event, LogEvent leaves the journal and the connection untouched (no line, no
frame); it returns the unknown-stream error when the event has response content, and
nil when it has none. -/
theorem LogEvent_unregistered (J : JSONCodec) (e : EventLog) (w : World) (id : String)
    (event : Event) (h : mapGet e.shadows id = none) :
    (event.hasContent = true →
      e.LogEvent J w id event = (some ("no shadow found for output ID: " ++ id), w)) ∧
    (event.hasContent = false → e.LogEvent J w id event = (none, w)) := by
  constructor <;> intro hc <;> simp [EventLog.LogEvent, hc, h]

theorem LogEvent_unregistered_witness :
    (evFinal.hasContent = true →
      sampleLog.LogEvent sampleJSON sampleWorld "out1" evFinal =
        (some ("no shadow found for output ID: " ++ "out1"), sampleWorld)) ∧
    (evFinal.hasContent = false →
      sampleLog.LogEvent sampleJSON sampleWorld "out1" evFinal = (none, sampleWorld)) :=
  LogEvent_unregistered sampleJSON sampleLog sampleWorld "out1" evFinal (by decide)

/-- C9: if sending the save_stream graph fails, LogActivity returns that error, leaves
the EventLog (its Shadow table) as it was and leaves the file system, hence the
journal, as it was; nothing is sent. -/
theorem LogActivity_atomic (e : EventLog) (w : World) (kind name input output err : String)
    (rest : List (Option String)) (h : w.conn.wfaults = some err :: rest) :
    (e.LogActivity w kind name input output).1 = some err ∧
    (e.LogActivity w kind name input output).2.1 = e ∧
    (e.LogActivity w kind name input output).2.2.fs = w.fs ∧
    (e.LogActivity w kind name input output).2.2.conn.sent = w.conn.sent := by
  simp [EventLog.LogActivity, Session.NewADKShadow, Session.writeShadowAction,
    World.NewString, Conn.WriteJSON, h]

theorem LogActivity_atomic_witness :
    (sampleLogOut1.LogActivity brokenWorld
        "agent_start" "agentB" "in2" "out1").1 = some "broken pipe" ∧
    (sampleLogOut1.LogActivity brokenWorld
        "agent_start" "agentB" "in2" "out1").2.1 = sampleLogOut1 ∧
    (sampleLogOut1.LogActivity brokenWorld
        "agent_start" "agentB" "in2" "out1").2.2.fs = sampleWorld.fs ∧
    (sampleLogOut1.LogActivity brokenWorld
        "agent_start" "agentB" "in2" "out1").2.2.conn.sent = sampleWorld.conn.sent :=
  LogActivity_atomic sampleLogOut1 brokenWorld "agent_start" "agentB" "in2" "out1" "broken pipe" [] rfl

/-- C10, counterexample: a LogEvent whose frame write fails returns the error and has
already appended its `stream` line to the journal. -/
theorem LogEvent_write_failure_keeps_line :
    (sampleLogOut1.LogEvent sampleJSON brokenWorld
        "out1" evFinal).1 = some "broken pipe" ∧
    (sampleLogOut1.LogEvent sampleJSON brokenWorld
        "out1" evFinal).2.fs.content "j.log" = "s1|stream|out1\n" ∧
    sampleWorld.fs.content "j.log" = "" := by
  decide

/-- C10, amended: LogEvent appends the `stream` line before it serializes the event and
before it writes the frame. For every event with response content and every registered
outputID, when the journal append itself does not fail the journal gains exactly the
line `sessionID|stream|outputID`, whatever happens next: if serializing fails the call
returns that error with the line in the journal and nothing sent, and if the frame
write fails the call returns that error with the line in the journal. -/
theorem LogEvent_journals_first (J : JSONCodec) (e : EventLog) (w : World) (id : String)
    (event : Event) (shadow : Shadow) (hc : event.hasContent = true)
    (hs : mapGet e.shadows id = some shadow)
    (hf : ∀ err rest, w.fs.wfaults ≠ some err :: rest) :
    (e.LogEvent J w id event).2.fs.content e.logFile.name =
      w.fs.content e.logFile.name ++ streamLine e.session.ID id ∧
    (∀ err, J.Marshal event = .error err →
      (e.LogEvent J w id event).1 = some err ∧ (e.LogEvent J w id event).2.conn = w.conn) ∧
    (∀ out err rest, J.Marshal event = .ok out → w.conn.wfaults = some err :: rest →
      (e.LogEvent J w id event).1 = some err ∧
      (e.LogEvent J w id event).2.conn.sent = w.conn.sent) := by
  have hfs : ((w.fs.Fprintf e.logFile (streamLine e.session.ID id)).2.Sync e.logFile).content
      e.logFile.name = w.fs.content e.logFile.name ++ streamLine e.session.ID id := by
    unfold FS.Fprintf FS.Sync
    rcases hw : w.fs.wfaults with _ | ⟨a, rest⟩
    · simp [FS.content, FS.set]
    · cases a with
      | none => simp [FS.content, FS.set]
      | some err => exact absurd hw (hf err rest)
  refine ⟨?_, ?_, ?_⟩
  · simp only [EventLog.LogEvent, hc, hs]
    cases hm : J.Marshal event <;> simp [hfs]
  · intro err hm
    simp [EventLog.LogEvent, hc, hs, hm]
  · intro out err rest hm hw
    simp [EventLog.LogEvent, hc, hs, hm, Shadow.WriteFrame, Session.writeStreamFrame,
      Conn.WriteJSON, hw]

theorem LogEvent_journals_first_witness :
    (sampleLogOut1.LogEvent sampleJSON brokenWorld
        "out1" evFinal).2.fs.content sampleLogOut1.logFile.name =
      brokenWorld.fs.content sampleLogOut1.logFile.name ++
        streamLine sampleLogOut1.session.ID "out1" :=
  (LogEvent_journals_first sampleJSON sampleLogOut1 brokenWorld "out1" evFinal shadowOut1
    (by decide) (by decide) (by intro err rest h; cases h)).1


/-! ## Shadow.Wait -/

theorem decodeChunk_wire (c : Chunk) : decodeChunk none (.value c.wire) = some c := by
  obtain ⟨mt, data⟩ := c
  cases data <;> by_cases h : mt = "" <;>
    simp [decodeChunk, Chunk.wire, decodeString, decodeBytes, h]

/-- Decoding the JSON object of a frame into a nil slot gives the frame. -/
theorem decodeFrame_wire (f : StreamFrame) : decodeFrame none (some f.wire) = some f := by
  obtain ⟨sid, data, cont⟩ := f
  have hd : decodeChunk none (StreamFrame.wire ⟨sid, data, cont⟩).data = data := by
    cases data with
    | none => rfl
    | some c => exact decodeChunk_wire c
  have hs : decodeString "" (StreamFrame.wire ⟨sid, data, cont⟩).streamId = sid := by
    by_cases h : sid = "" <;> simp [StreamFrame.wire, decodeString, h]
  have hc : decodeBool false (StreamFrame.wire ⟨sid, data, cont⟩).continued = cont := by
    cases cont <;> rfl
  simp only [decodeFrame, Option.getD_none]
  rw [hd, hs, hc]

theorem decodeArray_nil_wire (fs : List StreamFrame) :
    decodeArray [] (fs.map (fun f => some f.wire)) = fs.map some := by
  induction fs with
  | nil => rfl
  | cons f fs ih => simp [decodeArray, decodeFrame_wire, ih]

/-- A read into a new `resp` gives the frames of the message: what `ReadAll`, which
declares `resp` inside its loop, runs over. -/
theorem decodeStreamFrames_zero (m : executeActionsMsg) :
    (decodeStreamFrames { slots := [], len := 0 } m.wireFrames).frames =
      m.StreamFrames.map some := by
  rcases hm : m.StreamFrames with _ | ⟨f, fs⟩
  · simp [executeActionsMsg.wireFrames, hm, decodeStreamFrames, FrameSlice.frames]
  · have := decodeArray_nil_wire (f :: fs)
    simp only [List.map_cons] at this
    simp [executeActionsMsg.wireFrames, hm, decodeStreamFrames, FrameSlice.frames, this]

/-- The stream id and the flag of a slot after the JSON object of a frame is decoded
into it: an empty stream id and a false flag have no key and leave what the slot held. -/
theorem decodeFrame_merge (old : Option StreamFrame) (f : StreamFrame) :
    ∃ g, decodeFrame old (some f.wire) = some g ∧
      g.StreamID = (if f.StreamID = "" then
        (old.getD { StreamID := "", Data := none, Continued := false }).StreamID
        else f.StreamID) ∧
      g.Continued = (f.Continued ||
        (old.getD { StreamID := "", Data := none, Continued := false }).Continued) := by
  obtain ⟨sid, data, cont⟩ := f
  refine ⟨_, rfl, ?_, ?_⟩
  · by_cases h : sid = "" <;> simp [StreamFrame.wire, decodeString, h]
  · cases cont <;> simp [StreamFrame.wire, decodeBool]

theorem decodeArray_forall (P : Option StreamFrame → Prop) (fs : List StreamFrame)
    (hf : ∀ f ∈ fs, ∀ old, (old = none ∨ P old) → P (decodeFrame old (some f.wire))) :
    ∀ slots : List (Option StreamFrame), (∀ o ∈ slots, P o) →
      ∀ o ∈ decodeArray slots (fs.map (fun f => some f.wire)), P o := by
  induction fs with
  | nil => intro slots h o ho; exact h o (by simpa [decodeArray] using ho)
  | cons f fs ih =>
    have hf1 : ∀ f1 ∈ fs, ∀ old, (old = none ∨ P old) → P (decodeFrame old (some f1.wire)) :=
      fun f1 h1 => hf f1 (List.mem_cons_of_mem _ h1)
    intro slots h o ho
    cases slots with
    | nil =>
      simp only [List.map_cons, decodeArray, List.mem_cons] at ho
      rcases ho with rfl | ho
      · exact hf f (List.mem_cons_self _ _) none (Or.inl rfl)
      · exact ih hf1 [] (by simp) o ho
    | cons slot slots =>
      simp only [List.map_cons, decodeArray, List.mem_cons] at ho
      rcases ho with rfl | ho
      · exact hf f (List.mem_cons_self _ _) slot (Or.inr (h slot (List.mem_cons_self _ _)))
      · exact ih hf1 slots (fun o1 h1 => h o1 (List.mem_cons_of_mem _ h1)) o ho

theorem decodeArray_mem (fs : List StreamFrame) (f : StreamFrame) (hf : f ∈ fs) :
    ∀ slots : List (Option StreamFrame), ∃ old, (old = none ∨ old ∈ slots) ∧
      decodeFrame old (some f.wire) ∈
        (decodeArray slots (fs.map (fun f => some f.wire))).take fs.length := by
  induction fs with
  | nil => cases hf
  | cons f1 fs ih =>
    intro slots
    rcases List.mem_cons.1 hf with rfl | hf1
    · cases slots with
      | nil => exact ⟨none, Or.inl rfl, by simp [decodeArray]⟩
      | cons slot slots => exact ⟨slot, Or.inr (List.mem_cons_self _ _), by simp [decodeArray]⟩
    · cases slots with
      | nil =>
        obtain ⟨old, ho, hm⟩ := ih hf1 []
        refine ⟨old, ?_, ?_⟩
        · rcases ho with h | h
          · exact Or.inl h
          · cases h
        · simp only [List.map_cons, decodeArray, List.length_cons, List.take_succ_cons,
            List.mem_cons]
          exact Or.inr hm
      | cons slot slots =>
        obtain ⟨old, ho, hm⟩ := ih hf1 slots
        refine ⟨old, ?_, ?_⟩
        · rcases ho with h | h
          · exact Or.inl h
          · exact Or.inr (List.mem_cons_of_mem _ h)
        · simp only [List.map_cons, decodeArray, List.length_cons, List.take_succ_cons,
            List.mem_cons]
          exact Or.inr hm

theorem Shadow.scan_nothing (s : Shadow) (l : List (Option StreamFrame))
    (h : ∀ o ∈ l, ∃ f, o = some f ∧ (f.StreamID ≠ s.waitStreamID ∨ f.Continued = true)) :
    s.scan l = .nothing := by
  induction l with
  | nil => rfl
  | cons o l ih =>
    obtain ⟨f, rfl, hf⟩ := h o (List.mem_cons_self _ _)
    have : (decide (f.StreamID = s.waitStreamID) && !f.Continued) = false := by
      rcases hf with hf | hf
      · simp [hf]
      · simp [hf]
    simp only [Shadow.scan, this, Bool.false_eq_true, if_false]
    exact ih (fun o1 h1 => h o1 (List.mem_cons_of_mem _ h1))

theorem Shadow.scan_terminal (s : Shadow) (l : List (Option StreamFrame))
    (hsome : ∀ o ∈ l, o ≠ none)
    (h : ∃ f, some f ∈ l ∧ f.StreamID = s.waitStreamID ∧ f.Continued = false) :
    s.scan l = .terminal := by
  induction l with
  | nil => obtain ⟨f, hf, _⟩ := h; cases hf
  | cons o l ih =>
    cases o with
    | none => exact absurd rfl (hsome none (List.mem_cons_self _ _))
    | some g =>
      by_cases hg : (decide (g.StreamID = s.waitStreamID) && !g.Continued) = true
      · simp [Shadow.scan, hg]
      · simp only [Shadow.scan, hg, if_false]
        refine ih (fun o1 h1 => hsome o1 (List.mem_cons_of_mem _ h1)) ?_
        obtain ⟨f, hf, h1, h2⟩ := h
        rcases List.mem_cons.1 hf with hfg | hfl
        · exfalso
          apply hg
          cases hfg
          simp [h1, h2]
        · exact ⟨f, hfl, h1, h2⟩

/-- Messages that do not end the wait, read one after the other into `resp`: under an
invariant of `resp` that each of them keeps, the loop passes over them. -/
theorem Shadow.waitLoop_skip (s : Shadow) (I : FrameSlice → Prop) (M : executeActionsMsg → Prop)
    (hstep : ∀ resp m, I resp → M m →
      I (decodeStreamFrames resp m.wireFrames) ∧
      s.scan (decodeStreamFrames resp m.wireFrames).frames = .nothing)
    (pre : List executeActionsMsg) (hpre : ∀ m ∈ pre, M m)
    (rest : List (Except String executeActionsMsg)) :
    ∀ resp, I resp → ∃ resp1, I resp1 ∧
      s.waitLoop resp ((pre.map Except.ok ++ rest).map wireRead) =
        ((s.waitLoop resp1 (rest.map wireRead)).1,
         (s.waitLoop resp1 (rest.map wireRead)).2 + pre.length) := by
  induction pre with
  | nil => intro resp h; exact ⟨resp, h, by simp⟩
  | cons m pre ih =>
    intro resp h
    obtain ⟨h1, h2⟩ := hstep resp m h (hpre m (List.mem_cons_self _ _))
    obtain ⟨resp1, hI, heq⟩ := ih (fun m1 hm1 => hpre m1 (List.mem_cons_of_mem _ hm1)) _ h1
    refine ⟨resp1, hI, ?_⟩
    simp only [List.map_cons, List.cons_append, wireRead, Shadow.waitLoop, h2]
    simp only [List.append_eq]
    rw [heq]
    simp [Nat.add_assoc]

/-- A message without a terminal frame of the wait stream, decoded into a `resp` whose
slots hold no such frame, leaves none in the slots. -/
theorem Shadow.decoy_step (s : Shadow) (resp : FrameSlice) (m : executeActionsMsg)
    (h : ∀ o ∈ resp.slots,
      ∃ f, o = some f ∧ (f.StreamID ≠ s.waitStreamID ∨ f.Continued = true))
    (hm : s.Decoy m) :
    (∀ o ∈ (decodeStreamFrames resp m.wireFrames).slots,
      ∃ f, o = some f ∧ (f.StreamID ≠ s.waitStreamID ∨ f.Continued = true)) ∧
    s.scan (decodeStreamFrames resp m.wireFrames).frames = .nothing := by
  have hslots : ∀ o ∈ (decodeStreamFrames resp m.wireFrames).slots,
      ∃ f, o = some f ∧ (f.StreamID ≠ s.waitStreamID ∨ f.Continued = true) := by
    rcases hfs : m.StreamFrames with _ | ⟨f0, fs⟩
    · simpa [executeActionsMsg.wireFrames, hfs, decodeStreamFrames] using h
    · have hdec := decodeArray_forall
        (fun o => ∃ f, o = some f ∧ (f.StreamID ≠ s.waitStreamID ∨ f.Continued = true))
        (f0 :: fs) ?_ resp.slots h
      · simpa [executeActionsMsg.wireFrames, hfs, decodeStreamFrames] using hdec
      · intro f hf old hold
        have hfm := hm f (by rw [hfs]; exact hf)
        obtain ⟨g, hg, hsid, hcont⟩ := decodeFrame_merge old f
        refine ⟨g, hg, ?_⟩
        rcases hold with rfl | ⟨o, rfl, ho⟩
        · simp only [Option.getD_none, Bool.or_false, ite_self] at hsid hcont
          rw [hsid, hcont]
          by_cases he : f.StreamID = ""
          · simpa [he] using hfm
          · simpa [he] using hfm
        · simp only [Option.getD_some] at hsid hcont
          rw [hsid, hcont]
          rcases hfm with hfm | hfm
          · rcases ho with ho | ho
            · left
              by_cases he : f.StreamID = ""
              · simpa [he] using ho
              · simpa [he] using hfm
            · right; simp [ho]
          · right; simp [hfm]
  refine ⟨hslots, s.scan_nothing _ ?_⟩
  intro o ho
  exact hslots o (List.mem_of_mem_take ho)

/-- A message of terminal frames of other streams, decoded into a `resp` whose slots
hold only such frames, leaves only such frames in the slots. -/
theorem Shadow.other_step (s : Shadow) (resp : FrameSlice) (m : executeActionsMsg)
    (h : ∀ o ∈ resp.slots,
      ∃ f, o = some f ∧ f.StreamID ≠ s.waitStreamID ∧ f.Continued = false)
    (hm : s.Other m) :
    (∀ o ∈ (decodeStreamFrames resp m.wireFrames).slots,
      ∃ f, o = some f ∧ f.StreamID ≠ s.waitStreamID ∧ f.Continued = false) ∧
    s.scan (decodeStreamFrames resp m.wireFrames).frames = .nothing := by
  have hslots : ∀ o ∈ (decodeStreamFrames resp m.wireFrames).slots,
      ∃ f, o = some f ∧ f.StreamID ≠ s.waitStreamID ∧ f.Continued = false := by
    rcases hfs : m.StreamFrames with _ | ⟨f0, fs⟩
    · simpa [executeActionsMsg.wireFrames, hfs, decodeStreamFrames] using h
    · have hdec := decodeArray_forall
        (fun o => ∃ f, o = some f ∧ f.StreamID ≠ s.waitStreamID ∧ f.Continued = false)
        (f0 :: fs) ?_ resp.slots h
      · simpa [executeActionsMsg.wireFrames, hfs, decodeStreamFrames] using hdec
      · intro f hf old hold
        obtain ⟨hf1, hf2⟩ := hm f (by rw [hfs]; exact hf)
        obtain ⟨g, hg, hsid, hcont⟩ := decodeFrame_merge old f
        refine ⟨g, hg, ?_⟩
        rcases hold with rfl | ⟨o, rfl, ho1, ho2⟩
        · simp only [Option.getD_none, Bool.or_false, ite_self] at hsid hcont
          rw [hsid, hcont]
          exact ⟨by by_cases he : f.StreamID = "" <;> simpa [he] using hf1, hf2⟩
        · simp only [Option.getD_some] at hsid hcont
          rw [hsid, hcont]
          refine ⟨?_, by simp [hf2, ho2]⟩
          by_cases he : f.StreamID = ""
          · simpa [he] using ho1
          · simpa [he] using hf1
  refine ⟨hslots, s.scan_nothing _ ?_⟩
  intro o ho
  obtain ⟨f, hf, h1, _⟩ := hslots o (List.mem_of_mem_take ho)
  exact ⟨f, hf, Or.inl h1⟩

/-- A message with a terminal frame of the wait stream ends the wait when no slot of
`resp` holds a continued frame and the wait stream id is not empty. -/
theorem Shadow.terminal_step (s : Shadow) (hw : s.waitStreamID ≠ "") (resp : FrameSlice)
    (m : executeActionsMsg)
    (h : ∀ o ∈ resp.slots, ∃ f, o = some f ∧ f.Continued = false)
    (hm : s.Terminal m) :
    s.scan (decodeStreamFrames resp m.wireFrames).frames = .terminal := by
  obtain ⟨f, hf, hsid, hcont⟩ := hm
  rcases hfs : m.StreamFrames with _ | ⟨f0, fs⟩
  · rw [hfs] at hf; cases hf
  · rw [hfs] at hf
    have hframes : (decodeStreamFrames resp m.wireFrames).frames =
        (decodeArray resp.slots ((f0 :: fs).map (fun f => some f.wire))).take
          (f0 :: fs).length := by
      simp [executeActionsMsg.wireFrames, hfs, decodeStreamFrames, FrameSlice.frames]
    rw [hframes]
    apply s.scan_terminal
    · intro o ho
      refine decodeArray_forall (fun o => o ≠ none) (f0 :: fs) ?_ resp.slots ?_ o
        (List.mem_of_mem_take ho)
      · intro f1 _ old _
        obtain ⟨g, hg, _⟩ := decodeFrame_merge old f1
        rw [hg]; simp
      · intro o1 ho1
        obtain ⟨g, hg, _⟩ := h o1 ho1
        rw [hg]; simp
    · obtain ⟨old, hold, hmem⟩ := decodeArray_mem (f0 :: fs) f hf resp.slots
      obtain ⟨g, hg, hgsid, hgcont⟩ := decodeFrame_merge old f
      rw [hg] at hmem
      refine ⟨g, hmem, ?_, ?_⟩
      · rw [hgsid, if_neg (by rw [hsid]; exact hw)]
        exact hsid
      · rw [hgcont, hcont]
        rcases hold with rfl | hold
        · rfl
        · obtain ⟨g1, hg1, hc1⟩ := h old hold
          rw [hg1]
          simpa using hc1

theorem Shadow.Wait_of_loop (s : Shadow) (c : Conn) (r : Res Unit) (n : Nat)
    (h : s.waitLoop { slots := [], len := 0 } (c.inbox.map wireRead) = (r, n)) :
    s.Wait c = (r, { c with inbox := c.inbox.drop n }) := by
  simp [Shadow.Wait, h]

/-- Wait returns nil at the first message with a terminal frame of its wait stream,
and leaves what follows it, when the messages before hold terminal frames of other
streams only. -/
theorem Shadow.Wait_returns (s : Shadow) (hw : s.waitStreamID ≠ "") (c : Conn)
    (pre : List executeActionsMsg) (m : executeActionsMsg)
    (rest : List (Except String executeActionsMsg))
    (hpre : ∀ m1 ∈ pre, s.Other m1) (hm : s.Terminal m)
    (hin : c.inbox = pre.map .ok ++ .ok m :: rest) :
    s.Wait c = (.ok (), { c with inbox := rest }) := by
  obtain ⟨resp1, hI, heq⟩ := s.waitLoop_skip
    (fun resp => ∀ o ∈ resp.slots,
      ∃ f, o = some f ∧ f.StreamID ≠ s.waitStreamID ∧ f.Continued = false)
    s.Other (fun resp m1 h1 h2 => s.other_step resp m1 h1 h2) pre hpre (.ok m :: rest)
    { slots := [], len := 0 } (by simp)
  have hterm := s.terminal_step hw resp1 m
    (fun o ho => by obtain ⟨f, hf, _, hc⟩ := hI o ho; exact ⟨f, hf, hc⟩) hm
  have hloop : s.waitLoop { slots := [], len := 0 } (c.inbox.map wireRead) =
      (.ok (), pre.length + 1) := by
    rw [hin, heq]
    simp [wireRead, Shadow.waitLoop, hterm, Nat.add_comm]
  rw [s.Wait_of_loop c _ _ hloop, hin]
  have : List.drop (pre.length + 1) (pre.map Except.ok ++ Except.ok m :: rest) = rest := by
    have h1 : (pre.map (Except.ok : executeActionsMsg → Except String executeActionsMsg)).length
        = pre.length := by simp
    rw [← List.drop_drop, ← h1, List.drop_left]
    rfl
  rw [this]

/-- Wait keeps waiting when only messages without a terminal frame of its wait stream
arrive, whatever else they hold. -/
theorem Shadow.Wait_blocks (s : Shadow) (c : Conn) (ms : List executeActionsMsg)
    (hms : ∀ m ∈ ms, s.Decoy m) (hin : c.inbox = ms.map .ok) :
    s.Wait c = (.blocked, { c with inbox := [] }) := by
  obtain ⟨resp1, _, heq⟩ := s.waitLoop_skip
    (fun resp => ∀ o ∈ resp.slots,
      ∃ f, o = some f ∧ (f.StreamID ≠ s.waitStreamID ∨ f.Continued = true))
    s.Decoy (fun resp m1 h1 h2 => s.decoy_step resp m1 h1 h2) ms hms []
    { slots := [], len := 0 } (by simp)
  have hloop : s.waitLoop { slots := [], len := 0 } (c.inbox.map wireRead) =
      (.blocked, ms.length) := by
    rw [hin]
    simp only [List.append_nil] at heq
    rw [heq]
    simp [Shadow.waitLoop]
  rw [s.Wait_of_loop c _ _ hloop, hin]
  simp

/-- The decoding at work. A message without frames has no `streamFrames` key and leaves
`resp` as it was, so the continued flag of an earlier frame still hides the terminal
frame that follows; an empty array or `null` under the key makes `resp.StreamFrames` a
new slice, and the terminal frame is seen. In a frame, `null` under `data` makes the
chunk nil, `null` under `streamId` or `continued` changes nothing. -/
theorem Shadow.waitLoop_examples :
    (shadowA.Wait (connWith [.ok (frameMsg "wB" true),
      .ok { SessionID := "s1", ActionGraph := none, StreamFrames := [] },
      .ok (frameMsg "wA" false)])).1 = .blocked ∧
    shadowA.waitLoop { slots := [], len := 0 }
      [.ok (.value [some { streamId := .value "wB", data := .absent, continued := .value true }]),
       .ok (.value []),
       .ok (.value [some { streamId := .value "wA", data := .absent, continued := .absent }])]
      = (.ok (), 3) ∧
    shadowA.waitLoop { slots := [], len := 0 }
      [.ok (.value [some { streamId := .value "wB", data := .absent, continued := .value true }]),
       .ok .null,
       .ok (.value [some { streamId := .value "wA", data := .absent, continued := .absent }])]
      = (.ok (), 3) ∧
    decodeFrame (some { StreamID := "x", Data := some { MIMEType := "t", Data := some [1] },
                        Continued := true })
      (some { streamId := .null, data := .null, continued := .null }) =
      some { StreamID := "x", Data := none, Continued := true } ∧
    decodeFrame (some { StreamID := "x", Data := some { MIMEType := "t", Data := some [1] },
                        Continued := true })
      (some { streamId := .absent, data := .value { mimeType := .absent, data := .null },
              continued := .value false }) =
      some { StreamID := "x", Data := some { MIMEType := "t", Data := none },
             Continued := false } := by
  decide

/-- C7, the code at the failing inputs. Wait keeps `resp` across its reads, so a frame
is decoded into what the frame at the same place of an earlier message left. (1) The
terminal frame of the wait stream `wA` ends the wait when it comes first or after a
terminal frame of another stream, but after a continued frame, of another stream or of
`wA`, the same frame (sent, as this client encodes it, without the `continued` key) is
taken for continued: Wait reads on and never returns. (2) After a continued frame of
`wA`, a frame that names no stream and says `continued: false` makes Wait return nil,
though no frame of `wA` with continued=false has arrived. (3) A `null` among the frames
makes Wait panic. -/
theorem Shadow.Wait_keeps_resp :
    (shadowA.Wait (connWith [.ok (frameMsg "wA" false)])).1 = .ok () ∧
    (shadowA.Wait (connWith [.ok (frameMsg "wB" false), .ok (frameMsg "wA" false)])).1
      = .ok () ∧
    (shadowA.Wait (connWith [.ok (frameMsg "wB" true), .ok (frameMsg "wA" false)])).1
      = .blocked ∧
    (shadowA.Wait (connWith [.ok (frameMsg "wB" true), .ok (frameMsg "wA" false)])).2.inbox
      = [] ∧
    (shadowA.Wait (connWith [.ok (frameMsg "wB" false), .ok (frameMsg "wA" true),
      .ok (frameMsg "wA" false), .ok (frameMsg "x" false)])).1 = .blocked ∧
    shadowA.waitLoop { slots := [], len := 0 }
      [.ok (.value [some { streamId := .value "wA", data := .absent, continued := .value true }]),
       .ok (.value [some { streamId := .absent, data := .absent, continued := .value false }])]
      = (.ok (), 2) ∧
    shadowA.waitLoop { slots := [], len := 0 } [.ok (.value [none])]
      = (.panic "invalid memory address or nil pointer dereference", 1) :=
  ⟨by decide, by decide, by decide, rfl, by decide, by decide, by decide⟩

/-- C8, counterexample: with B's terminal frame arriving before A's (or in the same
message as A's), Wait on A returns nil and has consumed B's frame; the following Wait
on B finds nothing and does not return. -/
theorem Wait_drops_other_frames :
    (shadowA.Wait (connWith [.ok (frameMsg "wB" false), .ok (frameMsg "wA" false)])).1 = .ok () ∧
    (shadowB.Wait
      (shadowA.Wait (connWith [.ok (frameMsg "wB" false), .ok (frameMsg "wA" false)])).2).1
        = .blocked ∧
    (shadowA.Wait (connWith [.ok bothTerminalMsg])).1 = .ok () ∧
    (shadowB.Wait (shadowA.Wait (connWith [.ok bothTerminalMsg])).2).1 = .blocked := by
  decide

/-- C8, amended: nothing is buffered; a Wait discards every message it reads, up to and
including the one at which it returns. For Shadows A and B with non-empty wait stream
ids: when the messages before the first one holding A's terminal frame hold terminal
frames of other streams only, Wait on A returns nil and leaves exactly what follows
that message, `rest`; the following Wait on B returns nil, leaving what follows, if
`rest` holds a message with B's terminal frame after messages of terminal frames of
other streams only; and it keeps waiting if `rest` holds only messages without B's
terminal frame, whatever A's Wait has read. -/
theorem Wait_then_Wait (a b : Shadow) (c : Conn) (pre : List executeActionsMsg)
    (mA : executeActionsMsg) (rest : List (Except String executeActionsMsg))
    (ha : a.waitStreamID ≠ "") (hb : b.waitStreamID ≠ "")
    (hpre : ∀ m ∈ pre, a.Other m) (hA : a.Terminal mA)
    (hin : c.inbox = pre.map .ok ++ .ok mA :: rest) :
    (a.Wait c).1 = .ok () ∧ (a.Wait c).2.inbox = rest ∧
    (∀ (mid : List executeActionsMsg) (mB : executeActionsMsg) post, (∀ m ∈ mid, b.Other m) → b.Terminal mB →
      rest = mid.map .ok ++ .ok mB :: post →
      (b.Wait (a.Wait c).2).1 = .ok () ∧ (b.Wait (a.Wait c).2).2.inbox = post) ∧
    (∀ ms : List executeActionsMsg, (∀ m ∈ ms, b.Decoy m) → rest = ms.map .ok →
      (b.Wait (a.Wait c).2).1 = .blocked) := by
  have hw : a.Wait c = (.ok (), { c with inbox := rest }) :=
    a.Wait_returns ha c pre mA rest hpre hA hin
  refine ⟨by rw [hw], by rw [hw], ?_, ?_⟩
  · intro mid mB post hmid hB hrest
    rw [hw, b.Wait_returns hb { c with inbox := rest } mid mB post hmid hB hrest]
    exact ⟨rfl, rfl⟩
  · intro ms hms hrest
    rw [hw, b.Wait_blocks { c with inbox := rest } ms hms hrest]

theorem Wait_then_Wait_witness :
    (shadowA.Wait (connWith [.ok (frameMsg "x" false), .ok (frameMsg "wA" false),
      .ok (frameMsg "wB" false)])).1 = .ok () ∧
    (shadowA.Wait (connWith [.ok (frameMsg "x" false), .ok (frameMsg "wA" false),
      .ok (frameMsg "wB" false)])).2.inbox = [.ok (frameMsg "wB" false)] ∧
    (shadowB.Wait (shadowA.Wait (connWith [.ok (frameMsg "x" false), .ok (frameMsg "wA" false),
      .ok (frameMsg "wB" false)])).2).1 = .ok () :=
  have h := Wait_then_Wait shadowA shadowB
    (connWith [.ok (frameMsg "x" false), .ok (frameMsg "wA" false), .ok (frameMsg "wB" false)])
    [frameMsg "x" false] (frameMsg "wA" false) [.ok (frameMsg "wB" false)]
    (by decide) (by decide) (by decide) (by decide) rfl
  ⟨h.1, h.2.1, (h.2.2.1 [] (frameMsg "wB" false) [] (by decide) (by decide) rfl).1⟩


/-! ## ResumerEventLog: corrupt lines and chunk types -/

/-- C4, the code at the failing input: a journal with one valid `stream` line followed
by a line without delimiter makes ResumerEventLog panic on `parts[1]`, with no read
issued for the valid line; a `stream` line cut before its stream id panics on
`parts[2]`; so does an empty line on `parts[1]`. -/
theorem ResumerEventLog_corrupt_line_panics :
    (ResumerEventLog sampleJSON (journalWorld "s1|stream|out1\ngarbage\n" []) "j.log").1
      = .panic "index out of range [1]" ∧
    (ResumerEventLog sampleJSON (journalWorld "s1|stream|out1\ngarbage\n" []) "j.log").2.conn.sent
      = [] ∧
    (ResumerEventLog sampleJSON (journalWorld "s1|stream|out1\ns1|stream" []) "j.log").1
      = .panic "index out of range [2]" ∧
    (ResumerEventLog sampleJSON (journalWorld "s1|stream|out1\n\n" []) "j.log").1
      = .panic "index out of range [1]" := by
  decide

theorem hydrateChunks_non_json (J : JSONCodec) (chunks : List (Option Chunk)) (events : List Event)
    (chunk : Chunk) (data : List UInt8) (hmem : some chunk ∈ chunks)
    (hdata : chunk.Data = some data) (hmime : chunk.MIMEType ≠ "application/json") :
    ∃ err, hydrateChunks J chunks events = .error err := by
  induction chunks generalizing events with
  | nil => simp at hmem
  | cons x rest ih =>
    rcases List.mem_cons.1 hmem with hx | hrest
    · subst hx
      exact ⟨"expected application/json, got " ++ chunk.MIMEType,
        by simp [hydrateChunks, hdata, hmime]⟩
    · cases x with
      | none => simpa [hydrateChunks] using ih events hrest
      | some ch =>
        cases hd : ch.Data with
        | none => simpa [hydrateChunks, hd] using ih events hrest
        | some d =>
          by_cases hm : ch.MIMEType = "application/json"
          · cases hu : J.Unmarshal d with
            | error err => exact ⟨err, by simp [hydrateChunks, hd, hm, hu]⟩
            | ok ev => simpa [hydrateChunks, hd, hm, hu] using ih (events ++ [ev]) hrest
          · exact ⟨"expected application/json, got " ++ ch.MIMEType,
              by simp [hydrateChunks, hd, hm]⟩

theorem hydrate_append (J : JSONCodec) (sess : Session) (pre rest : List String) (c : Conn)
    (events : List Event) :
    hydrate J sess (pre ++ rest) c events =
      match hydrate J sess pre c events with
      | (.ok events1, c1) => hydrate J sess rest c1 events1
      | r => r := by
  induction pre generalizing c events with
  | nil => simp [hydrate]
  | cons id pre ih =>
    simp only [List.cons_append, hydrate]
    rcases hr : sess.ReadAll c id with ⟨r, c1⟩
    cases r with
    | ok chunks =>
      cases hc : hydrateChunks J chunks events with
      | error err => simp [hc]
      | ok events1 => simp [hc, ih]
    | error err => simp
    | panic msg => simp
    | blocked => simp

theorem FS.OpenFile_content (fs : FS) (name : String) (n : String) :
    (fs.OpenFile name false).2.content n = fs.content n := by
  unfold FS.OpenFile
  cases fs.openErr name with
  | some err => rfl
  | none =>
    cases hf : fs.files name with
    | none =>
      simp only [FS.content, FS.set]
      by_cases hn : n = name
      · simp [hn, hf]
      · simp [hn]
    | some d => simp

theorem FS.OpenFile_name (fs : FS) (name : String) (trunc : Bool) (file : File) (fs1 : FS)
    (h : fs.OpenFile name trunc = (.ok file, fs1)) : file = ⟨name⟩ := by
  unfold FS.OpenFile at h
  cases ho : fs.openErr name with
  | some err => simp [ho] at h
  | none =>
    cases hf : fs.files name with
    | none => simp [ho, hf] at h; exact h.1.symm
    | some d =>
      cases trunc <;> simp [ho, hf] at h <;> exact h.1.symm

/-- C5, counterexample: a chunk of type text/plain with a nil payload, returned for the
collected stream `out1`, is skipped: ResumerEventLog succeeds with no event. -/
theorem ResumerEventLog_skips_nil_payload :
    (ResumerEventLog sampleJSON
      (journalWorld "s1|stream|out1\n" [.ok (chunkMsg "text/plain" none)]) "j.log").1
      = .ok ({ logFile := ⟨"j.log"⟩, session := ⟨"s1"⟩, shadows := [] }, []) := by
  decide

/-- C5, amended: for every journal and every backend reply, if a chunk returned for a
collected stream (the journal scans to the ids `pre ++ id :: post`, the reads of `pre`
succeed and the read of `id` returns the chunk) has a non-nil payload and a mimeType
other than application/json, then ResumerEventLog fails with an error, returning no
EventLog and no events. A chunk with a nil payload is skipped whatever its mimeType. -/
theorem ResumerEventLog_rejects_non_json (J : JSONCodec) (w : World) (filename sid id : String)
    (pre post : List String) (events : List Event) (c1 c2 : Conn)
    (chunks : List (Option Chunk)) (chunk : Chunk) (data : List UInt8)
    (hscan : scanJournal (rawLines (w.fs.content filename).data) "" [] =
      .ok (sid, pre ++ id :: post))
    (hpre : hydrate J ⟨sid⟩ pre w.conn [] = (.ok events, c1))
    (hread : Session.ReadAll ⟨sid⟩ c1 id = (.ok chunks, c2))
    (hmem : some chunk ∈ chunks) (hdata : chunk.Data = some data)
    (hmime : chunk.MIMEType ≠ "application/json") :
    (∃ err, (ResumerEventLog J w filename).1 = .error err) ∧
    (∀ mimeType rest evs,
      hydrateChunks J (some { MIMEType := mimeType, Data := none } :: rest) evs =
        hydrateChunks J rest evs) := by
  refine ⟨?_, fun _ _ _ => rfl⟩
  unfold ResumerEventLog
  rcases ho : w.fs.OpenFile filename false with ⟨r, fs1⟩
  cases r with
  | error err => exact ⟨err, rfl⟩
  | ok file =>
    have hname : file = ⟨filename⟩ := FS.OpenFile_name _ _ _ _ _ ho
    have hfs : fs1.content filename = w.fs.content filename := by
      have := FS.OpenFile_content w.fs filename filename
      rw [ho] at this
      exact this
    subst hname
    obtain ⟨err, herr⟩ := hydrateChunks_non_json J chunks events chunk data hmem hdata hmime
    have hh : hydrate J ⟨sid⟩ (pre ++ id :: post) w.conn [] = (.error err, c2) := by
      rw [hydrate_append, hpre]
      simp [hydrate, hread, herr]
    simp only [hfs, hscan, OpenSession, hh]
    exact ⟨err, rfl⟩

theorem ResumerEventLog_rejects_non_json_witness :
    ∃ err, (ResumerEventLog sampleJSON
      (journalWorld "s1|stream|out1\n" [.ok (chunkMsg "text/plain" (some [1]))]) "j.log").1
        = .error err :=
  (ResumerEventLog_rejects_non_json sampleJSON
    (journalWorld "s1|stream|out1\n" [.ok (chunkMsg "text/plain" (some [1]))]) "j.log" "s1" "out1"
    [] [] [] (journalWorld "s1|stream|out1\n" [.ok (chunkMsg "text/plain" (some [1]))]).conn
    (Session.ReadAll ⟨"s1"⟩
      (journalWorld "s1|stream|out1\n" [.ok (chunkMsg "text/plain" (some [1]))]).conn "out1").2
    [some { MIMEType := "text/plain", Data := some [1] }]
    { MIMEType := "text/plain", Data := some [1] } [1]
    (by decide) rfl rfl (by simp) rfl (by decide)).1


/-! ## ResumerEventLog run twice -/

theorem FS.OpenFile_fst (fs : FS) (name : String) (trunc : Bool) :
    (fs.OpenFile name trunc).1 =
      match fs.openErr name with
      | some err => .error err
      | none => .ok ⟨name⟩ := by
  unfold FS.OpenFile
  cases fs.openErr name with
  | some err => rfl
  | none =>
    cases fs.files name with
    | none => rfl
    | some d => cases trunc <;> rfl

theorem FS.OpenFile_openErr (fs : FS) (name : String) (trunc : Bool) :
    (fs.OpenFile name trunc).2.openErr = fs.openErr := by
  unfold FS.OpenFile
  cases fs.openErr name with
  | some err => rfl
  | none =>
    cases fs.files name with
    | none => rfl
    | some d => cases trunc <;> rfl

/-- The result of ResumerEventLog in terms of the journal content and the reads. -/
theorem ResumerEventLog_fst (J : JSONCodec) (w : World) (filename : String) :
    (ResumerEventLog J w filename).1 =
      match w.fs.openErr filename with
      | some err => .error err
      | none =>
        match scanJournal (rawLines (w.fs.content filename).data) "" [] with
        | .error err => .error err
        | .panic msg => .panic msg
        | .blocked => .blocked
        | .ok (sessionID, eventIDs) =>
          match (hydrate J ⟨sessionID⟩ eventIDs w.conn []).1 with
          | .error err => .error err
          | .panic msg => .panic msg
          | .blocked => .blocked
          | .ok events =>
            .ok ({ logFile := ⟨filename⟩, session := ⟨sessionID⟩, shadows := [] }, events) := by
  unfold ResumerEventLog
  have h1 := FS.OpenFile_fst w.fs filename false
  have h2 := FS.OpenFile_content w.fs filename filename
  rcases ho : w.fs.OpenFile filename false with ⟨r, fs1⟩
  rw [ho] at h1 h2
  simp only at h1 h2
  cases he : w.fs.openErr filename with
  | some err => rw [he] at h1; subst h1; rfl
  | none =>
    rw [he] at h1; subst h1
    simp only [h2]
    cases scanJournal (rawLines (w.fs.content filename).data) "" [] with
    | error err => rfl
    | panic msg => rfl
    | blocked => rfl
    | ok p =>
      obtain ⟨sid, ids⟩ := p
      simp only [OpenSession]
      rcases hydrate J ⟨sid⟩ ids w.conn [] with ⟨r, c1⟩
      cases r <;> rfl

/-- The world ResumerEventLog leaves: the journal content is untouched, and the
connection is the one the reads leave. -/
theorem ResumerEventLog_snd (J : JSONCodec) (w : World) (filename : String) :
    (∀ n, (ResumerEventLog J w filename).2.fs.content n = w.fs.content n) ∧
    (ResumerEventLog J w filename).2.fs.openErr = w.fs.openErr ∧
    ((ResumerEventLog J w filename).2.conn = w.conn ∨
      ∃ sessionID eventIDs, (ResumerEventLog J w filename).2.conn =
        (hydrate J ⟨sessionID⟩ eventIDs w.conn []).2) := by
  unfold ResumerEventLog
  have h2 := FS.OpenFile_content w.fs filename
  have h3 := FS.OpenFile_openErr w.fs filename false
  rcases ho : w.fs.OpenFile filename false with ⟨r, fs1⟩
  rw [ho] at h2 h3
  simp only at h2 h3
  cases r with
  | error err => exact ⟨h2, h3, Or.inl rfl⟩
  | ok file =>
    simp only
    cases scanJournal (rawLines (fs1.content file.name).data) "" [] with
    | error err => exact ⟨h2, h3, Or.inl rfl⟩
    | panic msg => exact ⟨h2, h3, Or.inl rfl⟩
    | blocked => exact ⟨h2, h3, Or.inl rfl⟩
    | ok p =>
      obtain ⟨sid, ids⟩ := p
      simp only [OpenSession]
      rcases hh : hydrate J ⟨sid⟩ ids w.conn [] with ⟨r, c1⟩
      have hc : c1 = (hydrate J ⟨sid⟩ ids w.conn []).2 := by rw [hh]
      cases r <;> exact ⟨h2, h3, Or.inr ⟨sid, ids, hc⟩⟩

theorem Conn.WriteJSON_sim (h : List executeActionsMsg) (ca cb : Conn) (m : executeActionsMsg)
    (hm : IsRestoreRead m) (hs : ConnSim h ca cb) :
    (ca.WriteJSON m).1 = (cb.WriteJSON m).1 ∧ ConnSim h (ca.WriteJSON m).2 (cb.WriteJSON m).2 := by
  obtain ⟨hi, hw, hp, hst, ra, rb, hra, hrb, hsa, hsb⟩ := hs
  have hpa : ca.peer ca.sent m = ca.peer h m := by rw [hsa]; exact hst ra m hra
  have hpb : cb.peer cb.sent m = ca.peer h m := by rw [hsb, ← hp]; exact hst rb m hrb
  have hra1 : ∀ r ∈ ra ++ [m], IsRestoreRead r := by
    intro r hr
    rcases List.mem_append.1 hr with h1 | h1
    · exact hra r h1
    · rw [List.mem_singleton.1 h1]; exact hm
  have hrb1 : ∀ r ∈ rb ++ [m], IsRestoreRead r := by
    intro r hr
    rcases List.mem_append.1 hr with h1 | h1
    · exact hrb r h1
    · rw [List.mem_singleton.1 h1]; exact hm
  unfold Conn.WriteJSON
  rw [← hw]
  rcases hf : ca.wfaults with _ | ⟨a, rest⟩
  · refine ⟨rfl, ?_, rfl, hp, hst, ra ++ [m], rb ++ [m], hra1, hrb1, ?_, ?_⟩
    · simp [hpa, hpb, hi]
    · simp [hsa]
    · simp [hsb]
  · cases a with
    | none =>
      refine ⟨rfl, ?_, rfl, hp, hst, ra ++ [m], rb ++ [m], hra1, hrb1, ?_, ?_⟩
      · simp [hpa, hpb, hi]
      · simp [hsa]
      · simp [hsb]
    | some err => exact ⟨rfl, hi, rfl, hp, hst, ra, rb, hra, hrb, hsa, hsb⟩

theorem Session.ReadAll_sim (s : Session) (h : List executeActionsMsg) (ca cb : Conn)
    (id : String) (hs : ConnSim h ca cb) :
    (s.ReadAll ca id).1 = (s.ReadAll cb id).1 ∧ ConnSim h (s.ReadAll ca id).2 (s.ReadAll cb id).2 := by
  have hw := Conn.WriteJSON_sim h ca cb (restoreStreamMsg s.sessionID id) ⟨_, _, rfl⟩ hs
  unfold Session.ReadAll
  rcases ha : ca.WriteJSON (restoreStreamMsg s.sessionID id) with ⟨ea, ca1⟩
  rcases hb : cb.WriteJSON (restoreStreamMsg s.sessionID id) with ⟨eb, cb1⟩
  rw [ha, hb] at hw
  obtain ⟨he, hi, hf, hp, hst, hrs⟩ := hw
  simp only at he hi hf hp hst hrs
  subst he
  cases ea with
  | some err => exact ⟨rfl, hi, hf, hp, hst, hrs⟩
  | none => refine ⟨?_, ?_, hf, hp, hst, hrs⟩ <;> simp only [hi]

theorem hydrate_sim (J : JSONCodec) (sess : Session) (h : List executeActionsMsg)
    (ids : List String) (ca cb : Conn) (events : List Event) (hs : ConnSim h ca cb) :
    (hydrate J sess ids ca events).1 = (hydrate J sess ids cb events).1 ∧
    ConnSim h (hydrate J sess ids ca events).2 (hydrate J sess ids cb events).2 := by
  induction ids generalizing ca cb events with
  | nil => exact ⟨rfl, hs⟩
  | cons id ids ih =>
    have hr := Session.ReadAll_sim sess h ca cb id hs
    simp only [hydrate]
    rcases ha : sess.ReadAll ca id with ⟨ra, ca1⟩
    rcases hb : sess.ReadAll cb id with ⟨rb, cb1⟩
    rw [ha, hb] at hr
    obtain ⟨he, hs1⟩ := hr
    simp only at he hs1
    subst he
    cases ra with
    | ok chunks =>
      simp only
      cases hydrateChunks J chunks events with
      | error err => exact ⟨rfl, hs1⟩
      | ok events1 => exact ih ca1 cb1 events1 hs1
    | error err => exact ⟨rfl, hs1⟩
    | panic msg => exact ⟨rfl, hs1⟩
    | blocked => exact ⟨rfl, hs1⟩

theorem Session.ReadAll_sent (s : Session) (c : Conn) (id : String) :
    (s.ReadAll c id).2.peer = c.peer ∧
    ∃ rs : List executeActionsMsg, (∀ r ∈ rs, IsRestoreRead r) ∧
      (s.ReadAll c id).2.sent = c.sent ++ rs := by
  unfold Session.ReadAll Conn.WriteJSON
  rcases c.wfaults with _ | ⟨a, rest⟩
  · exact ⟨rfl, [restoreStreamMsg s.sessionID id], by simp [IsRestoreRead], rfl⟩
  · cases a with
    | none => exact ⟨rfl, [restoreStreamMsg s.sessionID id], by simp [IsRestoreRead], rfl⟩
    | some err => exact ⟨rfl, [], by simp, by simp⟩

theorem hydrate_sent (J : JSONCodec) (sess : Session) (ids : List String) (c : Conn)
    (events : List Event) :
    (hydrate J sess ids c events).2.peer = c.peer ∧
    ∃ rs : List executeActionsMsg, (∀ r ∈ rs, IsRestoreRead r) ∧
      (hydrate J sess ids c events).2.sent = c.sent ++ rs := by
  induction ids generalizing c events with
  | nil => exact ⟨rfl, [], by simp, by simp [hydrate]⟩
  | cons id ids ih =>
    obtain ⟨hp, rs, hrs, hsent⟩ := Session.ReadAll_sent sess c id
    simp only [hydrate]
    rcases ha : sess.ReadAll c id with ⟨r, c1⟩
    rw [ha] at hp hsent
    simp only at hp hsent
    have hstop : c1.peer = c.peer ∧ ∃ rs : List executeActionsMsg,
        (∀ r ∈ rs, IsRestoreRead r) ∧ c1.sent = c.sent ++ rs := ⟨hp, rs, hrs, hsent⟩
    cases r with
    | ok chunks =>
      simp only
      cases hydrateChunks J chunks events with
      | error err => exact hstop
      | ok events1 =>
        obtain ⟨hp2, rs2, hrs2, hsent2⟩ := ih c1 events1
        refine ⟨hp2.trans hp, rs ++ rs2, ?_, ?_⟩
        · intro r hr
          rcases List.mem_append.1 hr with h1 | h1
          · exact hrs r h1
          · exact hrs2 r h1
        · simp [hsent2, hsent]
    | error err => exact hstop
    | panic msg => exact hstop
    | blocked => exact hstop

theorem ResumerEventLog_idempotent_aux (J : JSONCodec) (w : World) (filename : String)
    (hb : ReadsLeaveBackend w.conn) :
    (∀ n, (ResumerEventLog J w filename).2.fs.content n = w.fs.content n) ∧
    (ResumerEventLog J (secondRun w (ResumerEventLog J w filename).2) filename).1 =
      (ResumerEventLog J w filename).1 := by
  obtain ⟨hcontent, hopen, hconn⟩ := ResumerEventLog_snd J w filename
  refine ⟨hcontent, ?_⟩
  have hsim0 : ConnSim w.conn.sent w.conn w.conn :=
    ⟨rfl, rfl, rfl, hb, [], [], by simp, by simp, by simp, by simp⟩
  have hsim : ConnSim w.conn.sent w.conn (secondRun w (ResumerEventLog J w filename).2).conn := by
    rcases hconn with hc | ⟨sid, ids, hc⟩
    · simp only [secondRun, hc]
      exact hsim0
    · obtain ⟨hp, rb, hrb, hsb⟩ := hydrate_sent J ⟨sid⟩ ids w.conn []
      simp only [secondRun, hc]
      exact ⟨rfl, rfl, hp.symm, hb, [], rb, by simp, hrb, by simp, hsb⟩
  rw [ResumerEventLog_fst, ResumerEventLog_fst J w]
  have h1 : (secondRun w (ResumerEventLog J w filename).2).fs.openErr filename =
      w.fs.openErr filename := by
    simp only [secondRun, hopen]
  have h2 : (secondRun w (ResumerEventLog J w filename).2).fs.content filename =
      w.fs.content filename := by
    simp only [secondRun, hcontent]
  rw [h1, h2]
  cases w.fs.openErr filename with
  | some err => rfl
  | none =>
    simp only
    cases scanJournal (rawLines (w.fs.content filename).data) "" [] with
    | error err => rfl
    | panic msg => rfl
    | blocked => rfl
    | ok p =>
      obtain ⟨sid, ids⟩ := p
      simp only
      rw [← (hydrate_sim J ⟨sid⟩ w.conn.sent ids w.conn _ [] hsim).1]


/-- C6, amended: for every journal and every backend whose reactions are not changed by
the restore reads it serves, ResumerEventLog leaves the content of every file, hence of
the journal, as it was, and a second run on the journal as the first run left it, over
a new connection to the same backend, returns the same result as the first: the same
events in the same order, or the same failure. So does a second run over the same
connection when the first run left its unread input and its fault script as it found
them. -/
theorem ResumerEventLog_idempotent (J : JSONCodec) (w : World) (filename : String)
    (hb : ReadsLeaveBackend w.conn) :
    (∀ n, (ResumerEventLog J w filename).2.fs.content n = w.fs.content n) ∧
    (ResumerEventLog J (secondRun w (ResumerEventLog J w filename).2) filename).1 =
      (ResumerEventLog J w filename).1 ∧
    ((ResumerEventLog J w filename).2.conn.inbox = w.conn.inbox →
      (ResumerEventLog J w filename).2.conn.wfaults = w.conn.wfaults →
      (ResumerEventLog J (ResumerEventLog J w filename).2 filename).1 =
        (ResumerEventLog J w filename).1) := by
  have hmain : ∀ n, (ResumerEventLog J w filename).2.fs.content n = w.fs.content n ∧
      (ResumerEventLog J (secondRun w (ResumerEventLog J w filename).2) filename).1 =
        (ResumerEventLog J w filename).1 := by
    intro n
    exact ⟨(ResumerEventLog_idempotent_aux J w filename hb).1 n,
      (ResumerEventLog_idempotent_aux J w filename hb).2⟩
  refine ⟨fun n => (hmain n).1, (hmain "").2, ?_⟩
  intro hi hf
  have hsame : secondRun w (ResumerEventLog J w filename).2 = (ResumerEventLog J w filename).2 := by
    simp only [secondRun, ← hi, ← hf]
  have h2 := (hmain "").2
  rw [hsame] at h2
  exact h2


/-! ## Journal lines -/

theorem rawLines_line (l rest : List Char) (h : ∀ ch ∈ l, ch ≠ '\n') :
    rawLines (l ++ '\n' :: rest) = l :: rawLines rest := by
  induction l with
  | nil => simp [rawLines]
  | cons c l ih =>
    have hc : c ≠ '\n' := h c (List.mem_cons_self _ _)
    have := ih (fun ch hch => h ch (List.mem_cons_of_mem _ hch))
    simp [rawLines, hc, this]

theorem rawLines_joinLines (lines : List (List Char))
    (h : ∀ l ∈ lines, ∀ ch ∈ l, ch ≠ '\n') : rawLines (joinLines lines) = lines := by
  induction lines with
  | nil => rfl
  | cons l lines ih =>
    have h1 := rawLines_line l (joinLines lines) (h l (List.mem_cons_self _ _))
    have h2 := ih (fun l1 hl1 => h l1 (List.mem_cons_of_mem _ hl1))
    simp only [joinLines, List.flatMap_cons, List.append_assoc, List.singleton_append] at h1 h2 ⊢
    rw [h1, h2]

theorem joinLines_append (lines : List (List Char)) (l : List Char) :
    joinLines (lines ++ [l]) = joinLines lines ++ (l ++ ['\n']) := by
  simp [joinLines]

theorem splitChars_append (sep : Char) (a b : List Char) (h : ∀ ch ∈ a, ch ≠ sep) :
    splitChars sep (a ++ sep :: b) = a :: splitChars sep b := by
  induction a with
  | nil => simp [splitChars]
  | cons c a ih =>
    have hc : c ≠ sep := h c (List.mem_cons_self _ _)
    have := ih (fun ch hch => h ch (List.mem_cons_of_mem _ hch))
    simp [splitChars, hc, this]

theorem splitChars_clean (sep : Char) (a : List Char) (h : ∀ ch ∈ a, ch ≠ sep) :
    splitChars sep a = [a] := by
  induction a with
  | nil => simp [splitChars]
  | cons c a ih =>
    have hc : c ≠ sep := h c (List.mem_cons_self _ _)
    have := ih (fun ch hch => h ch (List.mem_cons_of_mem _ hch))
    simp [splitChars, hc, this]

theorem dropCR_of_no_CR (l : List Char) (h : ∀ ch ∈ l, ch ≠ '\r') : dropCR l = l := by
  unfold dropCR
  split
  · rename_i hl
    exact absurd rfl (h '\r' (List.mem_of_getLast?_eq_some hl))
  · rfl

theorem scanJournal_append (ls1 ls2 : List (List Char)) (sessionID : String)
    (eventIDs : List String) :
    scanJournal (ls1 ++ ls2) sessionID eventIDs =
      match scanJournal ls1 sessionID eventIDs with
      | .ok (s, ids) => scanJournal ls2 s ids
      | r => r := by
  induction ls1 generalizing sessionID eventIDs with
  | nil => simp [scanJournal]
  | cons raw ls1 ih =>
    simp only [List.cons_append, scanJournal]
    split
    · rfl
    · split
      · rfl
      · split
        · split
          · rfl
          · exact ih _ _
        · exact ih _ _

theorem streamLine_data (sessionID id : String) :
    (streamLine sessionID id).data = streamRaw sessionID id ++ ['\n'] := by
  simp [streamLine, streamRaw, String.data_append]

theorem activityLine_data (sessionID kind name input output : String) :
    (activityLine sessionID kind name input output).data =
      activityRaw sessionID kind name input output ++ ['\n'] := by
  simp [activityLine, activityRaw, String.data_append]

theorem utf8Len_raw_lt (raw : List Char) (line : String) (h : line.data = raw ++ ['\n'])
    (hfit : line.utf8ByteSize ≤ MaxScanTokenSize) :
    String.utf8Len raw < MaxScanTokenSize := by
  have h1 : line.utf8ByteSize = String.utf8Len (raw ++ ['\n']) := by
    rw [← h]; rfl
  rw [String.utf8Len_append] at h1
  have h2 : String.utf8Len ['\n'] = 1 := by decide
  omega

theorem Clean.ne_bar {s : String} (h : Clean s) : ∀ ch ∈ s.data, ch ≠ '|' :=
  fun ch hch => (h ch hch).1

theorem Clean.ne_nl {s : String} (h : Clean s) : ∀ ch ∈ s.data, ch ≠ '\n' :=
  fun ch hch => (h ch hch).2.1

theorem Clean.ne_cr {s : String} (h : Clean s) : ∀ ch ∈ s.data, ch ≠ '\r' :=
  fun ch hch => (h ch hch).2.2

theorem clean_stream : Clean "stream" := by decide

theorem streamRaw_ne (sessionID id : String) (hs : Clean sessionID) (hi : Clean id) :
    ∀ ch ∈ streamRaw sessionID id, ch ≠ '\n' ∧ ch ≠ '\r' := by
  intro ch hch
  unfold streamRaw at hch
  rcases List.mem_append.1 hch with h | h
  · exact (hs ch h).2
  · rcases List.mem_cons.1 h with h | h
    · subst h; decide
    · rcases List.mem_append.1 h with h | h
      · exact (clean_stream ch h).2
      · rcases List.mem_cons.1 h with h | h
        · subst h; decide
        · exact (hi ch h).2

theorem activityRaw_ne (sessionID kind name input output : String) (hs : Clean sessionID)
    (hk : Clean kind) (hn : Clean name) (hi : Clean input) (ho : Clean output) :
    ∀ ch ∈ activityRaw sessionID kind name input output, ch ≠ '\n' ∧ ch ≠ '\r' := by
  intro ch hch
  simp only [activityRaw, List.mem_append, List.mem_cons] at hch
  rcases hch with h | h | h | h | h | h | h | h | h
  · exact (hs ch h).2
  · subst h; decide
  · exact (hk ch h).2
  · subst h; decide
  · exact (hn ch h).2
  · subst h; decide
  · exact (hi ch h).2
  · subst h; decide
  · exact (ho ch h).2

theorem Split_streamRaw (sessionID id : String) (hs : Clean sessionID) (hi : Clean id) :
    Split (String.mk (streamRaw sessionID id)) = [sessionID, "stream", id] := by
  simp only [Split, streamRaw]
  rw [splitChars_append _ _ _ hs.ne_bar, splitChars_append _ _ _ clean_stream.ne_bar,
    splitChars_clean _ _ hi.ne_bar]
  rfl

theorem Split_activityRaw (sessionID kind name input output : String) (hs : Clean sessionID)
    (hk : Clean kind) :
    ∃ rest, Split (String.mk (activityRaw sessionID kind name input output)) =
      sessionID :: kind :: rest := by
  simp only [Split, activityRaw]
  rw [splitChars_append _ _ _ hs.ne_bar, splitChars_append _ _ _ hk.ne_bar]
  exact ⟨_, rfl⟩

theorem scanJournal_streamRaw (sessionID id s : String) (ids : List String)
    (hs : Clean sessionID) (hi : Clean id)
    (hfit : (streamLine sessionID id).utf8ByteSize ≤ MaxScanTokenSize) :
    scanJournal [streamRaw sessionID id] s ids = .ok (sessionID, ids ++ [id]) := by
  have h1 := utf8Len_raw_lt _ _ (streamLine_data sessionID id) hfit
  have h2 := dropCR_of_no_CR _ (fun ch hch => (streamRaw_ne sessionID id hs hi ch hch).2)
  simp [scanJournal, h1, h2, Split_streamRaw sessionID id hs hi]

theorem scanJournal_activityRaw (sessionID kind name input output s : String)
    (ids : List String) (hs : Clean sessionID) (hk : Clean kind) (hn : Clean name)
    (hi : Clean input) (ho : Clean output) (hkind : kind ≠ "stream")
    (hfit : (activityLine sessionID kind name input output).utf8ByteSize ≤ MaxScanTokenSize) :
    scanJournal [activityRaw sessionID kind name input output] s ids = .ok (s, ids) := by
  have h1 := utf8Len_raw_lt _ _ (activityLine_data sessionID kind name input output) hfit
  have h2 := dropCR_of_no_CR _
    (fun ch hch => (activityRaw_ne sessionID kind name input output hs hk hn hi ho ch hch).2)
  obtain ⟨rest, h3⟩ := Split_activityRaw sessionID kind name input output hs hk
  simp [scanJournal, h1, h2, h3, hkind]

/-! ## The persisting backend -/

theorem persisted_append (id : String) (saved : Bool) (a b : List executeActionsMsg) :
    persisted id saved (a ++ b) =
      persisted id saved a ++ persisted id (saved || a.any (fun m => savesStream m id)) b := by
  induction a generalizing saved with
  | nil => simp [persisted]
  | cons m a ih =>
    have h := ih (saved || savesStream m id)
    simp only [List.cons_append, persisted, List.any_cons, List.append_eq, h,
      List.append_assoc, Bool.or_assoc]

theorem persisted_no_frames (id : String) (saved : Bool) (rs : List executeActionsMsg)
    (h : ∀ r ∈ rs, r.StreamFrames = []) : persisted id saved rs = [] := by
  induction rs generalizing saved with
  | nil => rfl
  | cons m rs ih =>
    have hm : m.StreamFrames = [] := h m (List.mem_cons_self _ _)
    simp [persisted, hm, ih _ (fun r hr => h r (List.mem_cons_of_mem _ hr))]

theorem IsRestoreRead.no_frames {m : executeActionsMsg} (h : IsRestoreRead m) :
    m.StreamFrames = [] := by
  obtain ⟨sid, id, rfl⟩ := h
  rfl

theorem persisted_restores (id : String) (saved : Bool) (h rs : List executeActionsMsg)
    (hrs : ∀ r ∈ rs, IsRestoreRead r) : persisted id saved (h ++ rs) = persisted id saved h := by
  rw [persisted_append, persisted_no_frames _ _ rs (fun r hr => (hrs r hr).no_frames)]
  simp

theorem persistingBackend_restores (h rs : List executeActionsMsg) (m : executeActionsMsg)
    (hrs : ∀ r ∈ rs, IsRestoreRead r) :
    persistingBackend (h ++ rs) m = persistingBackend h m := by
  unfold persistingBackend
  cases restoresStream m with
  | none => rfl
  | some id => simp only [persisted_restores id false h rs hrs]

theorem persistingBackend_save (h : List executeActionsMsg) (sessionID output waitID : String) :
    persistingBackend h (saveStreamMsg sessionID output waitID) = [] := by
  simp [persistingBackend, restoresStream, saveStreamMsg]

theorem persistingBackend_frame (h : List executeActionsMsg) (sf : StreamFrame) :
    persistingBackend h { SessionID := "", ActionGraph := none, StreamFrames := [sf] } = [] := by
  simp [persistingBackend, restoresStream]

theorem persistingBackend_restore (h : List executeActionsMsg) (sessionID id : String) :
    persistingBackend h (restoreStreamMsg sessionID id) =
      (persisted id false h).map
        (fun f => .ok { SessionID := sessionID, ActionGraph := none, StreamFrames := [f] }) := by
  simp [persistingBackend, restoresStream, restoreStreamMsg]

theorem savesStream_saveStreamMsg (sessionID output waitID id : String) :
    savesStream (saveStreamMsg sessionID output waitID) id = decide (output = id) := by
  simp [savesStream, saveStreamMsg]

theorem find?_filter_ne (m : List (String × Shadow)) (k k1 : String) (h : k1 ≠ k) :
    (m.filter (fun p => decide (p.1 ≠ k))).find? (fun p => decide (p.1 = k1)) =
      m.find? (fun p => decide (p.1 = k1)) := by
  induction m with
  | nil => rfl
  | cons p m ih =>
    by_cases hp : p.1 = k
    · have hp1 : ¬ p.1 = k1 := fun h2 => h (h2.symm.trans hp)
      rw [List.filter_cons_of_neg (by simpa using hp), List.find?_cons_of_neg _ (by simpa using hp1)]
      exact ih
    · rw [List.filter_cons_of_pos (by simpa using hp)]
      by_cases hp1 : p.1 = k1
      · rw [List.find?_cons_of_pos _ (by simpa using hp1),
          List.find?_cons_of_pos _ (by simpa using hp1)]
      · rw [List.find?_cons_of_neg _ (by simpa using hp1),
          List.find?_cons_of_neg _ (by simpa using hp1)]
        exact ih

theorem mapGet_mapSet (m : List (String × Shadow)) (k : String) (v : Shadow) (k1 : String) :
    mapGet (mapSet m k v) k1 = if k1 = k then some v else mapGet m k1 := by
  unfold mapGet mapSet
  by_cases h : k1 = k
  · subst h
    simp
  · have h1 : ¬ k = k1 := fun h2 => h h2.symm
    rw [List.find?_cons_of_neg _ (by simpa using h1), find?_filter_ne m k k1 h]
    simp [h]

theorem readAll_single (sf : StreamFrame) (sessionID : String) (h : sf.Continued = false) :
    readAllLoop [.ok { SessionID := sessionID, ActionGraph := none, StreamFrames := [sf] }] [] =
      (.ok [sf.Data], []) := by
  simp [readAllLoop, readAllFrames, h]


/-! ## Logging in a quiet world -/

theorem FS.content_set (fs : FS) (name data : String) : (fs.set name data).content name = data := by
  simp [FS.content, FS.set]

theorem EventLog.LogActivity_quiet (e : EventLog) (w : World) (kind name input output : String)
    (hc : w.conn.wfaults = []) (hf : w.fs.wfaults = []) :
    e.LogActivity w kind name input output =
      (none,
        { e with
          shadows := mapSet e.shadows output
            (Shadow.mk e.session name input output (w.uuids w.uuidNext)) },
        { fs := w.fs.set e.logFile.name
            (w.fs.content e.logFile.name ++ activityLine e.session.ID kind name input output)
          conn :=
            { w.conn with
              sent := w.conn.sent ++
                [saveStreamMsg e.session.sessionID output (w.uuids w.uuidNext)]
              inbox := w.conn.inbox ++ w.conn.peer w.conn.sent
                (saveStreamMsg e.session.sessionID output (w.uuids w.uuidNext)) }
          uuids := w.uuids
          uuidNext := w.uuidNext + 1 }) := by
  simp [EventLog.LogActivity, Session.NewADKShadow, Session.writeShadowAction, World.NewString,
    Conn.WriteJSON, FS.Fprintf, FS.Sync, hc, hf]

theorem EventLog.LogEvent_quiet (J : JSONCodec) (e : EventLog) (w : World) (id : String)
    (event : Event) (shadow : Shadow) (b : List UInt8) (hcont : event.hasContent = true)
    (hs : mapGet e.shadows id = some shadow) (hm : J.Marshal event = .ok b)
    (hc : w.conn.wfaults = []) (hf : w.fs.wfaults = []) :
    e.LogEvent J w id event =
      (none,
        { w with
          fs := w.fs.set e.logFile.name
            (w.fs.content e.logFile.name ++ streamLine e.session.ID id)
          conn :=
            { w.conn with
              sent := w.conn.sent ++
                [executeActionsMsg.mk "" none [eventFrame id b event.Partial]]
              inbox := w.conn.inbox ++ w.conn.peer w.conn.sent
                (executeActionsMsg.mk "" none [eventFrame id b event.Partial]) } }) := by
  simp [EventLog.LogEvent, hcont, hs, hm, Shadow.WriteFrame, Session.writeStreamFrame,
    Conn.WriteJSON, FS.Fprintf, FS.Sync, hc, hf, eventFrame]

theorem EventLog.LogEvent_skip (J : JSONCodec) (e : EventLog) (w : World) (id : String)
    (event : Event) (h : ¬ (event.hasContent = true ∧ (mapGet e.shadows id).isSome = true)) :
    (e.LogEvent J w id event).2 = w := by
  unfold EventLog.LogEvent
  by_cases hc : event.hasContent = true
  · have hs : mapGet e.shadows id = none := by
      cases hm : mapGet e.shadows id with
      | none => rfl
      | some s => exact absurd ⟨hc, by simp [hm]⟩ h
    simp [hc, hs]
  · simp [hc]

theorem persisted_snoc_save (id : String) (sent : List executeActionsMsg)
    (sessionID output waitID : String) :
    persisted id false (sent ++ [saveStreamMsg sessionID output waitID]) =
      persisted id false sent := by
  rw [persisted_append, persisted_no_frames _ _ [saveStreamMsg sessionID output waitID]
    (by intro r hr; rw [List.mem_singleton.1 hr]; rfl)]
  simp

theorem persisted_snoc_frame (id : String) (sent : List executeActionsMsg) (fr : StreamFrame) :
    persisted id false (sent ++ [executeActionsMsg.mk "" none [fr]]) =
      persisted id false sent ++
        (if sent.any (fun m => savesStream m id) = true ∧ fr.StreamID = id then [fr] else []) := by
  have h1 : ∀ sv : Bool, persisted id sv [executeActionsMsg.mk "" none [fr]] =
      if sv = true ∧ fr.StreamID = id then [fr] else [] := by
    intro sv
    cases sv <;> by_cases hf : fr.StreamID = id <;> simp [persisted, savesStream, hf]
  rw [persisted_append, h1]
  simp

theorem LogInv.activity {J : JSONCodec} {filename sessionID : String} {e : EventLog} {w : World}
    {reg : List String} {logged : List (String × Event)}
    (h : LogInv J filename sessionID e w reg logged) (hsid : Clean sessionID)
    (kind name input output : String)
    (hwf : (Call.activity kind name input output).WellFormed sessionID) :
    LogInv J filename sessionID (e.LogActivity w kind name input output).2.1
      (e.LogActivity w kind name input output).2.2 (output :: reg) logged := by
  obtain ⟨hk, hn, hi, ho, hkind, hfitA, hfitS⟩ := hwf
  obtain ⟨lines, s, hlines, hdata, hscan⟩ := h.journal
  rw [EventLog.LogActivity_quiet e w kind name input output h.connFaults h.fsFaults]
  have hname : e.logFile.name = filename := by rw [h.file]
  have hsess : e.session.ID = sessionID := by rw [h.session]; rfl
  have hsess1 : e.session.sessionID = sessionID := by rw [h.session]
  refine
    { openErr := h.openErr
      fsFaults := h.fsFaults
      connFaults := h.connFaults
      inbox := ?_
      peer := h.peer
      file := h.file
      session := h.session
      journal := ?_
      shadows := ?_
      regOk := ?_
      frames := ?_
      others := ?_ }
  · show w.conn.inbox ++ w.conn.peer w.conn.sent _ = []
    rw [h.inbox, h.peer, persistingBackend_save]
    rfl
  · refine ⟨lines ++ [activityRaw sessionID kind name input output], s, ?_, ?_, ?_⟩
    · intro l hl ch hch
      rcases List.mem_append.1 hl with h1 | h1
      · exact hlines l h1 ch hch
      · rw [List.mem_singleton.1 h1] at hch
        exact (activityRaw_ne sessionID kind name input output hsid hk hn hi ho ch hch).1
    · show ((w.fs.set e.logFile.name _).content filename).data = _
      rw [hname, FS.content_set, String.data_append, hdata, hsess, activityLine_data,
        joinLines_append]
    · rw [scanJournal_append, hscan]
      exact scanJournal_activityRaw sessionID kind name input output s _ hsid hk hn hi ho hkind
        hfitA
  · intro id
    show (mapGet (mapSet e.shadows output _) id).isSome = true ↔ id ∈ output :: reg
    rw [mapGet_mapSet, List.mem_cons]
    by_cases hid : id = output
    · simp [hid]
    · simp [hid, h.shadows id]
  · intro id hid
    show Clean id ∧ _ ∧ (w.conn.sent ++ [_]).any (fun m => savesStream m id) = true
    rw [List.any_append]
    rcases List.mem_cons.1 hid with h1 | h1
    · subst h1
      refine ⟨ho, hfitS, ?_⟩
      simp [savesStream_saveStreamMsg]
    · obtain ⟨a, b, c⟩ := h.regOk id h1
      exact ⟨a, b, by simp [c]⟩
  · intro p hp
    obtain ⟨b, h1, h2, h3⟩ := h.frames p hp
    refine ⟨b, h1, h2, ?_⟩
    show persisted p.1 false (w.conn.sent ++ [_]) = _
    rw [persisted_snoc_save, h3]
  · intro id hid
    show persisted id false (w.conn.sent ++ [_]) = _
    rw [persisted_snoc_save, h.others id hid]

theorem LogInv.event {J : JSONCodec} {filename sessionID : String} {e : EventLog} {w : World}
    {reg : List String} {logged : List (String × Event)}
    (h : LogInv J filename sessionID e w reg logged) (hsid : Clean sessionID)
    (id : String) (event : Event) (hcont : event.hasContent = true) (hreg : id ∈ reg)
    (hpart : event.Partial = false) (hrep : J.Representable event)
    (hnew : id ∉ logged.map Prod.fst) :
    LogInv J filename sessionID e (e.LogEvent J w id event).2 reg (logged ++ [(id, event)]) := by
  obtain ⟨lines, s, hlines, hdata, hscan⟩ := h.journal
  obtain ⟨b, hm, hu⟩ := hrep
  obtain ⟨hclean, hfit, hsaved⟩ := h.regOk id hreg
  obtain ⟨shadow, hshadow⟩ := Option.isSome_iff_exists.1 ((h.shadows id).2 hreg)
  rw [EventLog.LogEvent_quiet J e w id event shadow b hcont hshadow hm h.connFaults h.fsFaults]
  have hname : e.logFile.name = filename := by rw [h.file]
  have hsess : e.session.ID = sessionID := by rw [h.session]; rfl
  refine
    { openErr := h.openErr
      fsFaults := h.fsFaults
      connFaults := h.connFaults
      inbox := ?_
      peer := h.peer
      file := h.file
      session := h.session
      journal := ?_
      shadows := h.shadows
      regOk := ?_
      frames := ?_
      others := ?_ }
  · show w.conn.inbox ++ w.conn.peer w.conn.sent _ = []
    rw [h.inbox, h.peer, persistingBackend_frame]
    rfl
  · refine ⟨lines ++ [streamRaw sessionID id], sessionID, ?_, ?_, ?_⟩
    · intro l hl ch hch
      rcases List.mem_append.1 hl with h1 | h1
      · exact hlines l h1 ch hch
      · rw [List.mem_singleton.1 h1] at hch
        exact (streamRaw_ne sessionID id hsid hclean ch hch).1
    · show ((w.fs.set e.logFile.name _).content filename).data = _
      rw [hname, FS.content_set, String.data_append, hdata, hsess, streamLine_data,
        joinLines_append]
    · rw [scanJournal_append, hscan]
      simp only [List.map_append, List.map_cons, List.map_nil]
      exact scanJournal_streamRaw sessionID id s _ hsid hclean hfit
  · intro id1 hid1
    obtain ⟨a, b1, c⟩ := h.regOk id1 hid1
    refine ⟨a, b1, ?_⟩
    show (w.conn.sent ++ [_]).any (fun m => savesStream m id1) = true
    rw [List.any_append]
    simp [c]
  · intro p hp
    show ∃ b, _ ∧ _ ∧ persisted p.1 false (w.conn.sent ++ [_]) = _
    rw [persisted_snoc_frame]
    rcases List.mem_append.1 hp with h1 | h1
    · obtain ⟨b1, h2, h3, h4⟩ := h.frames p h1
      refine ⟨b1, h2, h3, ?_⟩
      have hne : id ≠ p.1 := by
        intro heq
        exact hnew (heq ▸ List.mem_map_of_mem Prod.fst h1)
      simp [h4, eventFrame, hne]
    · rw [List.mem_singleton.1 h1]
      refine ⟨b, hm, hu, ?_⟩
      simp [h.others id hnew, hsaved, eventFrame, hpart]
  · intro id1 hid1
    show persisted id1 false (w.conn.sent ++ [_]) = _
    rw [persisted_snoc_frame]
    have h1 : id1 ∉ logged.map Prod.fst := by
      intro hmem
      exact hid1 (by simp only [List.map_append, List.mem_append]; exact Or.inl hmem)
    have h2 : id ≠ id1 := by
      intro heq
      exact hid1 (by simp [heq])
    simp [h.others id1 h1, eventFrame, h2]


/-! ## Replaying what was logged -/

theorem LogInv.run {J : JSONCodec} {filename sessionID : String} (hsid : Clean sessionID)
    (calls : List Call) :
    ∀ (e : EventLog) (w : World) (reg : List String) (logged : List (String × Event)),
      LogInv J filename sessionID e w reg logged →
      (∀ c ∈ calls, c.WellFormed sessionID) →
      (∀ p ∈ loggedEvents calls reg, p.2.Partial = false ∧ J.Representable p.2) →
      ((logged ++ loggedEvents calls reg).map Prod.fst).Nodup →
      ∃ reg1, LogInv J filename sessionID (runCalls J calls e w).1 (runCalls J calls e w).2 reg1
        (logged ++ loggedEvents calls reg) := by
  induction calls with
  | nil =>
    intro e w reg logged h _ _ _
    exact ⟨reg, by simpa [loggedEvents, runCalls] using h⟩
  | cons c calls ih =>
    intro e w reg logged h hwf hev hnd
    have hwf1 : ∀ c1 ∈ calls, c1.WellFormed sessionID :=
      fun c1 hc1 => hwf c1 (List.mem_cons_of_mem _ hc1)
    cases c with
    | activity kind name input output =>
      simp only [loggedEvents, runCalls] at hev hnd ⊢
      exact ih _ _ (output :: reg) logged
        (h.activity hsid kind name input output (hwf _ (List.mem_cons_self _ _))) hwf1 hev hnd
    | event id event =>
      by_cases hc : event.hasContent = true ∧ id ∈ reg
      · simp only [loggedEvents, runCalls, hc, and_self, if_true] at hev hnd ⊢
        have hhead := hev (id, event) (List.mem_cons_self _ _)
        have hnd1 : ((logged ++ [(id, event)] ++ loggedEvents calls reg).map Prod.fst).Nodup := by
          simpa using hnd
        have hnew : id ∉ logged.map Prod.fst := by
          intro hmem
          rw [List.map_append, List.map_cons] at hnd
          have := (List.nodup_append.1 hnd).2.2
          exact this hmem (List.mem_cons_self _ _)
        have hstep := h.event hsid id event hc.1 hc.2 hhead.1 hhead.2 hnew
        obtain ⟨reg1, hfin⟩ := ih e _ reg (logged ++ [(id, event)]) hstep hwf1
          (fun p hp => hev p (List.mem_cons_of_mem _ hp)) hnd1
        exact ⟨reg1, by simpa using hfin⟩
      · have hskip : (e.LogEvent J w id event).2 = w := by
          apply EventLog.LogEvent_skip
          intro hh
          exact hc ⟨hh.1, (h.shadows id).1 hh.2⟩
        simp only [loggedEvents, runCalls, hc, if_false, hskip] at hev hnd ⊢
        exact ih e w reg logged h hwf1 hev hnd

theorem Session.ReadAll_persisting (sess : Session) (H rs : List executeActionsMsg) (c : Conn)
    (id : String) (b : List UInt8) (hf : c.wfaults = []) (hi : c.inbox = [])
    (hp : c.peer = persistingBackend) (hrs : ∀ r ∈ rs, IsRestoreRead r) (hs : c.sent = H ++ rs)
    (hframe : persisted id false H = [eventFrame id b false]) :
    sess.ReadAll c id =
      (.ok [some { MIMEType := "application/json", Data := some b }],
        { c with sent := c.sent ++ [restoreStreamMsg sess.sessionID id] }) := by
  have hreply : c.peer c.sent (restoreStreamMsg sess.sessionID id) =
      [.ok (executeActionsMsg.mk sess.sessionID none [eventFrame id b false])] := by
    rw [hp, hs, persistingBackend_restores H rs _ hrs, persistingBackend_restore, hframe]
    rfl
  simp only [Session.ReadAll, Conn.WriteJSON, hf, hi, hreply, List.nil_append]
  rw [readAll_single _ _ rfl]
  simp [eventFrame, hi]

theorem hydrate_logged (J : JSONCodec) (sess : Session) (H : List executeActionsMsg)
    (logged : List (String × Event))
    (hL : ∀ p ∈ logged, ∃ b, J.Unmarshal b = .ok p.2 ∧
      persisted p.1 false H = [eventFrame p.1 b false]) :
    ∀ (c : Conn) (events : List Event) (rs : List executeActionsMsg),
      c.wfaults = [] → c.inbox = [] → c.peer = persistingBackend →
      (∀ r ∈ rs, IsRestoreRead r) → c.sent = H ++ rs →
      (hydrate J sess (logged.map Prod.fst) c events).1 = .ok (events ++ logged.map Prod.snd) := by
  induction logged with
  | nil =>
    intro c events rs _ _ _ _ _
    simp [hydrate]
  | cons p logged ih =>
    intro c events rs hf hi hp hrs hs
    obtain ⟨b, hu, hframe⟩ := hL p (List.mem_cons_self _ _)
    have hread := Session.ReadAll_persisting sess H rs c p.1 b hf hi hp hrs hs hframe
    simp only [List.map_cons, hydrate, hread, hydrateChunks, hu]
    have hrs1 : ∀ r ∈ rs ++ [restoreStreamMsg sess.sessionID p.1], IsRestoreRead r := by
      intro r hr
      rcases List.mem_append.1 hr with h1 | h1
      · exact hrs r h1
      · rw [List.mem_singleton.1 h1]; exact ⟨_, _, rfl⟩
    have := ih (fun q hq => hL q (List.mem_cons_of_mem _ hq))
      { c with sent := c.sent ++ [restoreStreamMsg sess.sessionID p.1] } (events ++ [p.2])
      (rs ++ [restoreStreamMsg sess.sessionID p.1]) hf hi hp hrs1 (by simp [hs])
    simpa using this


theorem NewEventLog_quiet (w : World) (filename : String) (ho : w.fs.openErr filename = none) :
    NewEventLog w filename = (.ok (freshLog w filename), freshWorld w filename) := by
  unfold NewEventLog FS.OpenFile freshLog freshWorld
  cases hf : w.fs.files filename <;> simp [World.NewString, OpenSession, ho, hf]

theorem LogInv.fresh (J : JSONCodec) (w : World) (filename : String) (hq : w.Quiet filename) :
    LogInv J filename (w.uuids w.uuidNext) (freshLog w filename) (freshWorld w filename)
      [] [] := by
  obtain ⟨ho, hf, hc, hi, hs, hp⟩ := hq
  refine
    { openErr := ho
      fsFaults := hf
      connFaults := hc
      inbox := hi
      peer := hp
      file := rfl
      session := rfl
      journal := ⟨[], "", by simp, by simp [freshWorld, FS.content_set, joinLines], rfl⟩
      shadows := by intro id; simp [freshLog, mapGet]
      regOk := by simp
      frames := by simp
      others := by intro id _; show persisted id false w.conn.sent = []; rw [hs]; rfl }

/-- What ResumerEventLog returns after a sequence of logging calls on a new EventLog in a
quiet world: the logged events, each once, in order. -/
theorem replay_of_calls (J : JSONCodec) (w : World) (filename : String) (calls : List Call)
    (hq : w.Quiet filename) (hsid : Clean (w.uuids w.uuidNext))
    (hwf : ∀ c ∈ calls, c.WellFormed (w.uuids w.uuidNext))
    (hev : ∀ p ∈ loggedEvents calls [], p.2.Partial = false ∧ J.Representable p.2)
    (hnd : ((loggedEvents calls []).map Prod.fst).Nodup) :
    ∃ log, (ResumerEventLog J (afterCalls J w filename calls) filename).1 =
      .ok (log, (loggedEvents calls []).map Prod.snd) := by
  obtain ⟨reg1, hinv⟩ := LogInv.run hsid calls _ _ [] [] (LogInv.fresh J w filename hq) hwf hev
    (by simpa using hnd)
  have hafter : afterCalls J w filename calls =
      (runCalls J calls (freshLog w filename) (freshWorld w filename)).2 := by
    simp only [afterCalls, NewEventLog_quiet w filename hq.1]
  rw [← hafter] at hinv
  simp only [List.nil_append] at hinv
  obtain ⟨lines, s, hlines, hdata, hscan⟩ := hinv.journal
  rw [ResumerEventLog_fst, hinv.openErr, hdata, rawLines_joinLines lines hlines, hscan]
  have hh := hydrate_logged J ⟨s⟩ (afterCalls J w filename calls).conn.sent
    (loggedEvents calls [])
    (fun p hp => by
      obtain ⟨b, _, h2, h3⟩ := hinv.frames p hp
      exact ⟨b, h2, h3⟩)
    (afterCalls J w filename calls).conn [] [] hinv.connFaults hinv.inbox hinv.peer (by simp)
    (by simp)
  simp only [hh, List.nil_append]
  exact ⟨_, rfl⟩

/-- C1, counterexample: in the scenario of the claim (LogActivity on `out1`, a partial
and then a non-partial event on `out1`, persisting backend) ResumerEventLog returns four
events when the events carry response content, each logged event twice, and no event
when they carry none; in neither case exactly the two logged events. -/
theorem scenario_not_two_events :
    (ResumerEventLog sampleJSON
        (afterCalls sampleJSON sampleWorld "j.log" (scenarioCalls evPartial evFinal)) "j.log").1 =
      .ok ({ logFile := ⟨"j.log"⟩, session := ⟨"uuid-0"⟩, shadows := [] },
        [evPartial, evFinal, evPartial, evFinal]) ∧
    (ResumerEventLog sampleJSON
        (afterCalls sampleJSON sampleWorld "j.log" (scenarioCalls (evBare true) (evBare false)))
        "j.log").1 =
      .ok ({ logFile := ⟨"j.log"⟩, session := ⟨""⟩, shadows := [] }, []) := by
  decide

/-- C1, amended: for every sequence of LogActivity/LogEvent calls made on a new EventLog
in a quiet world (no fault, persisting backend), with a session id and activity fields
free of `|` and line breaks, kinds other than `stream` and lines within the scanner's
token size, in which the events that get logged (those with response content, sent to a
registered output id) are JSON-representable, not partial and go to pairwise different
streams, ResumerEventLog on the resulting journal returns exactly the logged events,
each once and in the order they were logged. Events without response content are not
logged and not returned. -/
theorem logged_events_replayed (J : JSONCodec) (w : World) (filename : String)
    (calls : List Call) (hq : w.Quiet filename) (hsid : Clean (w.uuids w.uuidNext))
    (hwf : ∀ c ∈ calls, c.WellFormed (w.uuids w.uuidNext))
    (hev : ∀ p ∈ loggedEvents calls [], p.2.Partial = false ∧ J.Representable p.2)
    (hnd : ((loggedEvents calls []).map Prod.fst).Nodup) :
    ∃ log, (ResumerEventLog J (afterCalls J w filename calls) filename).1 =
      .ok (log, (loggedEvents calls []).map Prod.snd) :=
  replay_of_calls J w filename calls hq hsid hwf hev hnd

theorem sampleWorld_quiet : sampleWorld.Quiet "j.log" :=
  ⟨rfl, rfl, rfl, rfl, rfl, rfl⟩

theorem evFinal_representable : sampleJSON.Representable evFinal :=
  ⟨_, rfl, rfl⟩

theorem evFinalB_representable :
    sampleJSON.Representable { evFinal with Author := "agentB" } :=
  ⟨_, rfl, rfl⟩

theorem logged_events_replayed_witness :
    ∃ log, (ResumerEventLog sampleJSON (afterCalls sampleJSON sampleWorld "j.log" twoStreamCalls)
      "j.log").1 = .ok (log, (loggedEvents twoStreamCalls []).map Prod.snd) :=
  logged_events_replayed sampleJSON sampleWorld "j.log" twoStreamCalls sampleWorld_quiet
    (by decide) (by decide)
    (by
      have h : loggedEvents twoStreamCalls [] =
          [("out1", evFinal), ("out2", { evFinal with Author := "agentB" })] := by decide
      rw [h]
      intro p hp
      rcases List.mem_cons.1 hp with h1 | h1
      · subst h1; exact ⟨rfl, evFinal_representable⟩
      · rw [List.mem_singleton.1 h1]; exact ⟨rfl, evFinalB_representable⟩)
    (by decide)

/-- C2, counterexample: after LogActivity registered `out1`, LogEvent of an event
without response content logs nothing, and ResumerEventLog returns no event; LogEvent
of a partial event with content leaves a stream without terminal frame, and
ResumerEventLog does not return. -/
theorem roundtrip_fails_without_content_or_partial :
    (ResumerEventLog sampleJSON
        (afterCalls sampleJSON sampleWorld "j.log"
          [.activity "agent_start" "agentA" "in1" "out1", .event "out1" (evBare false)])
        "j.log").1 =
      .ok ({ logFile := ⟨"j.log"⟩, session := ⟨""⟩, shadows := [] }, []) ∧
    sampleJSON.Representable (evBare false) ∧
    (ResumerEventLog sampleJSON
        (afterCalls sampleJSON sampleWorld "j.log"
          [.activity "agent_start" "agentA" "in1" "out1", .event "out1" evPartial])
        "j.log").1 = .blocked ∧
    sampleJSON.Representable evPartial :=
  ⟨by decide, ⟨_, rfl, rfl⟩, by decide, ⟨_, rfl, rfl⟩⟩

/-- C2, amended: round trip of one event. For every JSON-representable event that has
response content and is not partial, and every outputID registered by LogActivity on a
new EventLog in a quiet world (no fault, persisting backend; session id and activity
fields free of `|` and line breaks, kind other than `stream`, lines within the
scanner's token size), LogEvent(outputID, e) returns nil and ResumerEventLog on the
journal then returns exactly the one event e. -/
theorem LogEvent_roundtrip (J : JSONCodec) (w : World) (filename : String)
    (kind name input outputID : String) (event : Event) (hq : w.Quiet filename)
    (hsid : Clean (w.uuids w.uuidNext))
    (hwf : (Call.activity kind name input outputID).WellFormed (w.uuids w.uuidNext))
    (hcont : event.hasContent = true) (hpart : event.Partial = false)
    (hrep : J.Representable event) :
    NewEventLog w filename = (.ok (freshLog w filename), freshWorld w filename) ∧
    ((freshLog w filename).LogActivity (freshWorld w filename) kind name input outputID).1
      = none ∧
    (((freshLog w filename).LogActivity (freshWorld w filename) kind name input outputID).2.1.LogEvent
      J ((freshLog w filename).LogActivity (freshWorld w filename) kind name input outputID).2.2
      outputID event).1 = none ∧
    ∃ log, (ResumerEventLog J
      (afterCalls J w filename [.activity kind name input outputID, .event outputID event])
      filename).1 = .ok (log, [event]) := by
  have hl : loggedEvents [.activity kind name input outputID, .event outputID event] [] =
      [(outputID, event)] := by
    simp [loggedEvents, hcont]
  have h0 := LogInv.fresh J w filename hq
  have h1 := h0.activity hsid kind name input outputID hwf
  refine ⟨NewEventLog_quiet w filename hq.1, ?_, ?_, ?_⟩
  · show ((freshLog w filename).LogActivity (freshWorld w filename) kind name input outputID).1
      = none
    rw [EventLog.LogActivity_quiet _ _ kind name input outputID h0.connFaults h0.fsFaults]
  · obtain ⟨b, hm, _⟩ := hrep
    obtain ⟨shadow, hshadow⟩ :=
      Option.isSome_iff_exists.1 ((h1.shadows outputID).2 (List.mem_cons_self _ _))
    show (((freshLog w filename).LogActivity (freshWorld w filename) kind name input
      outputID).2.1.LogEvent J _ outputID event).1 = none
    rw [EventLog.LogEvent_quiet J _ _ outputID event shadow b hcont hshadow hm
      h1.connFaults h1.fsFaults]
  · have h := replay_of_calls J w filename
      [.activity kind name input outputID, .event outputID event] hq hsid
      (by
        intro c hc
        rcases List.mem_cons.1 hc with h1 | h1
        · rw [h1]; exact hwf
        · rw [List.mem_singleton.1 h1]; trivial)
      (by
        rw [hl]
        intro p hp
        rw [List.mem_singleton.1 hp]
        exact ⟨hpart, hrep⟩)
      (by rw [hl]; simp)
    rw [hl] at h
    exact h

theorem LogEvent_roundtrip_witness :
    ∃ log, (ResumerEventLog sampleJSON
      (afterCalls sampleJSON sampleWorld "j.log"
        [.activity "agent_start" "agentA" "in1" "out1", .event "out1" evFinal])
      "j.log").1 = .ok (log, [evFinal]) :=
  (LogEvent_roundtrip sampleJSON sampleWorld "j.log" "agent_start" "agentA" "in1" "out1" evFinal
    sampleWorld_quiet (by decide) (by decide) (by decide) rfl evFinal_representable).2.2.2

theorem persisting_ReadsLeaveBackend (c : Conn) (h : c.peer = persistingBackend) :
    ReadsLeaveBackend c := by
  intro rs m hrs
  rw [h]
  exact persistingBackend_restores c.sent rs m hrs

theorem ResumerEventLog_idempotent_witness :
    (ResumerEventLog sampleJSON
      (secondRun (afterCalls sampleJSON sampleWorld "j.log" (scenarioCalls evPartial evFinal))
        (ResumerEventLog sampleJSON
          (afterCalls sampleJSON sampleWorld "j.log" (scenarioCalls evPartial evFinal))
          "j.log").2) "j.log").1 =
      (ResumerEventLog sampleJSON
        (afterCalls sampleJSON sampleWorld "j.log" (scenarioCalls evPartial evFinal))
        "j.log").1 :=
  (ResumerEventLog_idempotent sampleJSON
    (afterCalls sampleJSON sampleWorld "j.log" (scenarioCalls evPartial evFinal)) "j.log"
    (persisting_ReadsLeaveBackend _ rfl)).2.1

/-- C6, counterexample: a journal with the `stream` lines `out1`, `out2`, `out2` and a
backend holding one event on `out1` and two on `out2`. ResumerEventLog returns the
events a, c, d and leaves two replies unread on the connection; the journal and the
streams the backend persisted are as before; run again on the world the first run left,
it returns c, d, a. -/
theorem ResumerEventLog_twice_differs :
    (ResumerEventLog sampleJSON
        (afterCalls sampleJSON sampleWorld "j.log" threeLineCalls) "j.log").1 =
      .ok ({ logFile := ⟨"j.log"⟩, session := ⟨"uuid-0"⟩, shadows := [] },
        [evText "agentA" "a", evText "agentB" "c", evText "agentB" "d"]) ∧
    (ResumerEventLog sampleJSON
        (ResumerEventLog sampleJSON
          (afterCalls sampleJSON sampleWorld "j.log" threeLineCalls) "j.log").2 "j.log").1 =
      .ok ({ logFile := ⟨"j.log"⟩, session := ⟨"uuid-0"⟩, shadows := [] },
        [evText "agentB" "c", evText "agentB" "d", evText "agentA" "a"]) ∧
    (ResumerEventLog sampleJSON
        (afterCalls sampleJSON sampleWorld "j.log" threeLineCalls) "j.log").2.fs.content "j.log" =
      (afterCalls sampleJSON sampleWorld "j.log" threeLineCalls).fs.content "j.log" ∧
    (afterCalls sampleJSON sampleWorld "j.log" threeLineCalls).fs.content "j.log" =
      "uuid-0|agent_start|agentA|in1|out1\nuuid-0|stream|out1\n" ++
      "uuid-0|agent_start|agentB|in2|out2\nuuid-0|stream|out2\nuuid-0|stream|out2\n" ∧
    (∀ id ∈ ["out1", "out2"],
      persisted id false (ResumerEventLog sampleJSON
        (afterCalls sampleJSON sampleWorld "j.log" threeLineCalls) "j.log").2.conn.sent =
      persisted id false (afterCalls sampleJSON sampleWorld "j.log" threeLineCalls).conn.sent) ∧
    (afterCalls sampleJSON sampleWorld "j.log" threeLineCalls).conn.inbox.length = 0 ∧
    (ResumerEventLog sampleJSON
        (afterCalls sampleJSON sampleWorld "j.log" threeLineCalls) "j.log").2.conn.inbox.length
      = 2 := by
  decide


/-! ## Journal appends and truncation -/

/-- C11, the code at the failing input: with a Shadow registered for `out1` and a disk
whose next write fails, LogEvent of an event with content returns nil although the
journal line was not appended (the journal stays empty) and the frame is sent; on the
same disk LogActivity returns the write error. -/
theorem LogEvent_swallows_append_failure :
    (sampleLogOut1.LogEvent sampleJSON fullDiskWorld "out1" evFinal).1 = none ∧
    (sampleLogOut1.LogEvent sampleJSON fullDiskWorld "out1" evFinal).2.fs.content "j.log" = "" ∧
    (sampleLogOut1.LogEvent sampleJSON fullDiskWorld "out1" evFinal).2.conn.sent.length = 1 ∧
    (sampleLogOut1.LogActivity fullDiskWorld "agent_start" "agentA" "in1" "out1").1 =
      some "no space left on device" := by
  decide

/-- C12, counterexample: NewEventLog on an existing journal with one line leaves the
file empty, and NewGRootRunner takes that path whenever ResumeEventLog is not set. -/
theorem NewEventLog_empties_journal :
    (journalWorld "s1|stream|out1\n" []).fs.content "j.log" = "s1|stream|out1\n" ∧
    (NewEventLog (journalWorld "s1|stream|out1\n" []) "j.log").2.fs.content "j.log" = "" ∧
    (NewGRootRunner_eventLog sampleJSON (journalWorld "s1|stream|out1\n" []) "j.log"
      false).2.fs.content "j.log" = "" := by
  decide

theorem FS.Fprintf_content (fs : FS) (f : File) (s n : String) :
    ∃ t, (fs.Fprintf f s).2.content n = fs.content n ++ t := by
  unfold FS.Fprintf
  have hset : ∃ t, (fs.set f.name (fs.content f.name ++ s)).content n = fs.content n ++ t := by
    by_cases hn : n = f.name
    · exact ⟨s, by rw [hn, FS.content_set]⟩
    · exact ⟨"", by simp [FS.content, FS.set, hn]⟩
  rcases fs.wfaults with _ | ⟨a, rest⟩
  · exact hset
  · cases a with
    | none => exact hset
    | some err => exact ⟨"", by simp [FS.content]⟩

theorem Session.NewADKShadow_fs (s : Session) (w : World) (name input output : String) :
    (s.NewADKShadow w name input output).2.fs = w.fs := by
  rcases h : w.conn.wfaults with _ | ⟨a, rest⟩
  · simp [Session.NewADKShadow, Session.writeShadowAction, World.NewString, Conn.WriteJSON, h]
  · cases a <;>
      simp [Session.NewADKShadow, Session.writeShadowAction, World.NewString, Conn.WriteJSON, h]

theorem EventLog.LogActivity_content (e : EventLog) (w : World)
    (kind name input output n : String) :
    ∃ t, (e.LogActivity w kind name input output).2.2.fs.content n = w.fs.content n ++ t := by
  have hfs := Session.NewADKShadow_fs e.session w name input output
  unfold EventLog.LogActivity
  rcases hr : e.session.NewADKShadow w name input output with ⟨r, w1⟩
  rw [hr] at hfs
  simp only at hfs
  cases r with
  | error err => exact ⟨"", by simp [hfs]⟩
  | ok shadow =>
    obtain ⟨t, ht⟩ := FS.Fprintf_content w1.fs e.logFile
      (activityLine e.session.ID kind name input output) n
    exact ⟨t, by simpa [FS.Sync, hfs] using ht⟩

theorem EventLog.LogEvent_content (J : JSONCodec) (e : EventLog) (w : World) (id : String)
    (event : Event) (n : String) :
    ∃ t, (e.LogEvent J w id event).2.fs.content n = w.fs.content n ++ t := by
  unfold EventLog.LogEvent
  by_cases hc : event.hasContent = true
  · cases hs : mapGet e.shadows id with
    | none => exact ⟨"", by simp [hc]⟩
    | some shadow =>
      obtain ⟨t, ht⟩ := FS.Fprintf_content w.fs e.logFile (streamLine e.session.ID id) n
      cases hm : J.Marshal event with
      | error err => exact ⟨t, by simpa [hc, FS.Sync] using ht⟩
      | ok out => exact ⟨t, by simpa [hc, FS.Sync] using ht⟩
  · exact ⟨"", by simp [hc]⟩

/-- C12, amended: NewEventLog opens the journal, creating it if absent, and always
leaves it empty (it opens with O_TRUNC and takes no option): it is the fresh-start
path, which NewGRootRunner takes whenever ResumeEventLog is not set; with
ResumeEventLog set the journal is opened by ResumerEventLog and keeps its content.
LogActivity and LogEvent leave the previous content of every file as a prefix of the
new content, and ResumerEventLog leaves every content as it was. -/
theorem journal_frame (J : JSONCodec) (e : EventLog) (w : World) (filename : String) :
    (w.fs.openErr filename = none →
      (NewEventLog w filename).2.fs.content filename = "" ∧
      ∀ n, n ≠ filename → (NewEventLog w filename).2.fs.content n = w.fs.content n) ∧
    (NewGRootRunner_eventLog J w filename false).2 =
      (NewEventLog w (if filename = "" then "adk_runner.log" else filename)).2 ∧
    (∀ n, (NewGRootRunner_eventLog J w filename true).2.fs.content n = w.fs.content n) ∧
    (∀ kind name input output n, ∃ t,
      (e.LogActivity w kind name input output).2.2.fs.content n = w.fs.content n ++ t) ∧
    (∀ id event n, ∃ t, (e.LogEvent J w id event).2.fs.content n = w.fs.content n ++ t) ∧
    (∀ n, (ResumerEventLog J w filename).2.fs.content n = w.fs.content n) := by
  refine ⟨?_, ?_, ?_, ?_, ?_, (ResumerEventLog_snd J w filename).1⟩
  · intro ho
    rw [NewEventLog_quiet w filename ho]
    refine ⟨by simp [freshWorld, FS.content_set], ?_⟩
    intro n hn
    simp [freshWorld, FS.content, FS.set, hn]
  · simp only [NewGRootRunner_eventLog, Bool.false_eq_true, if_false]
    rcases NewEventLog w (if filename = "" then "adk_runner.log" else filename) with ⟨r, w1⟩
    cases r <;> rfl
  · intro n
    have h := (ResumerEventLog_snd J w (if filename = "" then "adk_runner.log" else filename)).1 n
    simp only [NewGRootRunner_eventLog, if_true]
    rcases hr : ResumerEventLog J w (if filename = "" then "adk_runner.log" else filename)
      with ⟨r, w1⟩
    rw [hr] at h
    cases r with
    | ok p => exact h
    | error err => exact h
    | panic msg => exact h
    | blocked => exact h
  · intro kind name input output n
    exact EventLog.LogActivity_content e w kind name input output n
  · intro id event n
    exact EventLog.LogEvent_content J e w id event n


/-! ## LogEvent, NewADKShadow and ReadAll on the wire -/

/-- C15, the code at the failing input: with a Shadow registered for `out1` and a disk
whose next write fails, LogEvent of an event with content succeeds (returns nil) and
sends its one frame, but appends no journal line: the journal is as before. -/
theorem LogEvent_success_without_line :
    (sampleLogOut1.LogEvent sampleJSON fullDiskWorld "out1" evFinal).1 = none ∧
    (sampleLogOut1.LogEvent sampleJSON fullDiskWorld "out1" evFinal).2.fs.content "j.log" =
      fullDiskWorld.fs.content "j.log" ∧
    (sampleLogOut1.LogEvent sampleJSON fullDiskWorld "out1" evFinal).2.conn.sent =
      [framesMsg [dataFrame "out1" [0, 6, 97, 103, 101, 110, 116, 65, 1, 0, 1, 5, 109, 111,
        100, 101, 108, 1, 5, 104, 101, 108, 108, 111] false]] := by
  decide

/-- What a LogEvent does when the journal append succeeds: for an event with content,
a registered outputID and a codec that serializes the event, the journal gains exactly
the line `sessionID|stream|outputID`; when the frame write succeeds as well the call
returns nil and exactly one frame-only message is sent, holding exactly the frame of
outputID with the JSON payload and continued equal to the partial flag. -/
theorem EventLog.LogEvent_effect (J : JSONCodec) (e : EventLog) (w : World) (id : String)
    (event : Event) (shadow : Shadow) (out : List UInt8) (hc : event.hasContent = true)
    (hs : mapGet e.shadows id = some shadow) (hm : J.Marshal event = .ok out)
    (hf : ∀ err rest, w.fs.wfaults ≠ some err :: rest)
    (hw : ∀ err rest, w.conn.wfaults ≠ some err :: rest) :
    (e.LogEvent J w id event).1 = none ∧
    (e.LogEvent J w id event).2.fs.content e.logFile.name =
      w.fs.content e.logFile.name ++ e.session.sessionID ++ "|stream|" ++ id ++ "\n" ∧
    (e.LogEvent J w id event).2.conn.sent = w.conn.sent ++
      [{ SessionID := "", ActionGraph := none,
         StreamFrames := [{ StreamID := id,
                            Data := some { MIMEType := "application/json", Data := some out },
                            Continued := event.Partial }] }] := by
  have hfs : ((w.fs.Fprintf e.logFile (streamLine e.session.ID id)).2.Sync e.logFile).content
      e.logFile.name =
      w.fs.content e.logFile.name ++ e.session.sessionID ++ "|stream|" ++ id ++ "\n" := by
    unfold FS.Fprintf FS.Sync
    rcases hfw : w.fs.wfaults with _ | ⟨a, rest⟩
    · simp [FS.content, FS.set, streamLine, Session.ID, String.append_assoc]
    · cases a with
      | none => simp [FS.content, FS.set, streamLine, Session.ID, String.append_assoc]
      | some err => exact absurd hfw (hf err rest)
  rcases hcw : w.conn.wfaults with _ | ⟨a, rest⟩
  · simp [EventLog.LogEvent, hc, hs, hm, Shadow.WriteFrame, Session.writeStreamFrame,
      Conn.WriteJSON, hcw, hfs]
  · cases a with
    | none =>
      simp [EventLog.LogEvent, hc, hs, hm, Shadow.WriteFrame, Session.writeStreamFrame,
        Conn.WriteJSON, hcw, hfs]
    | some err => exact absurd hcw (hw err rest)

/-- C16: NewADKShadow draws a new wait stream id and sends one message: the session's
id with an action graph holding the single action `save_stream`, its input port bound
to the output stream id, its single output port bound to the wait stream id, and that
port as the graph's only observed output. When the send succeeds the Shadow returned
records the session, name, input, output and that wait stream id, and exactly this
message was sent; when the send fails the error is returned, with no Shadow and
nothing sent. -/
theorem Session.NewADKShadow_spec (s : Session) (w : World) (name input output : String) :
    ((∀ err rest, w.conn.wfaults ≠ some err :: rest) →
      (s.NewADKShadow w name input output).1 =
        .ok { sess := s, displayName := name, input := input, output := output,
              waitStreamID := w.uuids w.uuidNext } ∧
      (s.NewADKShadow w name input output).2.conn.sent = w.conn.sent ++
        [{ SessionID := s.sessionID,
           ActionGraph := some
             { Actions := [{ Name := "save_stream",
                             Inputs := [{ Name := "input", StreamID := output }],
                             Outputs := [{ Name := "output", StreamID := w.uuids w.uuidNext }] }],
               Outputs := [{ Name := "output", StreamID := w.uuids w.uuidNext }] },
           StreamFrames := [] }]) ∧
    (∀ err rest, w.conn.wfaults = some err :: rest →
      (s.NewADKShadow w name input output).1 = .error err ∧
      (s.NewADKShadow w name input output).2.conn.sent = w.conn.sent) ∧
    (s.NewADKShadow w name input output).2.uuidNext = w.uuidNext + 1 := by
  rcases hcw : w.conn.wfaults with _ | ⟨a, rest⟩
  · simp [Session.NewADKShadow, Session.writeShadowAction, World.NewString, Conn.WriteJSON,
      hcw, saveStreamMsg]
  · cases a with
    | none =>
      simp [Session.NewADKShadow, Session.writeShadowAction, World.NewString, Conn.WriteJSON,
        hcw, saveStreamMsg]
    | some err =>
      simp [Session.NewADKShadow, Session.writeShadowAction, World.NewString, Conn.WriteJSON,
        hcw]

theorem Session.NewADKShadow_spec_witness :
    (Session.NewADKShadow ⟨"s1"⟩ sampleWorld "agentA" "in1" "out1").1 =
      .ok { sess := ⟨"s1"⟩, displayName := "agentA", input := "in1", output := "out1",
            waitStreamID := "uuid-0" } ∧
    (Session.NewADKShadow ⟨"s1"⟩ brokenWorld "agentA" "in1" "out1").1 = .error "broken pipe" :=
  ⟨((Session.NewADKShadow_spec ⟨"s1"⟩ sampleWorld "agentA" "in1" "out1").1
      (by intro err rest h; cases h)).1,
   ((Session.NewADKShadow_spec ⟨"s1"⟩ brokenWorld "agentA" "in1" "out1").2.1
      "broken pipe" [] rfl).1⟩

/-- C14, the code at the failing input: ReadAll of stream `out1` takes the chunk of a
frame of another stream into its result, and a terminal frame of another stream ends
the read before the frames of `out1` are read. -/
theorem ReadAll_takes_other_streams :
    (Session.ReadAll ⟨"s1"⟩
      (connWith [.ok (framesMsg [dataFrame "other" [7] true, dataFrame "out1" [1] false])])
      "out1").1 =
      .ok [some { MIMEType := "application/json", Data := some [7] },
           some { MIMEType := "application/json", Data := some [1] }] ∧
    (Session.ReadAll ⟨"s1"⟩
      (connWith [.ok (framesMsg [dataFrame "other" [7] false]),
                 .ok (framesMsg [dataFrame "out1" [1] false])])
      "out1").1 = .ok [some { MIMEType := "application/json", Data := some [7] }] ∧
    (Session.ReadAll ⟨"s1"⟩
      (connWith [.ok (framesMsg [dataFrame "other" [7] false]),
                 .ok (framesMsg [dataFrame "out1" [1] false])])
      "out1").2.inbox = [.ok (framesMsg [dataFrame "out1" [1] false])] ∧
    (Session.ReadAll ⟨"s1"⟩ (connWith []) "out1").2.sent = [restoreStreamMsg "s1" "out1"] :=
  ⟨by decide, by decide, rfl, by decide⟩


/-! ## The reads of ResumerEventLog -/

theorem lastSessionID_cons (r : String × String) (records : List (String × String))
    (dflt : String) : lastSessionID (r :: records) dflt = lastSessionID records r.1 := by
  cases records with
  | nil => rfl
  | cons r1 records =>
    simp only [lastSessionID, List.getLast?_cons_cons]
    cases h : (r1 :: records).getLast? with
    | none => simp at h
    | some x => rfl

theorem WellFormedLine.fields {raw : List Char} (h : WellFormedLine raw) :
    (String.mk raw).utf8ByteSize < MaxScanTokenSize ∧
    ∃ sessionID kind rest, lineFields raw = sessionID :: kind :: rest ∧
      (kind = "stream" → rest ≠ []) := by
  obtain ⟨h1, h2, h3⟩ := h
  refine ⟨h1, ?_⟩
  rcases hf : lineFields raw with _ | ⟨a, _ | ⟨b, rest⟩⟩
  · simp [hf] at h2
  · simp [hf] at h2
  · refine ⟨a, b, rest, rfl, ?_⟩
    intro hb hrest
    subst hb hrest
    simp [hf] at h3

theorem scanJournal_wellFormed (lines : List (List Char)) :
    ∀ (s : String) (ids : List String), (∀ raw ∈ lines, WellFormedLine raw) →
      scanJournal lines s ids =
        .ok (lastSessionID (streamRecords lines) s, ids ++ (streamRecords lines).map Prod.snd) := by
  induction lines with
  | nil => intro s ids _; simp [scanJournal, streamRecords, lastSessionID]
  | cons raw lines ih =>
    intro s ids hwf
    obtain ⟨hsize, sid, kind, rest, hfields, hrest⟩ := (hwf raw (List.mem_cons_self _ _)).fields
    have hwf1 : ∀ r ∈ lines, WellFormedLine r := fun r hr => hwf r (List.mem_cons_of_mem _ hr)
    have hsize1 : ¬ MaxScanTokenSize ≤ (String.mk raw).utf8ByteSize := Nat.not_le.2 hsize
    have hf : Split (String.mk (dropCR raw)) = sid :: kind :: rest := hfields
    by_cases hk : kind = "stream"
    · obtain ⟨id, rest1, hr1⟩ := List.exists_cons_of_ne_nil (hrest hk)
      subst hr1
      subst hk
      simp only [scanJournal, hsize1, if_false, hf, streamRecords, lineFields]
      simp only [List.getElem?_cons_succ, List.getElem?_cons_zero, if_true, List.headD_cons]
      rw [ih sid (ids ++ [id]) hwf1, lastSessionID_cons]
      simp
    · have hrec : streamRecords (raw :: lines) = streamRecords lines := by
        simp only [streamRecords, lineFields, hf]
        cases rest with
        | nil => rfl
        | cons id rest1 => simp [hk]
      simp only [scanJournal, hsize1, if_false, hf, hrec]
      simp only [List.getElem?_cons_succ, List.getElem?_cons_zero, hk, if_false]
      exact ih s ids hwf1

theorem Session.ReadAll_sent_cases (s : Session) (c : Conn) (id : String) :
    ((s.ReadAll c id).2.sent = c.sent ∧ ∃ err, (s.ReadAll c id).1 = .error err) ∨
    (s.ReadAll c id).2.sent = c.sent ++ [restoreStreamMsg s.sessionID id] := by
  unfold Session.ReadAll Conn.WriteJSON
  rcases c.wfaults with _ | ⟨a, rest⟩
  · exact Or.inr rfl
  · cases a with
    | none => exact Or.inr rfl
    | some err => exact Or.inl ⟨rfl, err, rfl⟩

theorem hydrate_reads (J : JSONCodec) (sess : Session) (ids : List String) :
    ∀ (c : Conn) (events : List Event), ∃ k,
      (hydrate J sess ids c events).2.sent =
        c.sent ++ (ids.take k).map (restoreStreamMsg sess.sessionID) ∧
      ∀ evs, (hydrate J sess ids c events).1 = .ok evs → k = ids.length := by
  induction ids with
  | nil => intro c events; exact ⟨0, by simp [hydrate], by simp⟩
  | cons id ids ih =>
    intro c events
    have hcases := Session.ReadAll_sent_cases sess c id
    simp only [hydrate]
    rcases hr : sess.ReadAll c id with ⟨r, c1⟩
    rw [hr] at hcases
    simp only at hcases
    rcases hcases with ⟨hsent, err, herr⟩ | hsent
    · subst herr
      exact ⟨0, by simp [hsent], by simp⟩
    · have hone : c1.sent = c.sent ++
          ((id :: ids).take 1).map (restoreStreamMsg sess.sessionID) := by simp [hsent]
      cases r with
      | ok chunks =>
        simp only
        cases hydrateChunks J chunks events with
        | error err => exact ⟨1, hone, by simp⟩
        | ok events1 =>
          obtain ⟨k, hk1, hk2⟩ := ih c1 events1
          refine ⟨k + 1, ?_, ?_⟩
          · simp [hk1, hsent]
          · intro evs hevs
            simp [hk2 evs hevs]
      | error err => exact ⟨1, hone, by simp⟩
      | panic msg => exact ⟨1, hone, by simp⟩
      | blocked => exact ⟨1, hone, by simp⟩

theorem ResumerEventLog_conn (J : JSONCodec) (w : World) (filename : String) :
    (ResumerEventLog J w filename).2.conn =
      match w.fs.openErr filename with
      | some _ => w.conn
      | none =>
        match scanJournal (rawLines (w.fs.content filename).data) "" [] with
        | .ok (sessionID, eventIDs) => (hydrate J ⟨sessionID⟩ eventIDs w.conn []).2
        | _ => w.conn := by
  unfold ResumerEventLog
  have h1 := FS.OpenFile_fst w.fs filename false
  have h2 := FS.OpenFile_content w.fs filename filename
  rcases ho : w.fs.OpenFile filename false with ⟨r, fs1⟩
  rw [ho] at h1 h2
  simp only at h1 h2
  cases he : w.fs.openErr filename with
  | some err => rw [he] at h1; subst h1; rfl
  | none =>
    rw [he] at h1; subst h1
    simp only [h2]
    cases scanJournal (rawLines (w.fs.content filename).data) "" [] with
    | error err => rfl
    | panic msg => rfl
    | blocked => rfl
    | ok p =>
      obtain ⟨sid, ids⟩ := p
      simp only [OpenSession]
      rcases hydrate J ⟨sid⟩ ids w.conn [] with ⟨r, c1⟩
      cases r <;> rfl

/-- The reads of ResumerEventLog in terms of the lines the scanner cuts: one restore
read per line whose second field is `stream`, in order, all under the session id of
the last such line, stopping only at a read that fails; and all of them when
ResumerEventLog returns. -/
theorem ResumerEventLog_reads (J : JSONCodec) (w : World) (filename : String)
    (hwf : ∀ raw ∈ rawLines (w.fs.content filename).data, WellFormedLine raw) :
    (∃ k, (ResumerEventLog J w filename).2.conn.sent = w.conn.sent ++
      ((streamRecords (rawLines (w.fs.content filename).data)).take k).map
        (fun r => restoreStreamMsg
          (lastSessionID (streamRecords (rawLines (w.fs.content filename).data)) "") r.2)) ∧
    (∀ log events, (ResumerEventLog J w filename).1 = .ok (log, events) →
      (ResumerEventLog J w filename).2.conn.sent = w.conn.sent ++
        (streamRecords (rawLines (w.fs.content filename).data)).map
          (fun r => restoreStreamMsg
            (lastSessionID (streamRecords (rawLines (w.fs.content filename).data)) "") r.2) ∧
      log = { logFile := ⟨filename⟩,
              session := ⟨lastSessionID
                (streamRecords (rawLines (w.fs.content filename).data)) ""⟩,
              shadows := [] }) := by
  have hscan := scanJournal_wellFormed (rawLines (w.fs.content filename).data) "" [] hwf
  simp only [List.nil_append] at hscan
  obtain ⟨k, hk1, hk2⟩ := hydrate_reads J
    ⟨lastSessionID (streamRecords (rawLines (w.fs.content filename).data)) ""⟩
    ((streamRecords (rawLines (w.fs.content filename).data)).map Prod.snd) w.conn []
  rw [ResumerEventLog_conn, ResumerEventLog_fst, hscan]
  cases ho : w.fs.openErr filename with
  | some err => exact ⟨⟨0, by simp⟩, by intro log events h; simp at h⟩
  | none =>
    simp only
    constructor
    · exact ⟨k, by rw [hk1, ← List.map_take, List.map_map]; rfl⟩
    · intro log events h
      rcases hh : hydrate J
        ⟨lastSessionID (streamRecords (rawLines (w.fs.content filename).data)) ""⟩
        ((streamRecords (rawLines (w.fs.content filename).data)).map Prod.snd) w.conn []
        with ⟨r, c1⟩
      rw [hh] at h hk1 hk2
      simp only at h hk1 hk2
      cases r with
      | ok evs =>
        simp only [Res.ok.injEq, Prod.mk.injEq] at h
        have hk := hk2 evs rfl
        refine ⟨?_, h.1.symm⟩
        rw [hk1, hk, List.take_length, List.map_map]
        rfl
      | error err => simp at h
      | panic msg => simp at h
      | blocked => simp at h

/-! ## Journals written out record by record -/

/-- The line of a record as the scanner cuts it: without the newline. -/
theorem Record.chars_eq (r : Record) :
    r.chars = (List.intercalate ['|'] (r.fields.map String.data) ++
      (if r.crlf then ['\r'] else [])) ++ ['\n'] := by
  unfold Record.chars
  cases r.crlf <;> simp

theorem intercalate_cons_cons (sep a b : List Char) (l : List (List Char)) :
    List.intercalate sep (a :: b :: l) = a ++ sep ++ List.intercalate sep (b :: l) := by
  simp [List.intercalate, List.intersperse]

theorem intercalate_ne (fields : List (List Char)) (P : Char → Prop) (hsep : P '|')
    (h : ∀ f ∈ fields, ∀ ch ∈ f, P ch) :
    ∀ ch ∈ List.intercalate ['|'] fields, P ch := by
  induction fields with
  | nil => intro ch hch; simp [List.intercalate] at hch
  | cons a l ih =>
    cases l with
    | nil =>
      intro ch hch
      have : List.intercalate ['|'] [a] = a := by simp [List.intercalate]
      rw [this] at hch
      exact h a (List.mem_cons_self _ _) ch hch
    | cons b l =>
      intro ch hch
      rw [intercalate_cons_cons] at hch
      simp only [List.append_assoc, List.singleton_append, List.mem_append, List.mem_cons] at hch
      rcases hch with hch | rfl | hch
      · exact h a (List.mem_cons_self _ _) ch hch
      · exact hsep
      · exact ih (fun f hf => h f (List.mem_cons_of_mem _ hf)) ch hch

theorem splitChars_intercalate (fields : List (List Char)) (hne : fields ≠ [])
    (h : ∀ f ∈ fields, ∀ ch ∈ f, ch ≠ '|') :
    splitChars '|' (List.intercalate ['|'] fields) = fields := by
  induction fields with
  | nil => exact absurd rfl hne
  | cons a l ih =>
    cases l with
    | nil =>
      have : List.intercalate ['|'] [a] = a := by simp [List.intercalate]
      rw [this]
      exact splitChars_clean '|' a (h a (List.mem_cons_self _ _))
    | cons b l =>
      rw [intercalate_cons_cons]
      simp only [List.append_assoc, List.singleton_append]
      rw [splitChars_append '|' a _ (h a (List.mem_cons_self _ _)),
        ih (by simp) (fun f hf => h f (List.mem_cons_of_mem _ hf))]

theorem dropCR_append_CR (l : List Char) : dropCR (l ++ ['\r']) = l := by
  simp [dropCR]

/-- The fields the scan finds on the line of a well-formed record are its fields. -/
theorem Record.lineFields_eq (r : Record) (h : r.WellFormed) :
    lineFields (List.intercalate ['|'] (r.fields.map String.data) ++
      (if r.crlf then ['\r'] else [])) = r.fields := by
  obtain ⟨hclean, hlen, _, _⟩ := h
  have hdrop : dropCR (List.intercalate ['|'] (r.fields.map String.data) ++
      (if r.crlf then ['\r'] else [])) = List.intercalate ['|'] (r.fields.map String.data) := by
    cases r.crlf with
    | true => exact dropCR_append_CR _
    | false =>
      simp only [Bool.false_eq_true, if_false, List.append_nil]
      apply dropCR_of_no_CR
      apply intercalate_ne _ (fun ch => ch ≠ '\r') (by decide)
      intro f hf ch hch
      obtain ⟨s, hs, rfl⟩ := List.mem_map.1 hf
      exact (hclean s hs ch hch).2.2
  have hne : r.fields.map String.data ≠ [] := by
    intro h0
    have : r.fields = [] := by simpa using h0
    rw [this] at hlen
    simp at hlen
  unfold lineFields Split
  rw [hdrop]
  simp only
  rw [splitChars_intercalate _ hne]
  · simp [List.map_map, Function.comp_def]
  · intro f hf ch hch
    obtain ⟨s, hs, rfl⟩ := List.mem_map.1 hf
    exact (hclean s hs ch hch).1

theorem Record.wellFormedLine (r : Record) (h : r.WellFormed) :
    WellFormedLine (List.intercalate ['|'] (r.fields.map String.data) ++
      (if r.crlf then ['\r'] else [])) := by
  have hf := r.lineFields_eq h
  obtain ⟨_, hlen, hstream, hsize⟩ := h
  refine ⟨?_, by rw [hf]; exact hlen, by rw [hf]; exact hstream⟩
  exact utf8Len_raw_lt _ (String.mk r.chars) r.chars_eq hsize

theorem rawLines_journalText (rs : List Record) (h : ∀ r ∈ rs, r.WellFormed) :
    rawLines (journalText rs).data =
      rs.map (fun r => List.intercalate ['|'] (r.fields.map String.data) ++
        (if r.crlf then ['\r'] else [])) := by
  have hj : (journalText rs).data =
      joinLines (rs.map (fun r => List.intercalate ['|'] (r.fields.map String.data) ++
        (if r.crlf then ['\r'] else []))) := by
    simp only [journalText, joinLines, List.flatMap_map]
    congr 1
    funext r
    exact r.chars_eq
  rw [hj]
  apply rawLines_joinLines
  intro l hl ch hch
  obtain ⟨r, hr, rfl⟩ := List.mem_map.1 hl
  rcases List.mem_append.1 hch with hch | hch
  · refine intercalate_ne _ (fun ch => ch ≠ '\n') (by decide) ?_ ch hch
    intro f hf ch1 hch1
    obtain ⟨s, hs, rfl⟩ := List.mem_map.1 hf
    exact ((h r hr).1 s hs ch1 hch1).2.1
  · cases hc : r.crlf <;> simp [hc] at hch
    rw [hch]; decide

theorem streamRecords_records (rs : List Record) (h : ∀ r ∈ rs, r.WellFormed) :
    streamRecords (rs.map (fun r => List.intercalate ['|'] (r.fields.map String.data) ++
        (if r.crlf then ['\r'] else []))) =
      (rs.filter Record.isStream).map (fun r => (r.fields.headD "", r.fields.getD 2 "")) := by
  induction rs with
  | nil => rfl
  | cons r rs ih =>
    have hr := h r (List.mem_cons_self _ _)
    have ih1 := ih (fun r1 h1 => h r1 (List.mem_cons_of_mem _ h1))
    have hf := r.lineFields_eq hr
    obtain ⟨_, hlen, hstream, _⟩ := hr
    simp only [List.map_cons, streamRecords, hf, ih1]
    rcases hfields : r.fields with _ | ⟨a, _ | ⟨b, _ | ⟨c, l⟩⟩⟩
    · rw [hfields] at hlen; simp at hlen
    · rw [hfields] at hlen; simp at hlen
    · have hb : b ≠ "stream" := by
        intro hb
        rw [hfields, hb] at hstream
        simp at hstream
      simp [List.filter, Record.isStream, hfields, hb]
    · by_cases hb : b = "stream"
      · simp [List.filter, Record.isStream, hfields, hb]
      · simp [List.filter, Record.isStream, hfields, hb]

theorem lastSessionID_records (l : List Record) :
    lastSessionID (l.map (fun r => (r.fields.headD "", r.fields.getD 2 ""))) "" =
      match l.getLast? with
      | none => ""
      | some r => r.fields.headD "" := by
  simp only [lastSessionID, List.getLast?_map]
  cases l.getLast? <;> rfl

/-- C13: for every journal that holds well-formed records (fields free of `|` and line
breaks, at least session id and kind, a stream id on `stream` records, lines ended by a
newline or by carriage return and newline, within the scanner's token size), the
messages ResumerEventLog sends are restore_stream reads: one per `stream` record in
file order, each asking for the record's third field as the stream id, all under the
session id of the last `stream` record, stopping only at a read that fails; records of
another kind cause no read. When ResumerEventLog returns, it has issued exactly one
read for every `stream` record, and the EventLog returned is bound to that session, on
the journal file, with an empty Shadow table. -/
theorem ResumerEventLog_reads_records (J : JSONCodec) (w : World) (filename : String)
    (rs : List Record) (hwf : ∀ r ∈ rs, r.WellFormed)
    (hj : w.fs.content filename = journalText rs) :
    (∃ k, (ResumerEventLog J w filename).2.conn.sent = w.conn.sent ++
      ((streamIDs rs).take k).map (fun id =>
        ({ SessionID := lastSession rs
           ActionGraph := some
             { Actions := [{ Name := "restore_stream"
                             Inputs := []
                             Outputs := [{ Name := "output", StreamID := id }] }]
               Outputs := [{ Name := "output", StreamID := id }] }
           StreamFrames := [] } : executeActionsMsg))) ∧
    (∀ log events, (ResumerEventLog J w filename).1 = .ok (log, events) →
      (ResumerEventLog J w filename).2.conn.sent = w.conn.sent ++
        (streamIDs rs).map (fun id =>
          ({ SessionID := lastSession rs
             ActionGraph := some
               { Actions := [{ Name := "restore_stream"
                               Inputs := []
                               Outputs := [{ Name := "output", StreamID := id }] }]
                 Outputs := [{ Name := "output", StreamID := id }] }
             StreamFrames := [] } : executeActionsMsg)) ∧
      log = { logFile := ⟨filename⟩, session := ⟨lastSession rs⟩, shadows := [] }) := by
  have hraw := rawLines_journalText rs hwf
  rw [← hj] at hraw
  have hlines : ∀ raw ∈ rawLines (w.fs.content filename).data, WellFormedLine raw := by
    rw [hraw]
    intro raw hr
    obtain ⟨r, hr1, rfl⟩ := List.mem_map.1 hr
    exact r.wellFormedLine (hwf r hr1)
  have hrec := streamRecords_records rs hwf
  rw [← hraw] at hrec
  have hsess : lastSessionID (streamRecords (rawLines (w.fs.content filename).data)) "" =
      lastSession rs := by
    rw [hrec, lastSessionID_records]
    rfl
  have hmain := ResumerEventLog_reads J w filename hlines
  rw [hsess, hrec] at hmain
  obtain ⟨⟨k, hk⟩, hall⟩ := hmain
  constructor
  · refine ⟨k, ?_⟩
    rw [hk, streamIDs, ← List.map_take, ← List.map_take, List.map_map, List.map_map]
    rfl
  · intro log events hok
    obtain ⟨h1, h2⟩ := hall log events hok
    refine ⟨?_, h2⟩
    rw [h1, streamIDs, List.map_map, List.map_map]
    rfl

theorem ResumerEventLog_reads_records_witness :
    (ResumerEventLog sampleJSON
      (journalWorld "s1|agent_start|agentA|in1|out1\ns1|stream|out1\r\ns2|stream|out2\n"
        [.ok (frameMsg "out1" false), .ok (frameMsg "out2" false)]) "j.log").2.conn.sent =
      [{ SessionID := "s2"
         ActionGraph := some
           { Actions := [{ Name := "restore_stream"
                           Inputs := []
                           Outputs := [{ Name := "output", StreamID := "out1" }] }]
             Outputs := [{ Name := "output", StreamID := "out1" }] }
         StreamFrames := [] },
       { SessionID := "s2"
         ActionGraph := some
           { Actions := [{ Name := "restore_stream"
                           Inputs := []
                           Outputs := [{ Name := "output", StreamID := "out2" }] }]
             Outputs := [{ Name := "output", StreamID := "out2" }] }
         StreamFrames := [] }] :=
  ((ResumerEventLog_reads_records sampleJSON
    (journalWorld "s1|agent_start|agentA|in1|out1\ns1|stream|out1\r\ns2|stream|out2\n"
      [.ok (frameMsg "out1" false), .ok (frameMsg "out2" false)]) "j.log"
    [{ fields := ["s1", "agent_start", "agentA", "in1", "out1"], crlf := false },
     { fields := ["s1", "stream", "out1"], crlf := true },
     { fields := ["s2", "stream", "out2"], crlf := false }]
    (by decide) (by decide)).2
    { logFile := ⟨"j.log"⟩, session := ⟨"s2"⟩, shadows := [] } [] (by decide)).1


/-- A journal whose `stream` line ends with carriage return and newline: the read asks
for the stream id without the carriage return. -/
theorem ResumerEventLog_reads_crlf :
    (ResumerEventLog sampleJSON
      (journalWorld "s1|stream|out1\r\n" [.ok (frameMsg "out1" false)]) "j.log").2.conn.sent =
      [{ SessionID := "s1"
         ActionGraph := some
           { Actions := [{ Name := "restore_stream"
                           Inputs := []
                           Outputs := [{ Name := "output", StreamID := "out1" }] }]
             Outputs := [{ Name := "output", StreamID := "out1" }] }
         StreamFrames := [] }] := by
  decide


/-! ## Journal lines written and read back -/

theorem utf8Len_replicate (n : Nat) : String.utf8Len (List.replicate n 'a') = n := by
  induction n with
  | zero => rfl
  | succ n ih =>
    rw [List.replicate_succ, String.utf8Len_cons, ih]
    have : ('a' : Char).utf8Size = 1 := by decide
    omega

theorem scanJournal_long_line (sessionID : String) (hs : Clean sessionID) (n : Nat)
    (hn : MaxScanTokenSize ≤ n) (s : String) (ids : List String) :
    scanJournal (rawLines (streamLine sessionID (String.mk (List.replicate n 'a'))).data) s ids =
      .error "bufio.Scanner: token too long" := by
  have hclean : Clean (String.mk (List.replicate n 'a')) := by
    intro ch hch
    rw [List.eq_of_mem_replicate hch]
    decide
  have hraw : rawLines (streamLine sessionID (String.mk (List.replicate n 'a'))).data =
      [streamRaw sessionID (String.mk (List.replicate n 'a'))] := by
    rw [streamLine_data]
    exact rawLines_line _ [] (fun ch hch => (streamRaw_ne sessionID _ hs hclean ch hch).1)
  have hlen : MaxScanTokenSize ≤
      (String.mk (streamRaw sessionID (String.mk (List.replicate n 'a')))).utf8ByteSize := by
    rw [String.utf8ByteSize_mk]
    unfold streamRaw
    simp only [String.utf8Len_append, String.utf8Len_cons, utf8Len_replicate]
    omega
  rw [hraw]
  unfold scanJournal
  rw [if_pos hlen]

/-- C19, counterexample: a LogActivity line whose kind is `stream|x`, which is not
`stream`, with name, input and output free of `|` and line breaks, is read back as a
`stream` record: it contributes the stream id `x`, and ResumerEventLog issues a read
for it. And the line LogEvent writes for an output id of 65536 letters is not read back
at all: the scanner stops with its token-size error. -/
theorem activity_kind_with_delimiter :
    ("stream|x" : String) ≠ "stream" ∧
    scanJournal (rawLines (activityLine "s1" "stream|x" "agentA" "in1" "out1").data) "" [] =
      .ok ("s1", ["x"]) ∧
    (ResumerEventLog sampleJSON
      (journalWorld (activityLine "s1" "stream|x" "agentA" "in1" "out1") []) "j.log").2.conn.sent =
      [restoreStreamMsg "s1" "x"] ∧
    scanJournal (rawLines (streamLine "s1" (String.mk (List.replicate 65536 'a'))).data) "" [] =
      .error "bufio.Scanner: token too long" :=
  ⟨by decide, by decide, by decide,
    scanJournal_long_line "s1" (by decide) 65536 (by decide) "" []⟩

/-- C19, amended: journal line round trip. For every session id and output id free of
`|`, line feed and carriage return, with the line within the scanner's token size, the
line LogEvent writes is read back by the scan of ResumerEventLog as one `stream` record
with exactly that session id and that stream id. Every line LogActivity writes with a
kind other than `stream`, where the session id, kind, name, input and output are free of
`|`, line feed and carriage return and the line is within the token size, is read back
as one line that contributes no stream id and leaves the session id as it was. -/
theorem journal_line_roundtrip (sessionID id kind name input output : String)
    (hs : Clean sessionID) :
    (Clean id → (streamLine sessionID id).utf8ByteSize ≤ MaxScanTokenSize →
      rawLines (streamLine sessionID id).data = [streamRaw sessionID id] ∧
      lineFields (streamRaw sessionID id) = [sessionID, "stream", id] ∧
      ∀ s ids, scanJournal (rawLines (streamLine sessionID id).data) s ids =
        .ok (sessionID, ids ++ [id])) ∧
    (Clean kind → Clean name → Clean input → Clean output → kind ≠ "stream" →
      (activityLine sessionID kind name input output).utf8ByteSize ≤ MaxScanTokenSize →
      rawLines (activityLine sessionID kind name input output).data =
        [activityRaw sessionID kind name input output] ∧
      ∀ s ids, scanJournal (rawLines (activityLine sessionID kind name input output).data) s ids =
        .ok (s, ids)) := by
  constructor
  · intro hi hfit
    have hraw : rawLines (streamLine sessionID id).data = [streamRaw sessionID id] := by
      rw [streamLine_data]
      exact rawLines_line _ [] (fun ch hch => (streamRaw_ne sessionID id hs hi ch hch).1)
    refine ⟨hraw, ?_, ?_⟩
    · unfold lineFields
      rw [dropCR_of_no_CR _ (fun ch hch => (streamRaw_ne sessionID id hs hi ch hch).2)]
      exact Split_streamRaw sessionID id hs hi
    · intro s ids
      rw [hraw]
      exact scanJournal_streamRaw sessionID id s ids hs hi hfit
  · intro hk hn hi ho hkind hfit
    have hraw : rawLines (activityLine sessionID kind name input output).data =
        [activityRaw sessionID kind name input output] := by
      rw [activityLine_data]
      exact rawLines_line _ []
        (fun ch hch => (activityRaw_ne sessionID kind name input output hs hk hn hi ho ch hch).1)
    refine ⟨hraw, ?_⟩
    intro s ids
    rw [hraw]
    exact scanJournal_activityRaw sessionID kind name input output s ids hs hk hn hi ho hkind
      hfit

theorem journal_line_roundtrip_witness :
    scanJournal (rawLines (streamLine "s1" "out1").data) "" [] = .ok ("s1", [] ++ ["out1"]) ∧
    scanJournal (rawLines (activityLine "s1" "agent_start" "agentA" "in1" "out1").data) "s0"
      ["out0"] = .ok ("s0", ["out0"]) :=
  ⟨((journal_line_roundtrip "s1" "out1" "agent_start" "agentA" "in1" "out1" (by decide)).1
      (by decide) (by decide)).2.2 "" [],
   ((journal_line_roundtrip "s1" "out1" "agent_start" "agentA" "in1" "out1" (by decide)).2
      (by decide) (by decide) (by decide) (by decide) (by decide) (by decide)).2 "s0" ["out0"]⟩


/-! ## Choosing the agent to run -/

/-- What `isTransferableAcrossAgentTree` returns when it returns: the test of the
agent it was called with, whatever the agents up the parent chain are. -/
theorem isTransferableLoop_result (parents : String → Option Agent) (agentToRun : Agent)
    (fuel : Nat) (curAgent : Agent) (b : Bool)
    (h : isTransferableLoop parents agentToRun fuel (some curAgent) = some b) :
    b = (match agentToRun.llm with
         | none => false
         | some llmAgent => !llmAgent.DisallowTransferToParent) := by
  induction fuel generalizing curAgent with
  | zero => simp [isTransferableLoop] at h
  | succ fuel ih =>
    cases hl : agentToRun.llm with
    | none => simp [isTransferableLoop, hl] at h; simp [h]
    | some st =>
      by_cases hd : st.DisallowTransferToParent = true
      · simp [isTransferableLoop, hl, hd] at h; simp [h, hd]
      · simp only [isTransferableLoop, hl, hd, if_false] at h
        cases hp : parents curAgent.Name with
        | none =>
          rw [hp] at h
          simp [isTransferableLoop] at h
          simp [← h, hd]
        | some p =>
          rw [hp] at h
          have := ih p h
          simpa [hl] using this

theorem isTransferableLoop_returns (parents : String → Option Agent) (agentToRun : Agent)
    (fuel : Nat) (cur : Option Agent) (h : (parentStep parents)^[fuel] cur = none) :
    ∃ b, isTransferableLoop parents agentToRun fuel cur = some b := by
  induction fuel generalizing cur with
  | zero =>
    simp only [Function.iterate_zero, id_eq] at h
    subst h
    exact ⟨true, rfl⟩
  | succ fuel ih =>
    cases cur with
    | none => exact ⟨true, rfl⟩
    | some c =>
      rw [Function.iterate_succ_apply] at h
      cases hl : agentToRun.llm with
      | none => exact ⟨false, by simp [isTransferableLoop, hl]⟩
      | some st =>
        by_cases hd : st.DisallowTransferToParent = true
        · exact ⟨false, by simp [isTransferableLoop, hl, hd]⟩
        · obtain ⟨b, hb⟩ := ih (parents c.Name) h
          exact ⟨b, by simp [isTransferableLoop, hl, hd, hb]⟩

/-- C17, the code at the failing input: for the LLM agent `child`, which allows
transfer, under a parent that disallows transfer to parent, or under a parent that is
not an LLM agent, `isTransferableAcrossAgentTree` returns true: each turn of the loop
tests the agent it was called with, not the current ancestor. -/
theorem isTransferable_ignores_ancestors :
    isTransferableAcrossAgentTree (sampleParents parentAgent) 3 childAgent = some true ∧
    isTransferableAcrossAgentTree (sampleParents plainParent) 3 childAgent = some true ∧
    parentAgent.llm = some ⟨true⟩ ∧ plainParent.llm = none ∧
    sampleParents parentAgent childAgent.Name = some parentAgent := by
  refine ⟨by decide, by decide, rfl, rfl, rfl⟩

theorem findAgentToRunLoop_spec (findAgent : Agent → String → Option Agent)
    (parents : String → Option Agent) (fuel : Nat) (rootAgent : Agent)
    (hchain : ∀ a : Agent, (parentStep parents)^[fuel] (some a) = none) (events : List Event) :
    findAgentToRunLoop findAgent parents fuel rootAgent events =
      some ((events.findSome? (fun event =>
        if event.Author = "user" then none
        else (findAgent rootAgent event.Author).filter
          (fun a => isTransferableAcrossAgentTree parents fuel a == some true))).getD rootAgent,
        none) := by
  induction events with
  | nil => rfl
  | cons event older ih =>
    by_cases hu : event.Author = "user"
    · simp [findAgentToRunLoop, hu, ih, List.findSome?_cons]
    · cases hf : findAgent rootAgent event.Author with
      | none => simp [findAgentToRunLoop, hu, hf, ih, List.findSome?_cons]
      | some sub =>
        obtain ⟨b, hb⟩ := isTransferableLoop_returns parents sub fuel (some sub) (hchain sub)
        have hb1 : isTransferableAcrossAgentTree parents fuel sub = some b := hb
        cases b with
        | true =>
          simp [findAgentToRunLoop, hu, hf, hb1, List.findSome?_cons, Option.filter]
        | false =>
          simp [findAgentToRunLoop, hu, hf, hb1, ih, List.findSome?_cons, Option.filter]

/-- C18: when every parent chain ends within `fuel` steps, `findAgentToRun` returns, with
a nil error, the agent of the newest event whose author is not `user`, for which
`findAgent` finds an agent from the root and for which `isTransferableAcrossAgentTree`
returns true; for a history without such an event (empty, user events only, unknown or
non-transferable authors only) it returns the root agent. -/
theorem findAgentToRun_spec (findAgent : Agent → String → Option Agent)
    (parents : String → Option Agent) (fuel : Nat) (rootAgent : Agent) (events : List Event)
    (hchain : ∀ a : Agent, (parentStep parents)^[fuel] (some a) = none) :
    findAgentToRun findAgent parents fuel rootAgent events =
      some (agentToRunSpec findAgent
        (fun a => isTransferableAcrossAgentTree parents fuel a == some true) rootAgent events,
        none) ∧
    (events = [] → findAgentToRun findAgent parents fuel rootAgent events =
      some (rootAgent, none)) ∧
    ((∀ event ∈ events, event.Author = "user" ∨ findAgent rootAgent event.Author = none ∨
        ∃ a, findAgent rootAgent event.Author = some a ∧
          isTransferableAcrossAgentTree parents fuel a = some false) →
      findAgentToRun findAgent parents fuel rootAgent events = some (rootAgent, none)) := by
  have hmain := findAgentToRunLoop_spec findAgent parents fuel rootAgent hchain events.reverse
  refine ⟨hmain, ?_, ?_⟩
  · intro he
    subst he
    rfl
  · intro hall
    unfold findAgentToRun
    rw [hmain]
    have hnone : events.reverse.findSome? (fun event =>
        if event.Author = "user" then none
        else (findAgent rootAgent event.Author).filter
          (fun a => isTransferableAcrossAgentTree parents fuel a == some true)) = none := by
      rw [List.findSome?_eq_none_iff]
      intro event hev
      rcases hall event (List.mem_reverse.1 hev) with h | h | ⟨a, h1, h2⟩
      · simp [h]
      · simp [h]
      · by_cases hu : event.Author = "user"
        · simp [hu]
        · simp [hu, h1, h2, Option.filter]
    rw [hnone]
    rfl

theorem findAgentToRun_spec_witness :
    (findAgentToRun sampleFindAgent (fun _ => none) 1 parentAgent
      [authorEvent "user", authorEvent "child", authorEvent "parent", authorEvent "ghost",
       authorEvent "user"]).map (fun p => (p.1.Name, p.2)) = some ("child", none) :=
  have h := (findAgentToRun_spec sampleFindAgent (fun _ => none) 1 parentAgent
    [authorEvent "user", authorEvent "child", authorEvent "parent", authorEvent "ghost",
     authorEvent "user"] (by intro a; rfl)).1
  by rw [h]; decide


/-! ## Full names in the registry -/

theorem intercalate_go_eq (acc : String) (name : String) (rest : List String) :
    String.intercalate.go acc "." (name :: rest) = acc ++ "." ++ joinPath (name :: rest) := by
  induction rest generalizing acc name with
  | nil => simp [String.intercalate.go, joinPath]
  | cons c r ih =>
    simp only [String.intercalate.go] at ih ⊢
    rw [ih]
    simp [joinPath, String.append_assoc]

theorem joinPath_eq_intercalate (path : List String) :
    joinPath path = String.intercalate "." path := by
  cases path with
  | nil => rfl
  | cons a rest =>
    cases rest with
    | nil => rfl
    | cons b r =>
      simp only [String.intercalate, intercalate_go_eq, joinPath]

theorem joinPath_cons (name : String) (path : List String) (h : path ≠ []) :
    joinPath (name :: path) = name ++ "." ++ joinPath path := by
  cases path with
  | nil => exact absurd rfl h
  | cons b r => rfl

mutual
theorem Agent.paths_ne_nil : ∀ (a : Agent), ∀ q ∈ a.paths, q.2 ≠ []
  | .mk ptr name llm subAgents => by
    intro q hq
    simp only [Agent.paths, List.mem_cons, List.mem_map] at hq
    rcases hq with h | ⟨q1, _, h⟩
    · subst h; simp
    · subst h; simp
theorem Agent.pathsAll_ne_nil : ∀ (l : List Agent), ∀ q ∈ Agent.pathsAll l, q.2 ≠ []
  | [] => by intro q hq; simp [Agent.pathsAll] at hq
  | a :: rest => by
    intro q hq
    simp only [Agent.pathsAll, List.mem_append] at hq
    rcases hq with h | h
    · exact Agent.paths_ne_nil a q h
    · exact Agent.pathsAll_ne_nil rest q h
end

theorem entries_cons (pfx name : String) (l : List (Agent × List String))
    (h : ∀ q ∈ l, q.2 ≠ []) :
    (l.map (fun q => (q.1, name :: q.2))).map (fun q => (q.1.ptr, pfx ++ joinPath q.2)) =
      l.map (fun q => (q.1.ptr, pfx ++ name ++ "." ++ joinPath q.2)) := by
  rw [List.map_map]
  apply List.map_congr_left
  intro q hq
  simp only [Function.comp, joinPath_cons name q.2 (h q hq), String.append_assoc]

mutual
theorem Registry.register_agentNames : ∀ (a : Agent) (r : Registry) (pfx : String),
    (Registry.register r pfx a).agentNames =
      (a.paths.map (fun q => (q.1.ptr, pfx ++ joinPath q.2))).reverse ++ r.agentNames
  | .mk ptr name llm subAgents, r, pfx => by
    rw [Registry.register, Registry.registerAll_agentNames subAgents]
    simp only [Agent.paths, List.map_cons, List.reverse_cons, List.append_assoc,
      List.singleton_append, joinPath]
    rw [entries_cons pfx name _ (Agent.pathsAll_ne_nil subAgents)]
    rfl
theorem Registry.registerAll_agentNames : ∀ (l : List Agent) (r : Registry) (pfx : String),
    (Registry.registerAll r pfx l).agentNames =
      ((Agent.pathsAll l).map (fun q => (q.1.ptr, pfx ++ joinPath q.2))).reverse ++ r.agentNames
  | [], r, pfx => by simp [Registry.registerAll, Agent.pathsAll]
  | a :: rest, r, pfx => by
    rw [Registry.registerAll, Registry.registerAll_agentNames rest,
      Registry.register_agentNames a]
    simp [Agent.pathsAll]
end

theorem lookup_of_mem_nodup (l : List (Nat × String)) (k : Nat) (v : String)
    (hmem : (k, v) ∈ l) (hnd : (l.map Prod.fst).Nodup) : l.lookup k = some v := by
  induction l with
  | nil => simp at hmem
  | cons p l ih =>
    obtain ⟨k1, v1⟩ := p
    simp only [List.map_cons, List.nodup_cons] at hnd
    rcases List.mem_cons.1 hmem with h | h
    · cases h
      simp [List.lookup]
    · have hne : k ≠ k1 := by
        intro heq
        subst heq
        exact hnd.1 (List.mem_map_of_mem Prod.fst h)
      have hbeq : (k == k1) = false := by simpa using hne
      simp only [List.lookup, hbeq]
      exact ih h hnd.2

theorem lookup_of_not_mem (l : List (Nat × String)) (k : Nat)
    (h : k ∉ l.map Prod.fst) : l.lookup k = none := by
  induction l with
  | nil => rfl
  | cons p l ih =>
    obtain ⟨k1, v1⟩ := p
    simp only [List.map_cons, List.mem_cons, not_or] at h
    have hbeq : (k == k1) = false := by simpa using h.1
    simp only [List.lookup, hbeq]
    exact ih h.2

/-- C20: `NewRegistry` is a total function on finite agent trees, and for a tree whose
agents are pairwise distinct, `AgentFullname` of each agent of the tree is the names of
the agents on the path from the root to it joined with `.`; the root's full name is its
plain name. For an agent that is not in the tree `AgentFullname` is the empty string. -/
theorem NewRegistry_fullnames (rootAgent : Agent)
    (hdistinct : (rootAgent.paths.map (fun q => q.1.ptr)).Nodup) :
    (∀ q ∈ rootAgent.paths,
      (NewRegistry rootAgent).AgentFullname q.1 = String.intercalate "." q.2) ∧
    (NewRegistry rootAgent).AgentFullname rootAgent = rootAgent.Name ∧
    (∀ a : Agent, a.ptr ∉ rootAgent.paths.map (fun q => q.1.ptr) →
      (NewRegistry rootAgent).AgentFullname a = "") := by
  have hnames : (NewRegistry rootAgent).agentNames =
      (rootAgent.paths.map (fun q => (q.1.ptr, joinPath q.2))).reverse := by
    rw [NewRegistry, Registry.register_agentNames]
    simp
  have hkeys : ((NewRegistry rootAgent).agentNames.map Prod.fst) =
      (rootAgent.paths.map (fun q => q.1.ptr)).reverse := by
    rw [hnames, List.map_reverse, List.map_map]
    rfl
  have hall : ∀ q ∈ rootAgent.paths,
      (NewRegistry rootAgent).AgentFullname q.1 = String.intercalate "." q.2 := by
    intro q hq
    have hmem : (q.1.ptr, joinPath q.2) ∈ (NewRegistry rootAgent).agentNames := by
      rw [hnames, List.mem_reverse]
      exact List.mem_map_of_mem (fun q => (q.1.ptr, joinPath q.2)) hq
    have hnd : ((NewRegistry rootAgent).agentNames.map Prod.fst).Nodup := by
      rw [hkeys]
      exact List.nodup_reverse.2 hdistinct
    rw [Registry.AgentFullname, lookup_of_mem_nodup _ _ _ hmem hnd, joinPath_eq_intercalate]
    rfl
  refine ⟨hall, ?_, ?_⟩
  · have hroot : (rootAgent, [rootAgent.Name]) ∈ rootAgent.paths := by
      cases rootAgent with
      | mk ptr name llm subAgents => simp [Agent.paths, Agent.Name]
    have := hall _ hroot
    simpa [String.intercalate, String.intercalate.go] using this
  · intro a ha
    rw [Registry.AgentFullname, lookup_of_not_mem _ _ (by rw [hkeys]; simpa using ha)]
    rfl

theorem NewRegistry_fullnames_witness :
    (NewRegistry sampleTree).AgentFullname (.mk 3 "c" none []) =
      String.intercalate "." ["root", "a", "c"] :=
  (NewRegistry_fullnames sampleTree (by decide)).1 (.mk 3 "c" none [], ["root", "a", "c"])
    (by simp [sampleTree, Agent.paths, Agent.pathsAll])


end Groot
